import Mathlib

/-!
MastersDelay: the delay-line engine of `Source/PluginProcessor.h` and
`Source/PluginProcessor.cpp` and the tap tempo of `Source/PluginEditor.cpp`.

A shallow embedding of `DelayLineEffect` (PluginProcessor.h), of
`MastersDelayAudioProcessor::prepareToPlay` / `processBlock`
(PluginProcessor.cpp) and of the tap tempo handler and
`MastersDelayAudioProcessorEditor::calculateTapTempo` (PluginEditor.cpp),
followed by theorems about them.

Conventions of the embedding

* `float` / `double` values are elements of an arbitrary linearly ordered
  field `F` with a floor function (instantiated with `ℚ` wherever a value is
  computed), and every arithmetic operation is the exact field operation:
  rounding, infinities and NaN are outside the model.
* `int` values are elements of `Int`; the C operators `%` and the
  float-to-int conversion truncate toward zero (`Int.tmod`, `truncToInt`).
  The buffer size computed by `prepare` is kept inside the 32-bit range
  (`floatToInt32`, `wrapInt32`).
* a `juce::AudioBuffer<float>` is a total map from channel and sample index
  to a value; a `float*` obtained from `getWritePointer (channel)` is that
  channel number.
* library code (`sinf`, `juce::Reverb`) is passed in as a parameter.
-/

namespace MastersDelay

set_option linter.unusedSectionVars false

section DelayLine

variable {F : Type} [LinearOrderedField F] [FloorRing F]

/-- The conversion `(int) x` of a floating value: truncation toward zero. -/
def truncToInt (x : F) : Int :=
  if 0 ≤ x then Int.floor x else Int.ceil x

/-- The C library function `floorf`. -/
def floorf (x : F) : F :=
  ((Int.floor x : Int) : F)

/-- The C library function `fmodf`: `x - n * y` where `n` is `x / y` with its
fractional part cut off, so the result has the sign of `x`. -/
def fmodf (x y : F) : F :=
  x - ((truncToInt (x / y) : Int) : F) * y

/-- The conversion `(int) x` of a `float` into the 32-bit type `int`:
truncation toward zero when the truncated value lies in
`[-2147483648, 2147483647]`. A value that does not fit is outside what C++
defines; the conversion instruction of x86-64 returns `-2147483648` for it,
and that is the value taken here. -/
def floatToInt32 (x : F) : Int :=
  if -2147483648 ≤ truncToInt x ∧ truncToInt x ≤ 2147483647 then truncToInt x
  else -2147483648

/-- An `int` result kept in 32 bits: the two's complement value of `n`. -/
def wrapInt32 (n : Int) : Int :=
  (n + 2147483648) % 4294967296 - 2147483648

/-- The part of `juce::SmoothedValue<float, Linear>` that the program reads
back: the target stored by `setTargetValue` (and the ramp length set by
`reset`, which is never used afterwards). -/
structure SmoothedValue (F : Type) where
  target : F
  rampSampleRate : Int
  rampLengthInSeconds : F

/-- `SmoothedValue::reset (sampleRate, rampLengthInSeconds)`. -/
def SmoothedValue.reset (v : SmoothedValue F) (sampleRate : Int) (ramp : F) : SmoothedValue F :=
  { v with rampSampleRate := sampleRate, rampLengthInSeconds := ramp }

/-- `SmoothedValue::setTargetValue`. -/
def SmoothedValue.setTargetValue (v : SmoothedValue F) (newValue : F) : SmoothedValue F :=
  { v with target := newValue }

/-- `SmoothedValue::getTargetValue`. -/
def SmoothedValue.getTargetValue (v : SmoothedValue F) : F :=
  v.target

/-- The record `struct DelayLineEffect` (PluginProcessor.h, lines 19-43).
`delayBuffer ch i` is sample `i` of channel `ch`; `delayData` is the channel
whose row the pointer `float* delayData` addresses. -/
structure DelayLineEffect (F : Type) where
  delayBuffer : Nat → Int → F
  smoothedDelay : SmoothedValue F
  smoothedWidth : SmoothedValue F
  bufferChannels : Int
  bufferSize : Int
  writePosition : Int
  delayData : Nat
  currentDelayTime : F
  currentWidth : F
  localWritePosition : Int
  readPosition : F
  localReadPosition : Int
  out : F
  phase : F
  phaseOffset : F
  lfoPhase : F
  inverseSampleRate : F
  weight : F

namespace DelayLineEffect

/-- `DelayLineEffect::prepare` (lines 45-58). The member `bufferSize` is a
32-bit `int`: line 50 converts the product with `(int)` and adds 1 in `int`.
The product itself is the exact one; where a statement about the size depends
on it for arbitrary arguments, it is restricted to products that `float`
holds without rounding (`FloatExact`, integers up to `2^24`). -/
def prepare (e : DelayLineEffect F) (sampleRate : Int) (totalNumInputChannels : Int)
    (maxDelayTime : F) : DelayLineEffect F :=
  let bufferSize : Int := wrapInt32 (floatToInt32 (maxDelayTime * (sampleRate : F)) + 1)
  let bufferSize : Int := if bufferSize < 1 then 1 else bufferSize
  { e with
    smoothedDelay := e.smoothedDelay.reset sampleRate (1 / 1000)
    smoothedWidth := e.smoothedWidth.reset sampleRate (1 / 1000)
    bufferSize := bufferSize
    bufferChannels := totalNumInputChannels
    delayBuffer := fun _ _ => 0
    writePosition := 0 }

/-- `DelayLineEffect::prepareSmoothing` (lines 60-69); the default argument
`width = 0` is passed explicitly by the callers below. -/
def prepareSmoothing (e : DelayLineEffect F) (delayTime : F) (sampleRate : Int) (width : F) :
    DelayLineEffect F :=
  let e1 : DelayLineEffect F :=
    { e with smoothedDelay := e.smoothedDelay.setTargetValue delayTime }
  let e2 : DelayLineEffect F :=
    { e1 with currentDelayTime := e1.smoothedDelay.getTargetValue * (sampleRate : F) }
  if width ≠ 0 then
    let e3 : DelayLineEffect F :=
      { e2 with smoothedWidth := e2.smoothedWidth.setTargetValue width }
    { e3 with currentWidth := e3.smoothedWidth.getTargetValue * (sampleRate : F) }
  else e2

/-- `DelayLineEffect::prepareDelayBuffer` (lines 71-79). -/
def prepareDelayBuffer (e : DelayLineEffect F) (channel : Nat) (useLfo : Bool) :
    DelayLineEffect F :=
  let e1 : DelayLineEffect F :=
    { e with delayData := channel, localWritePosition := e.writePosition }
  if useLfo then { e1 with phase := e1.lfoPhase } else e1

/-- Index of `sample0` in `cubicInterpolation` (line 98). -/
def tapIndex0 (e : DelayLineEffect F) : Int :=
  (e.localReadPosition - 1 + e.bufferSize).tmod e.bufferSize

/-- Index of `sample1` in `cubicInterpolation` (line 99). -/
def tapIndex1 (e : DelayLineEffect F) : Int :=
  e.localReadPosition + 0

/-- Index of `sample2` in `cubicInterpolation` (line 100). -/
def tapIndex2 (e : DelayLineEffect F) : Int :=
  (e.localReadPosition + 1).tmod e.bufferSize

/-- Index of `sample3` in `cubicInterpolation` (line 101). -/
def tapIndex3 (e : DelayLineEffect F) : Int :=
  (e.localReadPosition + 2).tmod e.bufferSize

/-- `DelayLineEffect::cubicInterpolation` (lines 92-110). -/
def cubicInterpolation (e : DelayLineEffect F) : F :=
  let fraction : F := e.readPosition - (e.localReadPosition : F)
  let fractionSqrt : F := fraction * fraction
  let fractionCube : F := fractionSqrt * fraction
  let sample0 : F := e.delayBuffer e.delayData e.tapIndex0
  let sample1 : F := e.delayBuffer e.delayData e.tapIndex1
  let sample2 : F := e.delayBuffer e.delayData e.tapIndex2
  let sample3 : F := e.delayBuffer e.delayData e.tapIndex3
  let a0 : F := -(1 / 2) * sample0 + (3 / 2) * sample1 - (3 / 2) * sample2 + (1 / 2) * sample3
  let a1 : F := sample0 - (5 / 2) * sample1 + 2 * sample2 - (1 / 2) * sample3
  let a2 : F := -(1 / 2) * sample0 + (1 / 2) * sample2
  let a3 : F := sample1
  a0 * fractionCube + a1 * fractionSqrt + a2 * fraction + a3

/-- The buffer indices that one call of `cubicInterpolation` reads, in order. -/
def cubicReads (e : DelayLineEffect F) : List Int :=
  [e.tapIndex0, e.tapIndex1, e.tapIndex2, e.tapIndex3]

/-- `DelayLineEffect::process` (lines 81-90), instrumented: the second
component lists the indices of `delayData` read during the call. -/
def processTraced (e : DelayLineEffect F) (currentDelayTime : F) :
    DelayLineEffect F × List Int :=
  let e1 : DelayLineEffect F := { e with out := 0 }
  let position : F :=
    fmodf ((e1.localWritePosition : F) - currentDelayTime + (e1.bufferSize : F))
      (e1.bufferSize : F)
  let e2 : DelayLineEffect F := { e1 with readPosition := position }
  let e3 : DelayLineEffect F :=
    { e2 with localReadPosition := truncToInt (floorf e2.readPosition) }
  if e3.localReadPosition ≠ e3.localWritePosition then
    ({ e3 with out := e3.cubicInterpolation }, e3.cubicReads)
  else (e3, [])

/-- `DelayLineEffect::process` (lines 81-90). -/
def process (e : DelayLineEffect F) (currentDelayTime : F) : DelayLineEffect F :=
  (processTraced e currentDelayTime).1

/-- `DelayLineEffect::lfo` (lines 112-120); `sinf` and the constant `twoPi`
come from the C library and from JUCE. -/
def lfo (sinf : F → F) (twoPi : F) (e : DelayLineEffect F) (vibrato : Bool) : F :=
  let factor : F := if vibrato then 1 / 10 else 1 / 4
  1 / 2 + factor * sinf (twoPi * (e.phase + e.phaseOffset))

/-- `DelayLineEffect::calculatePositionAndPhase` (lines 122-130). -/
def calculatePositionAndPhase (e : DelayLineEffect F) (lfoFreq : F) : DelayLineEffect F :=
  let e1 : DelayLineEffect F := { e with localWritePosition := e.localWritePosition + 1 }
  let e2 : DelayLineEffect F :=
    if e1.localWritePosition ≥ e1.bufferSize then
      { e1 with localWritePosition := e1.localWritePosition - e1.bufferSize }
    else e1
  let e3 : DelayLineEffect F := { e2 with phase := e2.phase + lfoFreq * e2.inverseSampleRate }
  if e3.phase ≥ 1 then { e3 with phase := e3.phase - 1 } else e3

/-- `DelayLineEffect::updatePositionAndPhase` (lines 132-138). -/
def updatePositionAndPhase (e : DelayLineEffect F) (useLfo : Bool) : DelayLineEffect F :=
  let e1 : DelayLineEffect F := { e with writePosition := e.localWritePosition }
  if useLfo then { e1 with lfoPhase := e1.phase } else e1

/-- The assignment `delayData[localWritePosition] = value` made by the router. -/
def store (e : DelayLineEffect F) (value : F) : DelayLineEffect F :=
  { e with delayBuffer := fun ch i =>
      if ch = e.delayData ∧ i = e.localWritePosition then value else e.delayBuffer ch i }

end DelayLineEffect

end DelayLine

section Processor

variable {F : Type} [LinearOrderedField F] [FloorRing F] {R : Type}

/-- The enumeration `enum NumOfVoices` (PluginProcessor.h, lines 141-147). -/
inductive NumOfVoices where
  | Two
  | Three
  | Four
  | Five
deriving DecidableEq, Repr

/-- The integer value of an enumerator (`Two` is 0, ..., `Five` is 3). -/
def NumOfVoices.toInt : NumOfVoices → Int
  | NumOfVoices.Two => 0
  | NumOfVoices.Three => 1
  | NumOfVoices.Four => 2
  | NumOfVoices.Five => 3

/-- The record `struct ChainSettings` (PluginProcessor.h, lines 149-162): the
per-block snapshot returned by `getChainSettings`. -/
structure ChainSettings (F : Type) where
  delayTime : F
  feedback : F
  dryLevel : F
  wetLevel : F
  flangDelay : F
  flangWidth : F
  flangDepth : F
  flangFeedback : F
  flangLfoFreq : F
  vibWidth : F
  vibDepth : F
  vibLfoFreq : F
  chorDelay : F
  chorWidth : F
  chorDepth : F
  chorLfoFreq : F
  numOfVoices : NumOfVoices
  dryReverb : F
  wetReverb : F
  roomSize : F
  damping : F
  revWidth : F
  flangerOn : Bool
  vibratoOn : Bool
  chorusOn : Bool
  dryReverbOn : Bool
  wetReverbOn : Bool

/-- The fields of `juce::Reverb::Parameters` that `processBlock` assigns. -/
structure ReverbParameters (F : Type) where
  roomSize : F
  damping : F
  wetLevel : F
  dryLevel : F
  width : F

/-- Library code used by the processor: `sinf`, the JUCE constant `twoPi`,
and the operations of `juce::Reverb` on a reverberator state of type `R`
(a channel is a map from sample index to value). -/
structure Library (F R : Type) where
  sinf : F → F
  twoPi : F
  setSampleRate : R → F → R
  reset : R → R
  setParameters : R → ReverbParameters F → R
  processMono : R → (Nat → F) → Nat → R × (Nat → F)
  processStereo : R → (Nat → F) → (Nat → F) → Nat → R × ((Nat → F) × (Nat → F))

/-- The data members of `class MastersDelayAudioProcessor` used on the audio
path (PluginProcessor.h, lines 218-229), with the channel counts and sample
rate that the base class `juce::AudioProcessor` reports. -/
structure MastersDelayAudioProcessor (F R : Type) where
  delay : DelayLineEffect F
  flanger : DelayLineEffect F
  vibrato : DelayLineEffect F
  chorus : DelayLineEffect F
  dryReverb : R
  dryRevParams : ReverbParameters F
  dryRevBufferCopy : Nat → Nat → F
  wetReverb : R
  wetRevParams : ReverbParameters F
  wetRevBufferCopy : Nat → Nat → F
  totalNumInputChannels : Nat
  totalNumOutputChannels : Nat
  sampleRate : F

/-- The processor together with the `buffer` argument of `processBlock`. -/
structure BlockState (F R : Type) where
  p : MastersDelayAudioProcessor F R
  buffer : Nat → Nat → F

/-- `AudioBuffer::addSample (channel, sample, value)`. -/
def addSample (b : Nat → Nat → F) (channel sample : Nat) (value : F) : Nat → Nat → F :=
  fun ch i => if ch = channel ∧ i = sample then b ch i + value else b ch i

/-- The assignment `channelData[sample] = value`. -/
def setSample (b : Nat → Nat → F) (channel sample : Nat) (value : F) : Nat → Nat → F :=
  fun ch i => if ch = channel ∧ i = sample then value else b ch i

/-- `MastersDelayAudioProcessor::prepareToPlay` (PluginProcessor.cpp, lines
95-123); the `double sampleRate` is converted to `int` at each call of
`prepare`. -/
def prepareToPlay (lib : Library F R) (p : MastersDelayAudioProcessor F R) (sampleRate : F) :
    MastersDelayAudioProcessor F R :=
  let totalNumInputChannels : Int := (p.totalNumInputChannels : Int)
  let delay := p.delay.prepare (truncToInt sampleRate) totalNumInputChannels 3
  let flanger := p.flanger.prepare (truncToInt sampleRate) totalNumInputChannels (2 / 100 + 2 / 100)
  let flanger : DelayLineEffect F :=
    { flanger with lfoPhase := 0, inverseSampleRate := 1 / sampleRate }
  let vibrato := p.vibrato.prepare (truncToInt sampleRate) totalNumInputChannels (4 / 100)
  let vibrato : DelayLineEffect F :=
    { vibrato with lfoPhase := 0, inverseSampleRate := 1 / sampleRate }
  let chorus := p.chorus.prepare (truncToInt sampleRate) totalNumInputChannels (8 / 100)
  let chorus : DelayLineEffect F :=
    { chorus with lfoPhase := 0, inverseSampleRate := 1 / sampleRate }
  { p with
    delay := delay
    flanger := flanger
    vibrato := vibrato
    chorus := chorus
    dryReverb := lib.reset (lib.setSampleRate p.dryReverb sampleRate)
    wetReverb := lib.reset (lib.setSampleRate p.wetReverb sampleRate) }

/-- The selection of `caseOfProcessing` (PluginProcessor.cpp, lines 241-255). -/
def caseOfProcessing (flangerIsOn vibratoIsOn chorusIsOn : Bool) : Int :=
  if !flangerIsOn then 1
  else if !vibratoIsOn then 2
  else if !chorusIsOn then 3
  else 0

/-- The body of `case 0` of the switch (PluginProcessor.cpp, lines 258-270):
the plain delay path. `inp` is the local constant `in`. -/
def case0 (cs : ChainSettings F) (channel sample : Nat) (inp : F) (s : BlockState F R) :
    BlockState F R :=
  let delay1 := s.p.delay.process s.p.delay.currentDelayTime
  let delay2 := delay1.store (inp + delay1.out * cs.feedback)
  let buffer1 :=
    if cs.wetReverbOn then
      setSample s.buffer channel sample
        (s.buffer channel sample * cs.dryLevel + delay2.out * cs.wetLevel)
    else s.buffer
  let wet1 := addSample s.p.wetRevBufferCopy channel sample delay2.out
  { p := { s.p with delay := delay2, wetRevBufferCopy := wet1 }, buffer := buffer1 }

/-- The body of `case 1` of the switch (lines 271-291): the flanger path. -/
def case1 (lib : Library F R) (cs : ChainSettings F) (channel sample : Nat) (inp : F)
    (s : BlockState F R) : BlockState F R :=
  let delay1 := s.p.delay.process s.p.delay.currentDelayTime
  let localFlangerDelayTime : F :=
    s.p.flanger.currentDelayTime
      + s.p.flanger.currentWidth * s.p.flanger.lfo lib.sinf lib.twoPi false
  let flanger1 := s.p.flanger.process localFlangerDelayTime
  let delay2 := delay1.store (delay1.out + flanger1.out * cs.flangDepth)
  let flanger2 := flanger1.store (delay2.out + flanger1.out * cs.flangFeedback)
  let delay3 := delay2.store (inp + delay2.out * cs.feedback)
  let buffer1 :=
    if cs.wetReverbOn then
      setSample s.buffer channel sample
        (s.buffer channel sample * cs.dryLevel
          + (flanger2.out * cs.flangDepth + delay3.out) * cs.wetLevel)
    else s.buffer
  let wet1 :=
    addSample s.p.wetRevBufferCopy channel sample (delay3.out + flanger2.out * cs.flangDepth)
  { p := { s.p with delay := delay3, flanger := flanger2, wetRevBufferCopy := wet1 },
    buffer := buffer1 }

/-- The body of `case 2` of the switch (lines 292-309): the vibrato path. -/
def case2 (lib : Library F R) (cs : ChainSettings F) (channel sample : Nat) (inp : F)
    (s : BlockState F R) : BlockState F R :=
  let delay1 := s.p.delay.process s.p.delay.currentDelayTime
  let localVibratoDelayTime : F :=
    s.p.vibrato.currentDelayTime * s.p.vibrato.lfo lib.sinf lib.twoPi true
  let vibrato1 := s.p.vibrato.process localVibratoDelayTime
  let vibrato2 := vibrato1.store delay1.out
  let delay2 := delay1.store (inp + delay1.out * cs.feedback)
  let buffer1 :=
    if cs.wetReverbOn then
      setSample s.buffer channel sample
        (s.buffer channel sample * cs.dryLevel + (cs.vibDepth * vibrato2.out) * cs.wetLevel)
    else s.buffer
  let wet1 := addSample s.p.wetRevBufferCopy channel sample (cs.vibDepth * vibrato2.out)
  { p := { s.p with delay := delay2, vibrato := vibrato2, wetRevBufferCopy := wet1 },
    buffer := buffer1 }

/-- One iteration of the voice loop of `case 3` (lines 315-341), acting on the
base delay unit and the chorus unit; `numOfVoices` is the enumerator's integer
value. -/
def chorusVoice (lib : Library F R) (numOfVoices : Int) (chorDepth : F) (channel voice : Nat)
    (u : DelayLineEffect F × DelayLineEffect F) : DelayLineEffect F × DelayLineEffect F :=
  let delay := u.1
  let chorus := u.2
  let chorus1 : DelayLineEffect F :=
    if numOfVoices + 2 > 2 then
      let c : DelayLineEffect F := { chorus with weight := (voice : F) / (numOfVoices : F) }
      if channel ≠ 0 then { c with weight := 1 - c.weight } else c
    else { chorus with weight := 1 }
  let localChorusDelayTime : F :=
    chorus1.currentDelayTime + chorus1.currentWidth * chorus1.lfo lib.sinf lib.twoPi false
  let chorus2 := chorus1.process localChorusDelayTime
  let delay1 : DelayLineEffect F :=
    if numOfVoices + 2 = 2 then
      delay.store (if channel = 0 then delay.out else chorus2.out * chorDepth)
    else delay.store (chorus2.out * chorDepth * chorus2.weight)
  let chorus3 : DelayLineEffect F :=
    if numOfVoices + 2 = 3 then { chorus2 with phaseOffset := chorus2.phaseOffset + 1 / 4 }
    else if numOfVoices + 2 > 3 then
      { chorus2 with phaseOffset := chorus2.phaseOffset + 1 / (((numOfVoices + 1 : Int)) : F) }
    else chorus2
  (delay1, chorus3)

/-- The voice loop `for (voice = 0; voice < numOfVoices + 1; ++voice)` run
for its first `count` iterations. -/
def chorusVoices (lib : Library F R) (numOfVoices : Int) (chorDepth : F) (channel : Nat) :
    Nat → DelayLineEffect F × DelayLineEffect F → DelayLineEffect F × DelayLineEffect F
  | 0, u => u
  | count + 1, u =>
    chorusVoice lib numOfVoices chorDepth channel count
      (chorusVoices lib numOfVoices chorDepth channel count u)

/-- One iteration of the voice loop (lines 315-341), instrumented: the second
component lists, in order of evaluation, the integer divisors of the divisions
that the iteration executes (`(float)(voice) / (float)(numOfVoices)` of line
316 and `1.0f / (float)(numOfVoices + 1)` of line 340). -/
def chorusVoiceTraced (lib : Library F R) (numOfVoices : Int) (chorDepth : F)
    (channel voice : Nat) (u : DelayLineEffect F × DelayLineEffect F) :
    (DelayLineEffect F × DelayLineEffect F) × List Int :=
  let delay := u.1
  let chorus := u.2
  let weighted : DelayLineEffect F × List Int :=
    if numOfVoices + 2 > 2 then
      let c : DelayLineEffect F := { chorus with weight := (voice : F) / (numOfVoices : F) }
      (if channel ≠ 0 then { c with weight := 1 - c.weight } else c, [numOfVoices])
    else ({ chorus with weight := 1 }, [])
  let chorus1 := weighted.1
  let localChorusDelayTime : F :=
    chorus1.currentDelayTime + chorus1.currentWidth * chorus1.lfo lib.sinf lib.twoPi false
  let chorus2 := chorus1.process localChorusDelayTime
  let delay1 : DelayLineEffect F :=
    if numOfVoices + 2 = 2 then
      delay.store (if channel = 0 then delay.out else chorus2.out * chorDepth)
    else delay.store (chorus2.out * chorDepth * chorus2.weight)
  let staggered : DelayLineEffect F × List Int :=
    if numOfVoices + 2 = 3 then
      ({ chorus2 with phaseOffset := chorus2.phaseOffset + 1 / 4 }, [])
    else if numOfVoices + 2 > 3 then
      ({ chorus2 with phaseOffset := chorus2.phaseOffset + 1 / (((numOfVoices + 1 : Int)) : F) },
        [numOfVoices + 1])
    else (chorus2, [])
  ((delay1, staggered.1), weighted.2 ++ staggered.2)

/-- The voice loop, instrumented: the divisors of all divisions executed in
its first `count` iterations. -/
def chorusVoicesTraced (lib : Library F R) (numOfVoices : Int) (chorDepth : F) (channel : Nat) :
    Nat → DelayLineEffect F × DelayLineEffect F →
      (DelayLineEffect F × DelayLineEffect F) × List Int
  | 0, u => (u, [])
  | count + 1, u =>
    let r := chorusVoicesTraced lib numOfVoices chorDepth channel count u
    let r2 := chorusVoiceTraced lib numOfVoices chorDepth channel count r.1
    (r2.1, r.2 ++ r2.2)

/-- The body of `case 3` of the switch (lines 310-356): the chorus path. -/
def case3 (lib : Library F R) (cs : ChainSettings F) (channel sample : Nat) (inp : F)
    (s : BlockState F R) : BlockState F R :=
  let delay1 := s.p.delay.process s.p.delay.currentDelayTime
  let chorus1 : DelayLineEffect F := { s.p.chorus with phaseOffset := 0 }
  let u := chorusVoices lib cs.numOfVoices.toInt cs.chorDepth channel
    (cs.numOfVoices.toInt + 1).toNat (delay1, chorus1)
  let chorus2 := u.2.store u.1.out
  let delay2 := u.1.store (inp + u.1.out * cs.feedback)
  let buffer1 :=
    if cs.wetReverbOn then
      setSample s.buffer channel sample
        (s.buffer channel sample * cs.dryLevel
          + (cs.chorDepth * chorus2.out + delay2.out) * cs.wetLevel)
    else s.buffer
  let wet1 :=
    addSample s.p.wetRevBufferCopy channel sample (delay2.out + cs.chorDepth * chorus2.out)
  { p := { s.p with delay := delay2, chorus := chorus2, wetRevBufferCopy := wet1 },
    buffer := buffer1 }

/-- The `switch (caseOfProcessing)` statement (lines 257-357); a value
outside 0..3 matches no case. -/
def route (lib : Library F R) (cs : ChainSettings F) (channel sample : Nat) (inp : F)
    (s : BlockState F R) : BlockState F R :=
  let c := caseOfProcessing cs.flangerOn cs.vibratoOn cs.chorusOn
  if c = 0 then case0 cs channel sample inp s
  else if c = 1 then case1 lib cs channel sample inp s
  else if c = 2 then case2 lib cs channel sample inp s
  else if c = 3 then case3 lib cs channel sample inp s
  else s

/-- The four calls of `calculatePositionAndPhase` that end an iteration of the
sample loop (lines 359-362). -/
def advance (cs : ChainSettings F) (s : BlockState F R) : BlockState F R :=
  { s with p := { s.p with
      delay := s.p.delay.calculatePositionAndPhase 0
      flanger := s.p.flanger.calculatePositionAndPhase cs.flangLfoFreq
      vibrato := s.p.vibrato.calculatePositionAndPhase cs.vibLfoFreq
      chorus := s.p.chorus.calculatePositionAndPhase cs.chorLfoFreq } }

/-- One iteration of the sample loop (lines 236-363). -/
def sampleBody (lib : Library F R) (cs : ChainSettings F) (channel sample : Nat)
    (s : BlockState F R) : BlockState F R :=
  let inp : F := s.buffer channel sample
  let s1 : BlockState F R :=
    { s with p := { s.p with
        dryRevBufferCopy := addSample s.p.dryRevBufferCopy channel sample inp } }
  advance cs (route lib cs channel sample inp s1)

/-- The sample loop `for (sample = 0; sample < numSamples; ++sample)` run for
its first `count` iterations. -/
def sampleLoop (lib : Library F R) (cs : ChainSettings F) (channel : Nat) :
    Nat → BlockState F R → BlockState F R
  | 0, s => s
  | count + 1, s => sampleBody lib cs channel count (sampleLoop lib cs channel count s)

/-- The four calls of `prepareDelayBuffer` that open an iteration of the
channel loop (lines 231-234). -/
def channelStart (channel : Nat) (s : BlockState F R) : BlockState F R :=
  { s with p := { s.p with
      delay := s.p.delay.prepareDelayBuffer channel false
      flanger := s.p.flanger.prepareDelayBuffer channel true
      vibrato := s.p.vibrato.prepareDelayBuffer channel true
      chorus := s.p.chorus.prepareDelayBuffer channel true } }

/-- One iteration of the channel loop (lines 228-364). -/
def channelBody (lib : Library F R) (cs : ChainSettings F) (numSamples channel : Nat)
    (s : BlockState F R) : BlockState F R :=
  sampleLoop lib cs channel numSamples (channelStart channel s)

/-- The channel loop `for (channel = 0; channel < totalNumInputChannels;
++channel)` run for its first `count` iterations. -/
def channelLoop (lib : Library F R) (cs : ChainSettings F) (numSamples : Nat) :
    Nat → BlockState F R → BlockState F R
  | 0, s => s
  | count + 1, s => channelBody lib cs numSamples count (channelLoop lib cs numSamples count s)

/-- The reverberator stage for one scratch buffer (lines 371-378 for the dry
copy, 380-387 for the wet copy): nothing happens when `reverbOn` holds or the
channel count is neither 1 nor 2. -/
def reverbStage (lib : Library F R) (reverbOn : Bool) (totalNumInputChannels numSamples : Nat)
    (reverb : R) (copy : Nat → Nat → F) : R × (Nat → Nat → F) :=
  if !reverbOn then
    if totalNumInputChannels = 1 then
      let r := lib.processMono reverb (copy 0) numSamples
      (r.1, fun ch => if ch = 0 then r.2 else copy ch)
    else if totalNumInputChannels = 2 then
      let r := lib.processStereo reverb (copy 0) (copy 1) numSamples
      (r.1, fun ch => if ch = 0 then r.2.1 else if ch = 1 then r.2.2 else copy ch)
    else (reverb, copy)
  else (reverb, copy)

/-- The final mix (lines 389-399): when one of the reverb flags is false every
sample of every input channel is recomputed from the two scratch buffers. -/
def finalMix (cs : ChainSettings F) (totalNumInputChannels numSamples : Nat)
    (directCopy delayCopy buffer : Nat → Nat → F) : Nat → Nat → F :=
  if !cs.dryReverbOn || !cs.wetReverbOn then
    fun ch i =>
      if ch < totalNumInputChannels ∧ i < numSamples then
        directCopy ch i * cs.dryLevel + delayCopy ch i * cs.wetLevel
      else buffer ch i
  else buffer

/-- The loop that clears the output channels without an input (lines 400-401). -/
def clearExtraChannels (totalNumInputChannels totalNumOutputChannels numSamples : Nat)
    (buffer : Nat → Nat → F) : Nat → Nat → F :=
  fun ch i =>
    if totalNumInputChannels ≤ ch ∧ ch < totalNumOutputChannels ∧ i < numSamples then 0
    else buffer ch i

/-- The first part of `processBlock` (PluginProcessor.cpp, lines 161-223):
the targets of the four units are set from the snapshot `cs`, the reverberator
parameters are assigned and both scratch buffers are cleared. The `double`
sample rate is converted to `int` at each call of `prepareSmoothing`. -/
def blockSetup (lib : Library F R) (cs : ChainSettings F) (p : MastersDelayAudioProcessor F R) :
    MastersDelayAudioProcessor F R :=
  let sampleRate : Int := truncToInt p.sampleRate
  let delay := p.delay.prepareSmoothing cs.delayTime sampleRate 0
  let flanger := p.flanger.prepareSmoothing cs.flangDelay sampleRate cs.flangWidth
  let vibrato := p.vibrato.prepareSmoothing cs.vibWidth sampleRate 0
  let chorus := p.chorus.prepareSmoothing cs.chorDelay sampleRate cs.chorWidth
  let dryRevParams : ReverbParameters F :=
    { wetLevel := cs.dryReverb, roomSize := cs.roomSize, damping := cs.damping,
      width := cs.revWidth, dryLevel := 1 / 2 }
  let wetRevParams : ReverbParameters F :=
    { wetLevel := cs.wetReverb, roomSize := cs.roomSize, damping := cs.damping,
      width := cs.revWidth, dryLevel := 1 / 2 }
  { p with
    delay := delay
    flanger := flanger
    vibrato := vibrato
    chorus := chorus
    dryRevParams := dryRevParams
    dryReverb := lib.setParameters p.dryReverb dryRevParams
    dryRevBufferCopy := fun _ _ => 0
    wetRevParams := wetRevParams
    wetReverb := lib.setParameters p.wetReverb wetRevParams
    wetRevBufferCopy := fun _ _ => 0 }

/-- `MastersDelayAudioProcessor::processBlock` (PluginProcessor.cpp, lines
157-408). `cs` is the snapshot returned by `getChainSettings` and `numSamples`
is `buffer.getNumSamples ()`. -/
def processBlock (lib : Library F R) (cs : ChainSettings F) (numSamples : Nat)
    (s : BlockState F R) : BlockState F R :=
  let totalNumInputChannels := s.p.totalNumInputChannels
  let totalNumOutputChannels := s.p.totalNumOutputChannels
  let s2 := channelLoop lib cs numSamples totalNumInputChannels
    { p := blockSetup lib cs s.p, buffer := s.buffer }
  let p2 := s2.p
  let p3 : MastersDelayAudioProcessor F R :=
    { p2 with
      delay := p2.delay.updatePositionAndPhase false
      flanger := p2.flanger.updatePositionAndPhase true
      vibrato := p2.vibrato.updatePositionAndPhase true
      chorus := p2.chorus.updatePositionAndPhase true }
  let dry := reverbStage lib cs.dryReverbOn totalNumInputChannels numSamples
    p3.dryReverb p3.dryRevBufferCopy
  let wet := reverbStage lib cs.wetReverbOn totalNumInputChannels numSamples
    p3.wetReverb p3.wetRevBufferCopy
  let p4 : MastersDelayAudioProcessor F R :=
    { p3 with
      dryReverb := dry.1
      dryRevBufferCopy := dry.2
      wetReverb := wet.1
      wetRevBufferCopy := wet.2 }
  let buffer1 := finalMix cs totalNumInputChannels numSamples dry.2 wet.2 s2.buffer
  { p := p4,
    buffer := clearExtraChannels totalNumInputChannels totalNumOutputChannels numSamples buffer1 }

/-- The state in which iteration `sample` of the sample loop of channel
`channel` starts, when the channel loop of a block of `numSamples` samples was
entered in state `s`. -/
def iterationState (lib : Library F R) (cs : ChainSettings F) (numSamples : Nat)
    (s : BlockState F R) (channel sample : Nat) : BlockState F R :=
  sampleLoop lib cs channel sample (channelStart channel (channelLoop lib cs numSamples channel s))

/-- The host protocol: consecutive calls of `processBlock` on a signal
`input channel time`, cut into blocks of the given lengths starting at time
`offset`. The result carries the processor after the last block and the
signal assembled from the blocks' output buffers (`played`, which starts as
`acc`). -/
def playBlocks (lib : Library F R) (cs : ChainSettings F) (input : Nat → Nat → F) :
    List Nat → Nat → MastersDelayAudioProcessor F R → (Nat → Nat → F) →
      MastersDelayAudioProcessor F R × (Nat → Nat → F)
  | [], _, p, acc => (p, acc)
  | numSamples :: rest, offset, p, acc =>
    let r := processBlock lib cs numSamples
      { p := p, buffer := fun ch i => input ch (offset + i) }
    playBlocks lib cs input rest (offset + numSamples) r.p
      (fun ch t =>
        if offset ≤ t ∧ t < offset + numSamples then r.buffer ch (t - offset) else acc ch t)

end Processor

section Editor

variable {F : Type} [LinearOrderedField F] [FloorRing F]

/-- The member of `class MastersDelayAudioProcessorEditor` that the tap tempo
uses: the vector `tapTimes` (PluginEditor.h, line 199). Three ghost members
record what the tap tempo code does to its surroundings: `sentDelayTimes` and
`sliderValues` list, in order, the arguments of the calls
`audioProcessor.setDelayTimeFromTapTempo` and `delayTimeSlider.setValue`, and
`erasures` counts the executions of `tapTimes.erase (tapTimes.begin ())`. -/
structure MastersDelayAudioProcessorEditor (F : Type) where
  tapTimes : List F
  sentDelayTimes : List F
  sliderValues : List F
  erasures : Nat

/-- The editor after construction: the vector `tapTimes` is empty and nothing
has been sent. -/
def freshEditor : MastersDelayAudioProcessorEditor F :=
  { tapTimes := [], sentDelayTimes := [], sliderValues := [], erasures := 0 }

/-- The loop of `calculateTapTempo` (PluginEditor.cpp, lines 1078-1081),
`for (i = 1; i < tapTimes.size (); ++i) sumIntervals += tapTimes[i] -
tapTimes[i - 1]`, run for its first `count` iterations from `sumIntervals = 0`. -/
def sumIntervals (tapTimes : List F) : Nat → F
  | 0 => 0
  | count + 1 =>
    sumIntervals tapTimes count + (tapTimes.getD (count + 1) 0 - tapTimes.getD count 0)

/-- `MastersDelayAudioProcessorEditor::calculateTapTempo` (PluginEditor.cpp,
lines 1070-1090). -/
def calculateTapTempo (ed : MastersDelayAudioProcessorEditor F) :
    MastersDelayAudioProcessorEditor F :=
  if ed.tapTimes.length < 2 then ed
  else
    let numIntervals : Nat := ed.tapTimes.length - 1
    let sum : F := sumIntervals ed.tapTimes (ed.tapTimes.length - 1)
    let averageInterval : F := sum / (numIntervals : F)
    { ed with
      sentDelayTimes := ed.sentDelayTimes ++ [averageInterval]
      sliderValues := ed.sliderValues ++ [averageInterval]
      tapTimes := [] }

/-- The handler `tapTempoButton.onClick` (PluginEditor.cpp, lines 879-893);
`currentTime` is the value read from the millisecond counter, in seconds. -/
def tapTempoButtonOnClick (currentTime : F) (ed : MastersDelayAudioProcessorEditor F) :
    MastersDelayAudioProcessorEditor F :=
  let ed1 : MastersDelayAudioProcessorEditor F :=
    { ed with tapTimes := ed.tapTimes ++ [currentTime] }
  let ed2 : MastersDelayAudioProcessorEditor F :=
    if ed1.tapTimes.length ≥ 2 then calculateTapTempo ed1 else ed1
  if ed2.tapTimes.length > 4 then
    { ed2 with tapTimes := ed2.tapTimes.tail, erasures := ed2.erasures + 1 }
  else ed2

/-- A sequence of clicks on the tap button at the given times, oldest first. -/
def tapClicks : List F → MastersDelayAudioProcessorEditor F → MastersDelayAudioProcessorEditor F
  | [], ed => ed
  | t :: rest, ed => tapClicks rest (tapTempoButtonOnClick t ed)

end Editor

section Signals

variable {F : Type} [LinearOrderedField F] [FloorRing F]

/-- The signal that is `a` at time 0 and 0 afterwards. -/
def impulse (a : F) (t : Nat) : F :=
  if t = 0 then a else 0

/-- What a feedback comb filter with delay `D` and feedback gain `g` has
written at time `t` when fed the impulse of height `a`: `a * g ^ k` at
`t = k * D`, and 0 at every other time (also before time 0). -/
def impulseEcho (a g : F) (D : Int) (t : Int) : F :=
  if 0 ≤ t ∧ D ∣ t then a * g ^ (t / D).toNat else 0

/-- Row `channel` of the unit's buffer holds, for each of the last
`bufferSize` times `t` before `T`, the value `h t` in slot `t mod bufferSize`. -/
def HoldsHistory (e : DelayLineEffect F) (channel : Nat) (T : Int) (h : Int → F) : Prop :=
  ∀ t : Int, T - e.bufferSize ≤ t → t < T → e.delayBuffer channel (t % e.bufferSize) = h t

/-- The members of a unit that no statement of the sample loop assigns: the
buffer size, the delay and width in samples, the stored cursor, the stored LFO
phase and the inverse sample rate agree between `e` and `e2`. -/
def SameBlockConstants (e e2 : DelayLineEffect F) : Prop :=
  e2.bufferSize = e.bufferSize ∧ e2.currentDelayTime = e.currentDelayTime
    ∧ e2.currentWidth = e.currentWidth ∧ e2.writePosition = e.writePosition
    ∧ e2.lfoPhase = e.lfoPhase ∧ e2.inverseSampleRate = e.inverseSampleRate

/-- The unit `e2` differs from `e` at most in the buffer contents and in the
scratch members `out`, `readPosition`, `localReadPosition`, `weight` and
`phaseOffset`: the block constants, the local cursor, the row pointer and the
phase agree. -/
def KeepsCursor (e e2 : DelayLineEffect F) : Prop :=
  SameBlockConstants e e2 ∧ e2.localWritePosition = e.localWritePosition
    ∧ e2.delayData = e.delayData ∧ e2.phase = e.phase

/-- The buffer of `e2` agrees with the buffer of `e` everywhere except
possibly in the slot under the local cursor of the row that `delayData`
addresses. -/
def SameBufferOffCursor (e e2 : DelayLineEffect F) : Prop :=
  ∀ (ch : Nat) (i : Int), (ch ≠ e.delayData ∨ i ≠ e.localWritePosition) →
    e2.delayBuffer ch i = e.delayBuffer ch i

/-- Every slot `0 .. bufferSize - 1` of every channel of the unit holds 0. -/
def ZeroBuffer (e : DelayLineEffect F) : Prop :=
  ∀ (ch : Nat) (i : Int), 0 ≤ i → i < e.bufferSize → e.delayBuffer ch i = 0

/-- The unit is silent and well-formed: its buffer holds only zeros, it has at
least one slot and the local cursor is not negative. -/
def Quiet (e : DelayLineEffect F) : Prop :=
  ZeroBuffer e ∧ 1 ≤ e.bufferSize ∧ 0 ≤ e.localWritePosition

/-- Every delay that the router can ask of a unit is at most the unit's
buffer size: the base delay, the flanger and chorus delays
`currentDelayTime + currentWidth * lfo` and the vibrato delay
`currentDelayTime * lfo`, for every argument `y` of `sinf`. -/
def DelaysInRange {R : Type} (lib : Library F R) (p : MastersDelayAudioProcessor F R) : Prop :=
  p.delay.currentDelayTime ≤ (p.delay.bufferSize : F)
    ∧ (∀ y : F, p.flanger.currentDelayTime
          + p.flanger.currentWidth * (1 / 2 + 1 / 4 * lib.sinf y) ≤ (p.flanger.bufferSize : F))
    ∧ (∀ y : F, p.vibrato.currentDelayTime * (1 / 2 + 1 / 10 * lib.sinf y)
          ≤ (p.vibrato.bufferSize : F))
    ∧ (∀ y : F, p.chorus.currentDelayTime
          + p.chorus.currentWidth * (1 / 2 + 1 / 4 * lib.sinf y) ≤ (p.chorus.bufferSize : F))

/-- All four units are silent and well-formed and every delay is in range. -/
def Silent {R : Type} (lib : Library F R) (p : MastersDelayAudioProcessor F R) : Prop :=
  Quiet p.delay ∧ Quiet p.flanger ∧ Quiet p.vibrato ∧ Quiet p.chorus ∧ DelaysInRange lib p

/-- The unit between two channels of a block: its buffer holds only zeros, it
has at least one slot and the stored cursor `writePosition`, from which
`prepareDelayBuffer` restarts the local cursor, is not negative. -/
def Rested (e : DelayLineEffect F) : Prop :=
  ZeroBuffer e ∧ 1 ≤ e.bufferSize ∧ 0 ≤ e.writePosition

/-- All four units hold only zeros, are well-formed between two channels and
every delay is in range. -/
def SilentAtRest {R : Type} (lib : Library F R) (p : MastersDelayAudioProcessor F R) : Prop :=
  Rested p.delay ∧ Rested p.flanger ∧ Rested p.vibrato ∧ Rested p.chorus ∧ DelaysInRange lib p

/-- The combined effect value of the selected path: the argument of
`wetRevBufferCopy.addSample` in the selected case (lines 267, 287, 306, 352),
read from the units in the state `r` reached when the routing of the sample
has finished. -/
def combinedOutput {R : Type} (cs : ChainSettings F) (r : BlockState F R) : F :=
  if cs.flangerOn = false then r.p.delay.out + r.p.flanger.out * cs.flangDepth
  else if cs.vibratoOn = false then cs.vibDepth * r.p.vibrato.out
  else if cs.chorusOn = false then r.p.delay.out + cs.chorDepth * r.p.chorus.out
  else r.p.delay.out

/-- The Catmull-Rom cubic through the taps `s0`, `s1`, `s2`, `s3` at the
fraction `f`, in the nested form
`s1 + 0.5 f (s2 - s0 + f (2 s0 - 5 s1 + 4 s2 - s3 + f (3 (s1 - s2) + s3 - s0)))`. -/
def catmullRom (s0 s1 s2 s3 f : F) : F :=
  s1 + 1 / 2 * f * (s2 - s0 + f * (2 * s0 - 5 * s1 + 4 * s2 - s3 + f * (3 * (s1 - s2) + s3 - s0)))

/-- The intervals between consecutive entries of a list of tap times. -/
def tapIntervals (t : List F) : List F :=
  List.zipWith (fun a b => b - a) t t.tail

/-- The arithmetic mean of a list of values. -/
def arithmeticMean (l : List F) : F :=
  l.sum / (l.length : F)

/-- The intervals between the first and second, third and fourth, ... entries
of a list of tap times. -/
def pairedIntervals : List F → List F
  | a :: b :: rest => (b - a) :: pairedIntervals rest
  | _ => []

/-- The chorus path with only the final voice of the voice loop: the chorus
unit is read once, with the phase offset of the voice of index `numOfVoices`
(that index times the increment selected by the voice count); no weight is
computed and nothing is written into the base delay buffer before the
feedback write. The two stores after the loop and the mix are those of
`case3`. -/
def case3FinalVoice {R : Type} (lib : Library F R) (cs : ChainSettings F) (channel sample : Nat)
    (inp : F) (s : BlockState F R) : BlockState F R :=
  let delay1 := s.p.delay.process s.p.delay.currentDelayTime
  let increment : F :=
    if cs.numOfVoices.toInt + 2 = 3 then 1 / 4
    else if cs.numOfVoices.toInt + 2 > 3 then 1 / (((cs.numOfVoices.toInt + 1 : Int)) : F)
    else 0
  let chorus1 : DelayLineEffect F :=
    { s.p.chorus with phaseOffset := ((cs.numOfVoices.toInt : Int) : F) * increment }
  let chorus2 := chorus1.process
    (chorus1.currentDelayTime + chorus1.currentWidth * chorus1.lfo lib.sinf lib.twoPi false)
  let chorus3 := chorus2.store delay1.out
  let delay2 := delay1.store (inp + delay1.out * cs.feedback)
  let buffer1 :=
    if cs.wetReverbOn then
      setSample s.buffer channel sample
        (s.buffer channel sample * cs.dryLevel
          + (cs.chorDepth * chorus3.out + delay2.out) * cs.wetLevel)
    else s.buffer
  let wet1 :=
    addSample s.p.wetRevBufferCopy channel sample (delay2.out + cs.chorDepth * chorus3.out)
  { p := { s.p with delay := delay2, chorus := chorus3, wetRevBufferCopy := wet1 },
    buffer := buffer1 }

/-- The LFO phase `p` advanced `n` times by `step`, each time wrapped by one
subtraction of 1 when the sum has reached 1. -/
def advancePhase (step : F) : Nat → F → F
  | 0, p => p
  | n + 1, p =>
    if advancePhase step n p + step ≥ 1 then advancePhase step n p + step - 1
    else advancePhase step n p + step

/-- The stored cursor of the unit is inside `[0, bufferSize)`. -/
def CursorInRange (e : DelayLineEffect F) : Prop :=
  0 ≤ e.writePosition ∧ e.writePosition < e.bufferSize

/-- The unit `e2` is the unit `e` one sample later, for the LFO frequency
`lfoFreq`: the block constants agree, the local cursor has moved one slot
with a wrap at `bufferSize`, and the phase has grown by
`lfoFreq * inverseSampleRate` with a wrap at 1. -/
def AdvancedBy (lfoFreq : F) (e e2 : DelayLineEffect F) : Prop :=
  SameBlockConstants e e2
    ∧ e2.localWritePosition
      = (if e.localWritePosition + 1 ≥ e.bufferSize then e.localWritePosition + 1 - e.bufferSize
        else e.localWritePosition + 1)
    ∧ e2.phase
      = (if e.phase + lfoFreq * e.inverseSampleRate ≥ 1 then
          e.phase + lfoFreq * e.inverseSampleRate - 1
        else e.phase + lfoFreq * e.inverseSampleRate)

/-- The ranges that `createParameterLayout` (PluginProcessor.cpp, lines
502-517) declares for the delay and width parameters: `Delay Time` in
`[0.1, 3.0]`, `Flanger Delay` in `[0.001, 0.02]`, `Flanger Width` in
`[0.001, 0.02]`, `Vibrato Width` in `[0.001, 0.04]`, `Chorus Delay` in
`[0.01, 0.05]` and `Chorus Width` in `[0.001, 0.03]`. -/
def DeclaredRanges (cs : ChainSettings F) : Prop :=
  (1 / 10 ≤ cs.delayTime ∧ cs.delayTime ≤ 3)
    ∧ (1 / 1000 ≤ cs.flangDelay ∧ cs.flangDelay ≤ 2 / 100)
    ∧ (1 / 1000 ≤ cs.flangWidth ∧ cs.flangWidth ≤ 2 / 100)
    ∧ (1 / 1000 ≤ cs.vibWidth ∧ cs.vibWidth ≤ 4 / 100)
    ∧ (1 / 100 ≤ cs.chorDelay ∧ cs.chorDelay ≤ 5 / 100)
    ∧ (1 / 1000 ≤ cs.chorWidth ∧ cs.chorWidth ≤ 3 / 100)

/-- The processor runs at the integer sample rate `sr` with the buffer sizes
that `prepareToPlay` computes for it (maximal delays 3 s, 0.04 s, 0.04 s and
0.08 s), and the stored cursors are inside the buffers. -/
def PreparedAt {R : Type} (sr : Int) (p : MastersDelayAudioProcessor F R) : Prop :=
  p.sampleRate = ((sr : Int) : F)
    ∧ (p.delay.bufferSize = truncToInt ((3 : F) * ((sr : Int) : F)) + 1
      ∧ CursorInRange p.delay)
    ∧ (p.flanger.bufferSize = truncToInt ((2 / 100 + 2 / 100 : F) * ((sr : Int) : F)) + 1
      ∧ CursorInRange p.flanger)
    ∧ (p.vibrato.bufferSize = truncToInt ((4 / 100 : F) * ((sr : Int) : F)) + 1
      ∧ CursorInRange p.vibrato)
    ∧ (p.chorus.bufferSize = truncToInt ((8 / 100 : F) * ((sr : Int) : F)) + 1
      ∧ CursorInRange p.chorus)

/-- A read of the unit `e` at the delay `d` (in samples) is inside the buffer:
`0 < d ≤ bufferSize - 1`, the first argument of `fmodf` in `process` is not
negative, every index that `process` reads is in `[0, bufferSize)`, and the
integer read position differs from the write cursor. -/
def ReadInRange (e : DelayLineEffect F) (d : F) : Prop :=
  (0 < d ∧ d ≤ (e.bufferSize : F) - 1)
    ∧ 0 ≤ (e.localWritePosition : F) - d + (e.bufferSize : F)
    ∧ (∀ idx ∈ (e.processTraced d).2, 0 ≤ idx ∧ idx < e.bufferSize)
    ∧ (e.process d).localReadPosition ≠ e.localWritePosition

/-- The value `x` is a finite value of the type `float` (IEEE 754 binary32):
`x = m * 2 ^ j / 2 ^ k` for an integer `m` of fewer than 25 bits, with the
exponents in the range of the format. A product whose exact value has this
form is computed without rounding. -/
def FloatExact (x : F) : Prop :=
  ∃ (m : Int) (k j : Nat), |m| < 16777216 ∧ k ≤ 149 ∧ j ≤ 104
    ∧ x * (2 : F) ^ k = ((m : Int) : F) * (2 : F) ^ j

/-- The unit `e2` holds the result of the read that `e` holds: the same read
position, the same integer read position and the same value `out`. -/
def SameRead (e e2 : DelayLineEffect F) : Prop :=
  e2.readPosition = e.readPosition ∧ e2.localReadPosition = e.localReadPosition
    ∧ e2.out = e.out

end Signals

section Examples

/-- A zero-initialised delay unit over the rationals. -/
def blankUnit : DelayLineEffect ℚ :=
  { delayBuffer := fun _ _ => 0
    smoothedDelay := { target := 0, rampSampleRate := 0, rampLengthInSeconds := 0 }
    smoothedWidth := { target := 0, rampSampleRate := 0, rampLengthInSeconds := 0 }
    bufferChannels := 1
    bufferSize := 1
    writePosition := 0
    delayData := 0
    currentDelayTime := 0
    currentWidth := 0
    localWritePosition := 0
    readPosition := 0
    localReadPosition := 0
    out := 0
    phase := 0
    phaseOffset := 0
    lfoPhase := 0
    inverseSampleRate := 0
    weight := 0 }

/-- A unit with four slots holding 10, 20, 30, 40 on channel 0 and the write
cursor on slot 0. -/
def rampUnit : DelayLineEffect ℚ :=
  { blankUnit with
    bufferSize := 4
    delayBuffer := fun _ i => if i = 0 then 10 else if i = 1 then 20 else if i = 2 then 30 else 40 }

/-- A library instance over the rationals: `sinf` is the zero function (so
`lfo` is constantly 1/2) and the reverberators leave their input unchanged. -/
def flatLibrary : Library ℚ Unit :=
  { sinf := fun _ => 0
    twoPi := 710 / 113
    setSampleRate := fun r _ => r
    reset := fun r => r
    setParameters := fun r _ => r
    processMono := fun r x _ => (r, x)
    processStereo := fun r x y _ => (r, (x, y)) }

/-- The default member initialisers of `struct ChainSettings`
(PluginProcessor.h, lines 151-161). -/
def defaultSettings : ChainSettings ℚ :=
  { delayTime := 1 / 2, feedback := 1 / 2, dryLevel := 1, wetLevel := 1 / 2
    flangDelay := 25 / 10000, flangWidth := 5 / 1000, flangDepth := 1
    flangFeedback := 1 / 4, flangLfoFreq := 1 / 2
    vibWidth := 1, vibDepth := 1, vibLfoFreq := 4
    chorDelay := 30 / 1000, chorWidth := 20 / 1000, chorDepth := 1, chorLfoFreq := 1
    numOfVoices := NumOfVoices.Two
    dryReverb := 1 / 2, wetReverb := 1 / 2, roomSize := 1 / 4, damping := 8 / 10
    revWidth := 1 / 2
    flangerOn := true, vibratoOn := true, chorusOn := true
    dryReverbOn := true, wetReverbOn := true }

/-- A processor whose base delay unit has four empty slots and a delay of two
samples, and whose flanger unit is `rampUnit` with delay 1 and width 2. -/
def flangerDemo : BlockState ℚ Unit :=
  { p :=
      { delay := { blankUnit with bufferSize := 4, currentDelayTime := 2 }
        flanger := { rampUnit with currentDelayTime := 1, currentWidth := 2 }
        vibrato := blankUnit
        chorus := blankUnit
        dryReverb := ()
        dryRevParams := { roomSize := 0, damping := 0, wetLevel := 0, dryLevel := 0, width := 0 }
        dryRevBufferCopy := fun _ _ => 0
        wetReverb := ()
        wetRevParams := { roomSize := 0, damping := 0, wetLevel := 0, dryLevel := 0, width := 0 }
        wetRevBufferCopy := fun _ _ => 0
        totalNumInputChannels := 1
        totalNumOutputChannels := 1
        sampleRate := 44100 }
    buffer := fun _ _ => 7 }

/-- The state `flangerDemo` with an audio buffer that carries the impulse of
height 3 on every channel. -/
def impulseDemo : BlockState ℚ Unit :=
  { flangerDemo with buffer := fun _ j => impulse 3 j }

/-- The settings of the single-echo scenario: delay 0.5 s, feedback 0, dry
and wet level 1, all five flags true. -/
def echoSettings : ChainSettings ℚ :=
  { defaultSettings with feedback := 0, wetLevel := 1 }

/-- A stereo processor at a sample rate of 1 Hz whose base delay unit and
chorus unit both hold 10, 20, 30, 40 in every row, with both cursors on slot
0; every input sample is 7. -/
def chorusDemo : BlockState ℚ Unit :=
  { p := { flangerDemo.p with
      delay := rampUnit
      chorus := rampUnit
      totalNumInputChannels := 2
      totalNumOutputChannels := 2
      sampleRate := 1 }
    buffer := fun _ _ => 7 }

/-- Settings that select the chorus path with two voices: base delay of 1
sample, chorus delay 1 and width 2 samples (at 1 Hz), depth 1, dry level 0 and
wet level 1, both reverb flags true. -/
def chorusSettings : ChainSettings ℚ :=
  { defaultSettings with
    chorusOn := false
    delayTime := 1
    chorDelay := 1
    chorWidth := 2
    chorDepth := 1
    dryLevel := 0
    wetLevel := 1 }

/-- The state in which the loops of `processBlock` start for `chorusDemo`
and `chorusSettings`. -/
def chorusStart : BlockState ℚ Unit :=
  { p := blockSetup flatLibrary chorusSettings chorusDemo.p, buffer := chorusDemo.buffer }

/-- The settings `chorusSettings` with the plain delay path selected. -/
def plainSettings : ChainSettings ℚ :=
  { chorusSettings with chorusOn := true }

/-- The settings `chorusSettings` with the vibrato path selected and a
vibrato depth of 0. -/
def vibratoZeroSettings : ChainSettings ℚ :=
  { chorusSettings with chorusOn := true, vibratoOn := false, vibDepth := 0, vibWidth := 2 }

/-- A unit with four slots that all hold 0, a delay of 1 sample and a width of
2 samples. -/
def silentUnit : DelayLineEffect ℚ :=
  { blankUnit with bufferSize := 4, currentDelayTime := 1, currentWidth := 2 }

/-- A stereo processor at a sample rate of 1 Hz whose four units are
`silentUnit`; every input sample is 0. -/
def silentDemo : BlockState ℚ Unit :=
  { p := { chorusDemo.p with
      delay := silentUnit
      flanger := silentUnit
      vibrato := silentUnit
      chorus := silentUnit }
    buffer := fun _ _ => 0 }

/-- Settings `chorusSettings` with a flanger delay of 1 and width of 2 samples
and a vibrato width of 1 sample (at 1 Hz). -/
def silentSettings : ChainSettings ℚ :=
  { chorusSettings with flangDelay := 1, flangWidth := 2, vibWidth := 1 }

/-- A unit whose LFO phase is 3/4 and whose inverse sample rate is 1/2, so
that an LFO frequency of 1 carries the phase over 1. -/
def wrapUnit : DelayLineEffect ℚ :=
  { blankUnit with phase := 3 / 4, inverseSampleRate := 1 / 2 }

/-- The default settings with the flanger selected (`flangerOn` false). -/
def flangerSettings : ChainSettings ℚ :=
  { defaultSettings with flangerOn := false }

/-- The unit `rampUnit` read at position 3/2: the integer read position is 1
and the four taps 10, 20, 30, 40 lie on a line. -/
def lineUnit : DelayLineEffect ℚ :=
  { rampUnit with localReadPosition := 1, readPosition := 3 / 2 }

/-- The unit `rampUnit` read at position 7/2: the integer read position 3 is
the last slot, and the taps are the samples 30, 40, 10, 20 of the slots 2, 3,
0, 1. -/
def wrapReadUnit : DelayLineEffect ℚ :=
  { rampUnit with localReadPosition := 3, readPosition := 7 / 2 }

/-- A unit with four slots that all hold 5, read at position 3/2. -/
def constUnit : DelayLineEffect ℚ :=
  { blankUnit with
    bufferSize := 4
    delayBuffer := fun _ _ => 5
    localReadPosition := 1
    readPosition := 3 / 2 }

/-- An editor that has recorded taps at the times 1, 3 and 4. -/
def threeTaps : MastersDelayAudioProcessorEditor ℚ :=
  { tapTimes := [1, 3, 4], sentDelayTimes := [], sliderValues := [], erasures := 0 }

/-- The processor of `chorusDemo` with other effect units: the flanger and
vibrato units hold the ramp and the chorus unit is silent; the base delay unit
and the input are those of `chorusDemo`. -/
def routingDemo : BlockState ℚ Unit :=
  { p := { chorusDemo.p with flanger := rampUnit, vibrato := rampUnit, chorus := silentUnit }
    buffer := chorusDemo.buffer }

/-- The default settings with a vibrato width inside its declared range. -/
def rangeSettings : ChainSettings ℚ :=
  { defaultSettings with vibWidth := 2 / 100 }

/-- The processor of `flangerDemo` at a sample rate of 200 Hz. -/
def rangeDemo : MastersDelayAudioProcessor ℚ Unit :=
  { flangerDemo.p with sampleRate := (((200 : Int)) : ℚ) }

/-- The processor of `flangerDemo` at a sample rate of 2000000000 Hz, a value
of `int`. -/
def hugeRateDemo : MastersDelayAudioProcessor ℚ Unit :=
  { flangerDemo.p with sampleRate := (((2000000000 : Int)) : ℚ) }

end Examples

/-! ## Arithmetic of the C library functions -/

section Arithmetic

variable {F : Type} [LinearOrderedField F] [FloorRing F]


theorem truncToInt_intCast (n : Int) : truncToInt ((n : Int) : F) = n := by
  unfold truncToInt
  split <;> simp

theorem truncToInt_floorf (x : F) : truncToInt (floorf x) = Int.floor x := by
  unfold floorf
  exact truncToInt_intCast _

theorem fmodf_of_nonneg (x y : F) (hx : 0 ≤ x) (hy : 0 < y) :
    fmodf x y = x - ((Int.floor (x / y) : Int) : F) * y := by
  unfold fmodf truncToInt
  rw [if_pos (div_nonneg hx hy.le)]

theorem fmodf_nonneg (x y : F) (hx : 0 ≤ x) (hy : 0 < y) : 0 ≤ fmodf x y := by
  rw [fmodf_of_nonneg x y hx hy]
  have h := Int.floor_le (x / y)
  have h2 : ((Int.floor (x / y) : Int) : F) * y ≤ x / y * y :=
    mul_le_mul_of_nonneg_right h hy.le
  rw [div_mul_cancel₀ x hy.ne.symm] at h2
  linarith

theorem fmodf_lt (x y : F) (hx : 0 ≤ x) (hy : 0 < y) : fmodf x y < y := by
  rw [fmodf_of_nonneg x y hx hy]
  have h := Int.lt_floor_add_one (x / y)
  have h2 : x / y * y < (((Int.floor (x / y) : Int) : F) + 1) * y :=
    mul_lt_mul_of_pos_right h hy
  rw [div_mul_cancel₀ x hy.ne.symm] at h2
  linarith

theorem floor_intCast_div (m c : Int) (hc : 0 < c) :
    Int.floor (((m : Int) : F) / ((c : Int) : F)) = m / c := by
  have hc' : (0 : F) < ((c : Int) : F) := by exact_mod_cast hc
  rw [Int.floor_eq_iff]
  have h1 := Int.emod_add_ediv m c
  have h2 := Int.emod_nonneg m hc.ne.symm
  have h3 := Int.emod_lt_of_pos m hc
  have e : ((m : Int) : F) = (((m % c : Int)) : F) + ((c : Int) : F) * (((m / c : Int)) : F) := by
    exact_mod_cast h1.symm
  have h2' : (0 : F) ≤ (((m % c : Int)) : F) := by exact_mod_cast h2
  have h3' : (((m % c : Int)) : F) < ((c : Int) : F) := by exact_mod_cast h3
  constructor
  · rw [le_div_iff₀ hc']
    nlinarith
  · rw [div_lt_iff₀ hc']
    nlinarith

theorem fmodf_intCast (m c : Int) (hm : 0 ≤ m) (hc : 0 < c) :
    fmodf ((m : Int) : F) ((c : Int) : F) = (((m % c : Int)) : F) := by
  have hc' : (0 : F) < ((c : Int) : F) := by exact_mod_cast hc
  have hm' : (0 : F) ≤ ((m : Int) : F) := by exact_mod_cast hm
  rw [fmodf_of_nonneg _ _ hm' hc', floor_intCast_div m c hc]
  have h1 := Int.emod_add_ediv m c
  have e : ((m : Int) : F) = (((m % c : Int)) : F) + ((c : Int) : F) * (((m / c : Int)) : F) := by
    exact_mod_cast h1.symm
  linarith

/-- Inside the range of `int` the conversion `(int) x` is the truncation. -/
theorem floatToInt32_of_fits (x : F) (h0 : -2147483648 ≤ truncToInt x)
    (h1 : truncToInt x ≤ 2147483647) : floatToInt32 x = truncToInt x := by
  simp only [floatToInt32]
  rw [if_pos ⟨h0, h1⟩]

/-- A value that is not negative and below `2^31` converts to its floor. -/
theorem floatToInt32_of_nonneg (x : F) (h0 : 0 ≤ x) (h1 : x < 2147483648) :
    floatToInt32 x = Int.floor x := by
  have ht : truncToInt x = Int.floor x := by simp only [truncToInt, if_pos h0]
  have hf0 : 0 ≤ Int.floor x := Int.floor_nonneg.2 h0
  have hf1 : Int.floor x < 2147483648 := by
    rw [Int.floor_lt]
    exact_mod_cast h1
  rw [floatToInt32_of_fits x (by rw [ht]; omega) (by rw [ht]; omega), ht]

/-- A value of `int` inside the 32-bit range is its own two's complement
value. -/
theorem wrapInt32_of_fits (n : Int) (h0 : -2147483648 ≤ n) (h1 : n ≤ 2147483647) :
    wrapInt32 n = n := by
  simp only [wrapInt32]
  omega

/-- An integer inside the range of `int` converts to itself. -/
theorem floatToInt32_intCast (n : Int) (h0 : -2147483648 ≤ n) (h1 : n ≤ 2147483647) :
    floatToInt32 (((n : Int)) : F) = n := by
  rw [floatToInt32_of_fits _ (by rw [truncToInt_intCast]; exact h0)
    (by rw [truncToInt_intCast]; exact h1), truncToInt_intCast]

end Arithmetic

/-! ## The delay line -/

section DelayLineFacts

variable {F : Type} [LinearOrderedField F] [FloorRing F]

namespace DelayLineEffect

/-- The integer read position that `process` computes. -/
theorem processTraced_localReadPosition (e : DelayLineEffect F) (d : F) :
    (e.processTraced d).1.localReadPosition
      = Int.floor (fmodf ((e.localWritePosition : F) - d + (e.bufferSize : F))
          (e.bufferSize : F)) := by
  unfold processTraced
  simp only [truncToInt_floorf]
  split <;> rfl

theorem process_localReadPosition (e : DelayLineEffect F) (d : F) :
    (e.process d).localReadPosition
      = Int.floor (fmodf ((e.localWritePosition : F) - d + (e.bufferSize : F))
          (e.bufferSize : F)) :=
  processTraced_localReadPosition e d

theorem process_readPosition (e : DelayLineEffect F) (d : F) :
    (e.process d).readPosition
      = fmodf ((e.localWritePosition : F) - d + (e.bufferSize : F)) (e.bufferSize : F) := by
  unfold process processTraced
  simp only
  split <;> rfl

@[simp] theorem process_delayBuffer (e : DelayLineEffect F) (d : F) :
    (e.process d).delayBuffer = e.delayBuffer := by
  unfold process processTraced
  simp only
  split <;> rfl

@[simp] theorem process_bufferSize (e : DelayLineEffect F) (d : F) :
    (e.process d).bufferSize = e.bufferSize := by
  unfold process processTraced
  simp only
  split <;> rfl

@[simp] theorem process_localWritePosition (e : DelayLineEffect F) (d : F) :
    (e.process d).localWritePosition = e.localWritePosition := by
  unfold process processTraced
  simp only
  split <;> rfl

@[simp] theorem process_writePosition (e : DelayLineEffect F) (d : F) :
    (e.process d).writePosition = e.writePosition := by
  unfold process processTraced
  simp only
  split <;> rfl

@[simp] theorem process_delayData (e : DelayLineEffect F) (d : F) :
    (e.process d).delayData = e.delayData := by
  unfold process processTraced
  simp only
  split <;> rfl

@[simp] theorem process_currentDelayTime (e : DelayLineEffect F) (d : F) :
    (e.process d).currentDelayTime = e.currentDelayTime := by
  unfold process processTraced
  simp only
  split <;> rfl

/-- The value of `out` after `process`, by cases on the guard of line 87. -/
theorem process_out (e : DelayLineEffect F) (d : F) :
    (e.process d).out
      = if Int.floor (fmodf ((e.localWritePosition : F) - d + (e.bufferSize : F))
            (e.bufferSize : F)) = e.localWritePosition then 0
        else
          cubicInterpolation
            { e with
              out := 0
              readPosition :=
                fmodf ((e.localWritePosition : F) - d + (e.bufferSize : F)) (e.bufferSize : F)
              localReadPosition :=
                Int.floor (fmodf ((e.localWritePosition : F) - d + (e.bufferSize : F))
                  (e.bufferSize : F)) } := by
  unfold process processTraced
  simp only [truncToInt_floorf, ne_eq]
  split_ifs <;> rfl

/-- The indices read by `process`, by cases on the guard of line 87. -/
theorem processTraced_reads (e : DelayLineEffect F) (d : F) :
    (e.processTraced d).2
      = if Int.floor (fmodf ((e.localWritePosition : F) - d + (e.bufferSize : F))
            (e.bufferSize : F)) = e.localWritePosition then []
        else
          cubicReads
            { e with
              out := 0
              readPosition :=
                fmodf ((e.localWritePosition : F) - d + (e.bufferSize : F)) (e.bufferSize : F)
              localReadPosition :=
                Int.floor (fmodf ((e.localWritePosition : F) - d + (e.bufferSize : F))
                  (e.bufferSize : F)) } := by
  unfold processTraced
  simp only [truncToInt_floorf, ne_eq]
  split_ifs <;> rfl

/-- The wrapped position of an integer delay differs from the write cursor. -/
theorem wrapped_ne_cursor (w d c : Int) (hw0 : 0 ≤ w) (hw1 : w < c) (hd0 : 1 ≤ d)
    (hd1 : d ≤ c - 1) : (w - d) % c ≠ w := by
  intro h
  have hw : w % c = w := Int.emod_eq_of_lt hw0 hw1
  have h2 : (w - d) % c = w % c := by rw [h, hw]
  have h3 : (w - (w - d)) % c = 0 := by
    have := (Int.emod_eq_emod_iff_emod_sub_eq_zero).1 h2.symm
    exact this
  have h4 : c ∣ d := by
    have h5 : w - (w - d) = d := by ring
    rw [h5] at h3
    exact Int.dvd_of_emod_eq_zero h3
  have := Int.le_of_dvd (by omega) h4
  omega

/-- With an integer delay `d` in `1 .. bufferSize - 1` the read position is
the integer `(w - d) mod bufferSize`. -/
theorem readPosition_intDelay (e : DelayLineEffect F) (d : Int)
    (hw0 : 0 ≤ e.localWritePosition) (hw1 : e.localWritePosition < e.bufferSize)
    (hd1 : d ≤ e.bufferSize - 1) :
    fmodf ((e.localWritePosition : F) - ((d : Int) : F) + (e.bufferSize : F)) (e.bufferSize : F)
      = ((((e.localWritePosition - d) % e.bufferSize : Int)) : F) := by
  have hc : 0 < e.bufferSize := by omega
  have e1 : (e.localWritePosition : F) - ((d : Int) : F) + (e.bufferSize : F)
      = (((e.localWritePosition - d + e.bufferSize : Int)) : F) := by push_cast; ring
  rw [e1, fmodf_intCast _ _ (by omega) hc]
  congr 1
  rw [Int.add_emod_self]

/-- With an integer delay `d` in `1 .. bufferSize - 1`, `out` is the sample
stored `d` slots behind the cursor. -/
theorem process_out_intDelay (e : DelayLineEffect F) (d : Int)
    (hw0 : 0 ≤ e.localWritePosition) (hw1 : e.localWritePosition < e.bufferSize)
    (hd0 : 1 ≤ d) (hd1 : d ≤ e.bufferSize - 1) :
    (e.process ((d : Int) : F)).out
      = e.delayBuffer e.delayData ((e.localWritePosition - d) % e.bufferSize) := by
  rw [process_out, readPosition_intDelay e d hw0 hw1 hd1, Int.floor_intCast,
    if_neg (wrapped_ne_cursor _ _ _ hw0 hw1 hd0 hd1)]
  simp [cubicInterpolation, tapIndex1]

end DelayLineEffect

end DelayLineFacts

/-! ## Claims about the delay line -/

section DelayLineClaims

variable {F : Type} [LinearOrderedField F] [FloorRing F]

open DelayLineEffect

/-- C3: for a write cursor `w` in `[0, capacity)` and an integer delay `d`
with `1 ≤ d ≤ capacity - 1` (capacity at least 2), `process (d)` sets `out`
to the stored sample `delayData[(w - d) mod capacity]`; the result is the
same for every other buffer that holds the same value in that one slot, so
the three neighbouring taps of the cubic do not matter. -/
theorem C3_integer_delay_reads_stored_sample (e : DelayLineEffect F) (d : Int)
    (_hcap : 2 ≤ e.bufferSize)
    (hw0 : 0 ≤ e.localWritePosition) (hw1 : e.localWritePosition < e.bufferSize)
    (hd0 : 1 ≤ d) (hd1 : d ≤ e.bufferSize - 1) :
    (e.process ((d : Int) : F)).out
        = e.delayBuffer e.delayData ((e.localWritePosition - d) % e.bufferSize)
      ∧ ∀ other : Nat → Int → F,
          other e.delayData ((e.localWritePosition - d) % e.bufferSize)
              = e.delayBuffer e.delayData ((e.localWritePosition - d) % e.bufferSize) →
            (({ e with delayBuffer := other } : DelayLineEffect F).process ((d : Int) : F)).out
              = (e.process ((d : Int) : F)).out := by
  refine ⟨process_out_intDelay e d hw0 hw1 hd0 hd1, ?_⟩
  intro other h
  rw [process_out_intDelay e d hw0 hw1 hd0 hd1,
    process_out_intDelay ({ e with delayBuffer := other } : DelayLineEffect F) d hw0 hw1 hd0 hd1]
  exact h

/-- C3 at a concrete unit: four slots holding 10, 20, 30, 40, cursor on slot
0, delay 1: the value read is the 40 of slot 3. -/
theorem C3_integer_delay_reads_stored_sample_witness :
    (rampUnit.process (((1 : Int)) : ℚ)).out = 40 := by
  have h := (C3_integer_delay_reads_stored_sample rampUnit 1
    (by simp [rampUnit]) (by simp [rampUnit, blankUnit]) (by simp [rampUnit, blankUnit])
    (by decide) (by simp [rampUnit])).1
  rw [h]
  simp [rampUnit, blankUnit]

/-- C4: `process (d)` compares the integer read position
`floor (fmod (w - d + capacity, capacity))` with the write cursor `w`. When
they are equal `out` is 0 and no buffer slot is read; otherwise `out` is the
value of `cubicInterpolation` at that read position and exactly its four taps
are read. -/
theorem C4_process_guard (e : DelayLineEffect F) (d : F) :
    (e.process d).out
        = (if Int.floor (fmodf ((e.localWritePosition : F) - d + (e.bufferSize : F))
              (e.bufferSize : F)) = e.localWritePosition then 0
          else
            cubicInterpolation
              { e with
                out := 0
                readPosition :=
                  fmodf ((e.localWritePosition : F) - d + (e.bufferSize : F))
                    (e.bufferSize : F)
                localReadPosition :=
                  Int.floor (fmodf ((e.localWritePosition : F) - d + (e.bufferSize : F))
                    (e.bufferSize : F)) })
      ∧ (e.processTraced d).2
        = (if Int.floor (fmodf ((e.localWritePosition : F) - d + (e.bufferSize : F))
              (e.bufferSize : F)) = e.localWritePosition then []
          else
            cubicReads
              { e with
                out := 0
                readPosition :=
                  fmodf ((e.localWritePosition : F) - d + (e.bufferSize : F))
                    (e.bufferSize : F)
                localReadPosition :=
                  Int.floor (fmodf ((e.localWritePosition : F) - d + (e.bufferSize : F))
                    (e.bufferSize : F)) }) := by
  exact ⟨process_out e d, processTraced_reads e d⟩

/-- The read position of the four-slot unit for the delay 5: `fmodf (-1, 4)`
keeps the sign of its first argument. -/
theorem rampUnit_readPosition_five :
    fmodf (((rampUnit.localWritePosition : Int) : ℚ) - 5 + ((rampUnit.bufferSize : Int) : ℚ))
      ((rampUnit.bufferSize : Int) : ℚ) = -1 := by
  simp only [rampUnit, blankUnit, fmodf, truncToInt]
  norm_num

/-- C5, as stated, fails: capacity 4, write cursor 0 and the delay 5 give the
integer read position -1, and `cubicInterpolation` reads the slots 2, -1, 0,
1 of which -1 is outside `[0, 4)`. -/
theorem C5_unbounded_delay_counterexample :
    (1 ≤ rampUnit.bufferSize ∧ 0 ≤ rampUnit.localWritePosition
        ∧ rampUnit.localWritePosition < rampUnit.bufferSize)
      ∧ (rampUnit.process 5).localReadPosition = -1
      ∧ (rampUnit.processTraced 5).2 = [2, -1, 0, 1]
      ∧ ¬ (0 ≤ (rampUnit.process 5).localReadPosition) := by
  have hr : (rampUnit.process 5).localReadPosition = -1 := by
    rw [process_localReadPosition, rampUnit_readPosition_five]
    rw [Int.floor_eq_iff]; norm_num
  refine ⟨by simp [rampUnit, blankUnit], hr, ?_, by rw [hr]; decide⟩
  have h4 := processTraced_reads rampUnit 5
  rw [rampUnit_readPosition_five] at h4
  have hf : Int.floor (-1 : ℚ) = -1 := by
    rw [Int.floor_eq_iff]; norm_num
  rw [hf] at h4
  rw [h4]
  simp [rampUnit, blankUnit, cubicReads, tapIndex0, tapIndex1, tapIndex2, tapIndex3]
  decide

/-- C5, amended: for capacity at least 1, a write cursor `w` in
`[0, capacity)` and every delay value `d ≤ w + capacity` (the argument of
`fmodf` is then not negative), the integer read position computed by
`process`, the four tap indices formed from it, and every index that the call
reads lie in `[0, capacity)`. -/
theorem C5_reads_in_range (e : DelayLineEffect F) (d : F)
    (hcap : 1 ≤ e.bufferSize)
    (_hw0 : 0 ≤ e.localWritePosition) (_hw1 : e.localWritePosition < e.bufferSize)
    (hd : d ≤ (e.localWritePosition : F) + (e.bufferSize : F)) :
    (0 ≤ (e.process d).localReadPosition ∧ (e.process d).localReadPosition < e.bufferSize)
      ∧ (∀ i ∈ cubicReads (e.process d), 0 ≤ i ∧ i < e.bufferSize)
      ∧ (∀ i ∈ (e.processTraced d).2, 0 ≤ i ∧ i < e.bufferSize) := by
  have hc : 0 < e.bufferSize := by omega
  have hcF : (0 : F) < (e.bufferSize : F) := by exact_mod_cast hc
  have hx : (0 : F) ≤ (e.localWritePosition : F) - d + (e.bufferSize : F) := by linarith
  have h0 := fmodf_nonneg _ _ hx hcF
  have h1 := fmodf_lt _ _ hx hcF
  have hr0 : 0 ≤ (e.process d).localReadPosition := by
    rw [process_localReadPosition]
    exact Int.floor_nonneg.2 h0
  have hr1 : (e.process d).localReadPosition < e.bufferSize := by
    rw [process_localReadPosition, Int.floor_lt]
    exact h1
  have taps : ∀ r : Int, 0 ≤ r → r < e.bufferSize →
      ∀ i ∈ [(r - 1 + e.bufferSize).tmod e.bufferSize, r + 0, (r + 1).tmod e.bufferSize,
        (r + 2).tmod e.bufferSize], 0 ≤ i ∧ i < e.bufferSize := by
    intro r hr0 hr1 i hi
    simp only [List.mem_cons, List.mem_singleton, List.not_mem_nil, or_false] at hi
    rcases hi with h | h | h | h <;> subst h
    · exact ⟨Int.tmod_nonneg _ (by omega), Int.tmod_lt_of_pos _ hc⟩
    · omega
    · exact ⟨Int.tmod_nonneg _ (by omega), Int.tmod_lt_of_pos _ hc⟩
    · exact ⟨Int.tmod_nonneg _ (by omega), Int.tmod_lt_of_pos _ hc⟩
  refine ⟨⟨hr0, hr1⟩, ?_, ?_⟩
  · have := taps _ hr0 hr1
    simpa [cubicReads, tapIndex0, tapIndex1, tapIndex2, tapIndex3] using this
  · rw [processTraced_reads e d]
    split_ifs with hg
    · simp
    · rw [process_localReadPosition] at hr0 hr1
      have := taps _ hr0 hr1
      simpa [cubicReads, tapIndex0, tapIndex1, tapIndex2, tapIndex3] using this

/-- C5, amended, at the four-slot unit with the delay 5/2: the read position
is slot 1 and the taps read are the slots 0, 1, 2, 3. -/
theorem C5_reads_in_range_witness :
    (rampUnit.process (5 / 2)).localReadPosition = 1
      ∧ (rampUnit.processTraced (5 / 2)).2 = [0, 1, 2, 3]
      ∧ (0 ≤ (rampUnit.process (5 / 2)).localReadPosition
        ∧ (rampUnit.process (5 / 2)).localReadPosition < rampUnit.bufferSize) := by
  have h := C5_reads_in_range rampUnit (5 / 2) (by simp [rampUnit]) (by simp [rampUnit, blankUnit])
    (by simp [rampUnit, blankUnit]) (by norm_num [rampUnit, blankUnit])
  have hpos : fmodf (((rampUnit.localWritePosition : Int) : ℚ) - 5 / 2
        + ((rampUnit.bufferSize : Int) : ℚ)) ((rampUnit.bufferSize : Int) : ℚ) = 3 / 2 := by
    simp only [rampUnit, blankUnit, fmodf, truncToInt]
    norm_num
  have hfl2 : Int.floor ((3 : ℚ) / 2) = 1 := by
    rw [Int.floor_eq_iff]; norm_num
  refine ⟨?_, ?_, h.1⟩
  · rw [process_localReadPosition, hpos, hfl2]
  · rw [processTraced_reads, hpos, hfl2]
    simp [rampUnit, blankUnit, cubicReads, tapIndex0, tapIndex1, tapIndex2, tapIndex3]
    decide

/-- C6: `prepare` leaves a capacity of at least 1 and the write position 0,
for every sample rate and maximal delay. When `writePosition` is inside
`[0, capacity)`, `prepareDelayBuffer` puts `localWritePosition` there too;
`calculatePositionAndPhase` and `updatePositionAndPhase` keep both cursors
inside `[0, capacity)` and the capacity unchanged, and
`calculatePositionAndPhase` moves the cursor `c` to `(c + 1) mod capacity`. -/
theorem C6_cursor_invariant :
    (∀ (e : DelayLineEffect F) (sampleRate channels : Int) (maxDelayTime : F),
        1 ≤ (e.prepare sampleRate channels maxDelayTime).bufferSize
          ∧ (e.prepare sampleRate channels maxDelayTime).writePosition = 0
          ∧ 0 ≤ (e.prepare sampleRate channels maxDelayTime).writePosition
          ∧ (e.prepare sampleRate channels maxDelayTime).writePosition
              < (e.prepare sampleRate channels maxDelayTime).bufferSize)
      ∧ (∀ (e : DelayLineEffect F) (channel : Nat) (useLfo : Bool),
          0 ≤ e.writePosition → e.writePosition < e.bufferSize →
            (e.prepareDelayBuffer channel useLfo).bufferSize = e.bufferSize
              ∧ 0 ≤ (e.prepareDelayBuffer channel useLfo).localWritePosition
              ∧ (e.prepareDelayBuffer channel useLfo).localWritePosition < e.bufferSize
              ∧ 0 ≤ (e.prepareDelayBuffer channel useLfo).writePosition
              ∧ (e.prepareDelayBuffer channel useLfo).writePosition < e.bufferSize)
      ∧ (∀ (e : DelayLineEffect F) (lfoFreq : F),
          0 ≤ e.localWritePosition → e.localWritePosition < e.bufferSize →
          0 ≤ e.writePosition → e.writePosition < e.bufferSize →
            (e.calculatePositionAndPhase lfoFreq).bufferSize = e.bufferSize
              ∧ (e.calculatePositionAndPhase lfoFreq).localWritePosition
                  = (e.localWritePosition + 1) % e.bufferSize
              ∧ 0 ≤ (e.calculatePositionAndPhase lfoFreq).localWritePosition
              ∧ (e.calculatePositionAndPhase lfoFreq).localWritePosition < e.bufferSize
              ∧ 0 ≤ (e.calculatePositionAndPhase lfoFreq).writePosition
              ∧ (e.calculatePositionAndPhase lfoFreq).writePosition < e.bufferSize)
      ∧ (∀ (e : DelayLineEffect F) (useLfo : Bool),
          0 ≤ e.localWritePosition → e.localWritePosition < e.bufferSize →
          0 ≤ e.writePosition → e.writePosition < e.bufferSize →
            (e.updatePositionAndPhase useLfo).bufferSize = e.bufferSize
              ∧ 0 ≤ (e.updatePositionAndPhase useLfo).localWritePosition
              ∧ (e.updatePositionAndPhase useLfo).localWritePosition < e.bufferSize
              ∧ 0 ≤ (e.updatePositionAndPhase useLfo).writePosition
              ∧ (e.updatePositionAndPhase useLfo).writePosition < e.bufferSize) := by
  refine ⟨?_, ?_, ?_, ?_⟩
  · intro e sampleRate channels maxDelayTime
    have h : 1 ≤ (e.prepare sampleRate channels maxDelayTime).bufferSize := by
      simp only [prepare]
      split_ifs <;> omega
    have h0 : (e.prepare sampleRate channels maxDelayTime).writePosition = 0 := rfl
    exact ⟨h, h0, by omega, by omega⟩
  · intro e channel useLfo h0 h1
    cases useLfo <;> simp [prepareDelayBuffer, h0, h1]
  · intro e lfoFreq h0 h1 h2 h3
    have key : (e.localWritePosition + 1) % e.bufferSize
        = if e.localWritePosition + 1 ≥ e.bufferSize then e.localWritePosition + 1 - e.bufferSize
          else e.localWritePosition + 1 := by
      split_ifs with h
      · have : e.localWritePosition + 1 = e.bufferSize := by omega
        rw [this]; simp
      · exact Int.emod_eq_of_lt (by omega) (by omega)
    rw [key]
    simp only [calculatePositionAndPhase]
    split_ifs <;> simp <;> omega
  · intro e useLfo h0 h1 _ _
    cases useLfo <;> simp [updatePositionAndPhase, h0, h1]

/-- C6 at a concrete unit: four slots and both cursors on slot 3; one
`calculatePositionAndPhase` wraps the local cursor to slot 0. -/
theorem C6_cursor_invariant_witness :
    (({ rampUnit with localWritePosition := 3, writePosition := 3 } :
        DelayLineEffect ℚ).calculatePositionAndPhase 0).localWritePosition = 0 := by
  have h := (C6_cursor_invariant.2.2.1
    ({ rampUnit with localWritePosition := 3, writePosition := 3 } : DelayLineEffect ℚ) 0
    (by decide) (by simp [rampUnit]) (by decide) (by simp [rampUnit])).2.1
  rw [h]
  simp [rampUnit]

/-- C7, as stated, fails: at 44100 Hz a maximal delay of one millisecond
(44.1 samples) gives the capacity 45, whereas `ceil (44.1) + 1` is 46. -/
theorem C7_capacity_counterexample :
    (blankUnit.prepare 44100 1 (1 / 1000)).bufferSize = 45
      ∧ Int.ceil ((1 / 1000 : ℚ) * (((44100 : Int)) : ℚ)) + 1 = 46 := by
  have hf : Int.floor ((1 / 1000 : ℚ) * (((44100 : Int)) : ℚ)) = 44 := by
    rw [Int.floor_eq_iff]; norm_num
  have hc : Int.ceil ((1 / 1000 : ℚ) * (((44100 : Int)) : ℚ)) = 45 := by
    rw [Int.ceil_eq_iff]; norm_num
  have ht : floatToInt32 ((1 / 1000 : ℚ) * (((44100 : Int)) : ℚ)) = 44 := by
    rw [floatToInt32_of_nonneg _ (by norm_num) (by norm_num), hf]
  refine ⟨?_, by rw [hc]; rfl⟩
  simp only [prepare, ht]
  decide

/-- C7, amended: for a sample rate in `[1, 2^24]` (an `int` that the
conversion to `float` keeps) and a non-negative `maxDelaySeconds` that is a
value of `float` and whose product `maxDelaySeconds * sampleRate` is a value of
`float` as well (so that line 50 computes it without rounding) below
`2^31 - 1` (so that the conversion to `int` and the addition of 1 stay inside
`int`), `prepare` sizes the ring buffer to
`floor (maxDelaySeconds * sampleRate) + 1`. -/
theorem C7_capacity_floor (e : DelayLineEffect F) (sampleRate channels : Int)
    (maxDelayTime : F) (hs : 0 < sampleRate) (_hs2 : sampleRate ≤ 16777216)
    (hm : 0 ≤ maxDelayTime) (_hm2 : FloatExact maxDelayTime)
    (_hx : FloatExact (maxDelayTime * (sampleRate : F)))
    (hr : maxDelayTime * (sampleRate : F) < 2147483647) :
    (e.prepare sampleRate channels maxDelayTime).bufferSize
      = Int.floor (maxDelayTime * (sampleRate : F)) + 1 := by
  have hsF : (0 : F) < (sampleRate : F) := by exact_mod_cast hs
  have hx : (0 : F) ≤ maxDelayTime * (sampleRate : F) := mul_nonneg hm hsF.le
  have hfl : 0 ≤ Int.floor (maxDelayTime * (sampleRate : F)) := Int.floor_nonneg.2 hx
  have hfu : Int.floor (maxDelayTime * (sampleRate : F)) < 2147483647 := by
    rw [Int.floor_lt]
    exact_mod_cast hr
  have hconv := floatToInt32_of_nonneg (maxDelayTime * (sampleRate : F)) hx (by linarith)
  simp only [prepare]
  rw [hconv, wrapInt32_of_fits _ (by omega) (by omega), if_neg (by omega)]

/-- C7, amended, at 3 Hz and a maximal delay of half a second: the product 1.5
is a value of `float` and the capacity is `floor (1.5) + 1`. -/
theorem C7_capacity_floor_witness :
    (blankUnit.prepare 3 1 (1 / 2)).bufferSize
      = Int.floor ((1 / 2 : ℚ) * (((3 : Int)) : ℚ)) + 1 :=
  C7_capacity_floor blankUnit 3 1 (1 / 2) (by decide) (by decide) (by norm_num)
    ⟨1, 1, 0, by decide, by decide, by decide, by norm_num⟩
    ⟨3, 1, 0, by decide, by decide, by decide, by norm_num⟩ (by norm_num)

end DelayLineClaims

/-! ## The effect router -/

section StoreFacts

variable {F : Type}

namespace DelayLineEffect

@[simp] theorem store_at_cursor (e : DelayLineEffect F) (v : F) :
    (e.store v).delayBuffer e.delayData e.localWritePosition = v := by
  simp [store]

@[simp] theorem store_out (e : DelayLineEffect F) (v : F) : (e.store v).out = e.out := rfl

@[simp] theorem store_delayData (e : DelayLineEffect F) (v : F) :
    (e.store v).delayData = e.delayData := rfl

@[simp] theorem store_localWritePosition (e : DelayLineEffect F) (v : F) :
    (e.store v).localWritePosition = e.localWritePosition := rfl

@[simp] theorem store_bufferSize (e : DelayLineEffect F) (v : F) :
    (e.store v).bufferSize = e.bufferSize := rfl

@[simp] theorem store_writePosition (e : DelayLineEffect F) (v : F) :
    (e.store v).writePosition = e.writePosition := rfl

@[simp] theorem store_currentDelayTime (e : DelayLineEffect F) (v : F) :
    (e.store v).currentDelayTime = e.currentDelayTime := rfl

/-- A store replaces the value written by an earlier store at the same cursor. -/
theorem store_store (e : DelayLineEffect F) (v w : F) : (e.store v).store w = e.store w := by
  unfold store
  simp only
  congr 1
  funext ch i
  split_ifs <;> rfl

end DelayLineEffect

end StoreFacts

section RouterFacts

variable {F : Type} [LinearOrderedField F] [FloorRing F] {R : Type}

/-- The voice loop leaves `out`, the row pointer and the cursor of the base
delay unit unchanged. -/
theorem chorusVoices_delay_frame (lib : Library F R) (numOfVoices : Int) (chorDepth : F)
    (channel count : Nat) (u : DelayLineEffect F × DelayLineEffect F) :
    (chorusVoices lib numOfVoices chorDepth channel count u).1.out = u.1.out
      ∧ (chorusVoices lib numOfVoices chorDepth channel count u).1.delayData = u.1.delayData
      ∧ (chorusVoices lib numOfVoices chorDepth channel count u).1.localWritePosition
          = u.1.localWritePosition := by
  induction count with
  | zero => exact ⟨rfl, rfl, rfl⟩
  | succ n ih =>
    obtain ⟨h1, h2, h3⟩ := ih
    simp only [chorusVoices, chorusVoice]
    split_ifs <;> simp [h1, h2, h3]

/-- The base delay unit after the flanger path: the first store of line 277
is replaced by the store of line 280. -/
theorem case1_delay (lib : Library F R) (cs : ChainSettings F) (channel sample : Nat) (inp : F)
    (s : BlockState F R) :
    (case1 lib cs channel sample inp s).p.delay
      = (s.p.delay.process s.p.delay.currentDelayTime).store
          (inp + (s.p.delay.process s.p.delay.currentDelayTime).out * cs.feedback) := by
  simp only [case1, DelayLineEffect.store_out]
  exact DelayLineEffect.store_store _ _ _

/-- The flanger unit after the flanger path. -/
theorem case1_flanger (lib : Library F R) (cs : ChainSettings F) (channel sample : Nat) (inp : F)
    (s : BlockState F R) :
    (case1 lib cs channel sample inp s).p.flanger
      = (s.p.flanger.process
            (s.p.flanger.currentDelayTime
              + s.p.flanger.currentWidth * s.p.flanger.lfo lib.sinf lib.twoPi false)).store
          ((s.p.delay.process s.p.delay.currentDelayTime).out
            + (s.p.flanger.process
                (s.p.flanger.currentDelayTime
                  + s.p.flanger.currentWidth * s.p.flanger.lfo lib.sinf lib.twoPi false)).out
              * cs.flangFeedback) := by
  simp only [case1, DelayLineEffect.store_out]

end RouterFacts

/-! ## Claims about the effect router -/

section RouterClaims

variable {F : Type} [LinearOrderedField F] [FloorRing F] {R : Type}

open DelayLineEffect

/-- C8: the selection is a total priority function of the three flags. The
selector is 1 (flanger path) iff `flangerOn` is false, 2 (vibrato path) iff
`flangerOn` is true and `vibratoOn` false, 3 (chorus path) iff `flangerOn`
and `vibratoOn` are true and `chorusOn` false, 0 (plain delay path) iff all
three are true; and the switch runs exactly the body of the selected case. -/
theorem C8_effect_selection (lib : Library F R) (cs : ChainSettings F) (channel sample : Nat)
    (inp : F) (s : BlockState F R) :
    (caseOfProcessing cs.flangerOn cs.vibratoOn cs.chorusOn = 1 ↔ cs.flangerOn = false)
      ∧ (caseOfProcessing cs.flangerOn cs.vibratoOn cs.chorusOn = 2
          ↔ cs.flangerOn = true ∧ cs.vibratoOn = false)
      ∧ (caseOfProcessing cs.flangerOn cs.vibratoOn cs.chorusOn = 3
          ↔ cs.flangerOn = true ∧ cs.vibratoOn = true ∧ cs.chorusOn = false)
      ∧ (caseOfProcessing cs.flangerOn cs.vibratoOn cs.chorusOn = 0
          ↔ cs.flangerOn = true ∧ cs.vibratoOn = true ∧ cs.chorusOn = true)
      ∧ route lib cs channel sample inp s
          = (if cs.flangerOn = false then case1 lib cs channel sample inp s
            else if cs.vibratoOn = false then case2 lib cs channel sample inp s
            else if cs.chorusOn = false then case3 lib cs channel sample inp s
            else case0 cs channel sample inp s) := by
  unfold route
  cases cs.flangerOn <;> cases cs.vibratoOn <;> cases cs.chorusOn <;>
    simp [caseOfProcessing]

/-- C9: in each of the four paths, when the routing of a sample finishes the
base delay buffer holds `in + delay.out * feedback` at the write cursor, where
`delay.out` is the output that `process` computed for this sample; hence the
same holds for the switch as a whole, whatever the flags. -/
theorem C9_feedback_write (lib : Library F R) (cs : ChainSettings F) (channel sample : Nat)
    (inp : F) (s : BlockState F R) :
    (((case0 cs channel sample inp s).p.delay.out = (s.p.delay.process s.p.delay.currentDelayTime).out)
        ∧ (case0 cs channel sample inp s).p.delay.delayBuffer s.p.delay.delayData s.p.delay.localWritePosition
            = inp + (case0 cs channel sample inp s).p.delay.out * cs.feedback)
      ∧ (((case1 lib cs channel sample inp s).p.delay.out = (s.p.delay.process s.p.delay.currentDelayTime).out)
        ∧ (case1 lib cs channel sample inp s).p.delay.delayBuffer s.p.delay.delayData s.p.delay.localWritePosition
            = inp + (case1 lib cs channel sample inp s).p.delay.out * cs.feedback)
      ∧ (((case2 lib cs channel sample inp s).p.delay.out = (s.p.delay.process s.p.delay.currentDelayTime).out)
        ∧ (case2 lib cs channel sample inp s).p.delay.delayBuffer s.p.delay.delayData s.p.delay.localWritePosition
            = inp + (case2 lib cs channel sample inp s).p.delay.out * cs.feedback)
      ∧ (((case3 lib cs channel sample inp s).p.delay.out = (s.p.delay.process s.p.delay.currentDelayTime).out)
        ∧ (case3 lib cs channel sample inp s).p.delay.delayBuffer s.p.delay.delayData s.p.delay.localWritePosition
            = inp + (case3 lib cs channel sample inp s).p.delay.out * cs.feedback)
      ∧ (((route lib cs channel sample inp s).p.delay.out = (s.p.delay.process s.p.delay.currentDelayTime).out)
        ∧ (route lib cs channel sample inp s).p.delay.delayBuffer s.p.delay.delayData s.p.delay.localWritePosition
            = inp + (route lib cs channel sample inp s).p.delay.out * cs.feedback) := by
  have h0 : (case0 cs channel sample inp s).p.delay.out
        = (s.p.delay.process s.p.delay.currentDelayTime).out
      ∧ (case0 cs channel sample inp s).p.delay.delayBuffer s.p.delay.delayData
          s.p.delay.localWritePosition
        = inp + (case0 cs channel sample inp s).p.delay.out * cs.feedback := by
    refine ⟨rfl, ?_⟩
    simp [case0, store]
  have h1 : (case1 lib cs channel sample inp s).p.delay.out
        = (s.p.delay.process s.p.delay.currentDelayTime).out
      ∧ (case1 lib cs channel sample inp s).p.delay.delayBuffer s.p.delay.delayData
          s.p.delay.localWritePosition
        = inp + (case1 lib cs channel sample inp s).p.delay.out * cs.feedback := by
    refine ⟨rfl, ?_⟩
    simp [case1, store]
  have h2 : (case2 lib cs channel sample inp s).p.delay.out
        = (s.p.delay.process s.p.delay.currentDelayTime).out
      ∧ (case2 lib cs channel sample inp s).p.delay.delayBuffer s.p.delay.delayData
          s.p.delay.localWritePosition
        = inp + (case2 lib cs channel sample inp s).p.delay.out * cs.feedback := by
    refine ⟨rfl, ?_⟩
    simp [case2, store]
  have h3 : (case3 lib cs channel sample inp s).p.delay.out
        = (s.p.delay.process s.p.delay.currentDelayTime).out
      ∧ (case3 lib cs channel sample inp s).p.delay.delayBuffer s.p.delay.delayData
          s.p.delay.localWritePosition
        = inp + (case3 lib cs channel sample inp s).p.delay.out * cs.feedback := by
    obtain ⟨f1, f2, f3⟩ := chorusVoices_delay_frame lib cs.numOfVoices.toInt cs.chorDepth channel
      (cs.numOfVoices.toInt + 1).toNat
      (s.p.delay.process s.p.delay.currentDelayTime, { s.p.chorus with phaseOffset := 0 })
    simp only [process_delayData, process_localWritePosition] at f2 f3
    refine ⟨?_, ?_⟩
    · simp only [case3, store_out]
      exact f1
    · simp only [case3, store_out]
      rw [← f2, ← f3]
      exact store_at_cursor _ _
  refine ⟨h0, h1, h2, h3, ?_⟩
  unfold route
  simp only
  split_ifs
  · exact h0
  · exact h1
  · exact h2
  · exact h3
  · cases hf : cs.flangerOn <;> cases hv : cs.vibratoOn <;> cases hc : cs.chorusOn <;>
      simp_all [caseOfProcessing]

/-- C10, as stated, fails in its last part: with a flanger output of 30 and
`flangDepth` 1 the term `flanger.out * flangDepth` is 30, yet after the
flanger path the base delay buffer holds 7 at the cursor, which is
`in + delay.out * feedback` (input 7, `delay.out` 0), and it holds the same 7
when `flangDepth` is 0. -/
theorem C10_flanger_depth_counterexample :
    (route flatLibrary flangerSettings 0 0 7 flangerDemo).p.flanger.out
        * flangerSettings.flangDepth = 30
      ∧ (route flatLibrary flangerSettings 0 0 7 flangerDemo).p.delay.delayBuffer 0 0 = 7
      ∧ (route flatLibrary { flangerSettings with flangDepth := 0 } 0 0 7
          flangerDemo).p.delay.delayBuffer 0 0 = 7 := by
  have hd : flangerDemo.p.flanger.currentDelayTime
      + flangerDemo.p.flanger.currentWidth
        * flangerDemo.p.flanger.lfo flatLibrary.sinf flatLibrary.twoPi false
      = (((2 : Int)) : ℚ) := by
    norm_num [flangerDemo, lfo, flatLibrary, rampUnit, blankUnit]
  have hb : flangerDemo.p.delay.currentDelayTime = (((2 : Int)) : ℚ) := by
    norm_num [flangerDemo, blankUnit]
  have hfl : (flangerDemo.p.flanger.process (((2 : Int)) : ℚ)).out = 30 := by
    rw [process_out_intDelay _ 2 (by simp [flangerDemo, rampUnit, blankUnit])
      (by simp [flangerDemo, rampUnit, blankUnit]) (by decide)
      (by simp [flangerDemo, rampUnit, blankUnit])]
    simp [flangerDemo, rampUnit, blankUnit]
  have hdl : (flangerDemo.p.delay.process (((2 : Int)) : ℚ)).out = 0 := by
    rw [process_out_intDelay _ 2 (by simp [flangerDemo, blankUnit])
      (by simp [flangerDemo, blankUnit]) (by decide) (by simp [flangerDemo, blankUnit])]
    simp [flangerDemo, blankUnit]
  have hr : ∀ cs : ChainSettings ℚ, cs.flangerOn = false →
      route flatLibrary cs 0 0 7 flangerDemo = case1 flatLibrary cs 0 0 7 flangerDemo := by
    intro cs h
    simp [route, caseOfProcessing, h]
  have hcur : flangerDemo.p.delay.delayData = 0 ∧ flangerDemo.p.delay.localWritePosition = 0 :=
    ⟨rfl, rfl⟩
  refine ⟨?_, ?_, ?_⟩
  · rw [hr _ rfl, case1_flanger, store_out, hd, hfl]
    norm_num [flangerSettings, defaultSettings]
  · rw [hr _ rfl, case1_delay, hb, hdl]
    simp [store, hcur.1, hcur.2]
  · rw [hr _ rfl, case1_delay, hb, hdl]
    simp [store, hcur.1, hcur.2]

/-- C10, amended: in the flanger path the flanger reads at the delay
`currentDelayTime + currentWidth * lfo (wide)`, its buffer receives
`delay.out + flanger.out * flangFeedback` at its cursor, and the base delay
buffer holds `in + delay.out * feedback` at its cursor: the earlier store of
`delay.out + flanger.out * flangDepth` is replaced within the same sample, so
the base delay unit is the same for every `flangDepth` and for every state of
the flanger unit. The term `flanger.out * flangDepth` enters the wet scratch
sample and, when `wetReverbOn` is true, the per-sample mix. -/
theorem C10_flanger_path (lib : Library F R) (cs : ChainSettings F) (channel sample : Nat)
    (inp : F) (s : BlockState F R) :
    (case1 lib cs channel sample inp s).p.flanger.out
        = (s.p.flanger.process
            (s.p.flanger.currentDelayTime
              + s.p.flanger.currentWidth * s.p.flanger.lfo lib.sinf lib.twoPi false)).out
      ∧ (case1 lib cs channel sample inp s).p.flanger.delayBuffer s.p.flanger.delayData
            s.p.flanger.localWritePosition
          = (s.p.delay.process s.p.delay.currentDelayTime).out
            + (case1 lib cs channel sample inp s).p.flanger.out * cs.flangFeedback
      ∧ (case1 lib cs channel sample inp s).p.delay.delayBuffer s.p.delay.delayData
            s.p.delay.localWritePosition
          = inp + (s.p.delay.process s.p.delay.currentDelayTime).out * cs.feedback
      ∧ (∀ depth : F,
          (case1 lib { cs with flangDepth := depth } channel sample inp s).p.delay
            = (case1 lib cs channel sample inp s).p.delay)
      ∧ (∀ other : DelayLineEffect F,
          (case1 lib cs channel sample inp { s with p := { s.p with flanger := other } }).p.delay
            = (case1 lib cs channel sample inp s).p.delay)
      ∧ (case1 lib cs channel sample inp s).p.wetRevBufferCopy channel sample
          = s.p.wetRevBufferCopy channel sample
            + ((s.p.delay.process s.p.delay.currentDelayTime).out
              + (case1 lib cs channel sample inp s).p.flanger.out * cs.flangDepth)
      ∧ (case1 lib cs channel sample inp s).buffer channel sample
          = (if cs.wetReverbOn then
              s.buffer channel sample * cs.dryLevel
                + ((case1 lib cs channel sample inp s).p.flanger.out * cs.flangDepth
                  + (s.p.delay.process s.p.delay.currentDelayTime).out) * cs.wetLevel
            else s.buffer channel sample) := by
  refine ⟨?_, ?_, ?_, ?_, ?_, ?_, ?_⟩
  · rw [case1_flanger, store_out]
  · rw [case1_flanger, store_out]
    simp [store]
  · rw [case1_delay]
    simp [store]
  · intro depth
    rw [case1_delay, case1_delay]
  · intro other
    rw [case1_delay, case1_delay]
  · rw [case1_flanger, store_out]
    simp [case1, addSample]
  · rw [case1_flanger, store_out]
    simp only [case1, store_out]
    split_ifs <;> simp [setSample]

end RouterClaims

/-! ## The plain delay path as a feedback comb filter -/

section CombFacts

variable {F : Type} [LinearOrderedField F] [FloorRing F] {R : Type}

open DelayLineEffect

namespace DelayLineEffect

@[simp] theorem calc_delayBuffer (e : DelayLineEffect F) (f : F) :
    (e.calculatePositionAndPhase f).delayBuffer = e.delayBuffer := by
  simp only [calculatePositionAndPhase]
  split_ifs <;> rfl

@[simp] theorem calc_bufferSize (e : DelayLineEffect F) (f : F) :
    (e.calculatePositionAndPhase f).bufferSize = e.bufferSize := by
  simp only [calculatePositionAndPhase]
  split_ifs <;> rfl

@[simp] theorem calc_delayData (e : DelayLineEffect F) (f : F) :
    (e.calculatePositionAndPhase f).delayData = e.delayData := by
  simp only [calculatePositionAndPhase]
  split_ifs <;> rfl

@[simp] theorem calc_writePosition (e : DelayLineEffect F) (f : F) :
    (e.calculatePositionAndPhase f).writePosition = e.writePosition := by
  simp only [calculatePositionAndPhase]
  split_ifs <;> rfl

@[simp] theorem calc_currentDelayTime (e : DelayLineEffect F) (f : F) :
    (e.calculatePositionAndPhase f).currentDelayTime = e.currentDelayTime := by
  simp only [calculatePositionAndPhase]
  split_ifs <;> rfl

@[simp] theorem calc_out (e : DelayLineEffect F) (f : F) :
    (e.calculatePositionAndPhase f).out = e.out := by
  simp only [calculatePositionAndPhase]
  split_ifs <;> rfl

/-- Inside `[0, bufferSize)` the cursor moves to its successor modulo the
buffer size. -/
theorem calc_localWritePosition (e : DelayLineEffect F) (f : F)
    (h0 : 0 ≤ e.localWritePosition) (h1 : e.localWritePosition < e.bufferSize) :
    (e.calculatePositionAndPhase f).localWritePosition
      = (e.localWritePosition + 1) % e.bufferSize := by
  have key : (e.localWritePosition + 1) % e.bufferSize
      = if e.localWritePosition + 1 ≥ e.bufferSize then e.localWritePosition + 1 - e.bufferSize
        else e.localWritePosition + 1 := by
    split_ifs with h
    · have : e.localWritePosition + 1 = e.bufferSize := by omega
      rw [this]; simp
    · exact Int.emod_eq_of_lt (by omega) (by omega)
  rw [key]
  simp only [calculatePositionAndPhase]
  split_ifs <;> simp

theorem store_other_row (e : DelayLineEffect F) (v : F) (ch : Nat) (i : Int)
    (h : ch ≠ e.delayData) : (e.store v).delayBuffer ch i = e.delayBuffer ch i := by
  simp [store, h]

theorem store_other_slot (e : DelayLineEffect F) (v : F) (ch : Nat) (i : Int)
    (h : i ≠ e.localWritePosition) : (e.store v).delayBuffer ch i = e.delayBuffer ch i := by
  simp [store, h]

end DelayLineEffect

/-- Two times less than a buffer length apart occupy different slots. -/
theorem slot_ne_of_lt (t T c : Int) (h0 : t < T) (h1 : T - c < t) : t % c ≠ T % c := by
  intro h
  have h3 : (T - t) % c = 0 := (Int.emod_eq_emod_iff_emod_sub_eq_zero).1 h.symm
  have h4 : c ∣ T - t := Int.dvd_of_emod_eq_zero h3
  have := Int.le_of_dvd (by omega) h4
  omega

/-- The slot read `D` samples behind the cursor of time `T` is the slot of
time `T - D`. -/
theorem slot_behind (T D c : Int) : (T % c - D) % c = (T - D) % c := by
  rw [sub_eq_add_neg, Int.emod_add_emod, ← sub_eq_add_neg]

/-- The slot after the cursor of time `T` is the slot of time `T + 1`. -/
theorem slot_next (T c : Int) : (T % c + 1) % c = (T + 1) % c :=
  Int.emod_add_emod T c 1

/-- The comb response obeys the recurrence of the feedback loop at time 0. -/
theorem impulseEcho_zero (a g : F) (D : Int) (hD : 1 ≤ D) :
    impulseEcho a g D 0 = a + impulseEcho a g D (0 - D) * g := by
  have h1 : ¬ (0 ≤ 0 - D ∧ D ∣ 0 - D) := by
    intro h; omega
  unfold impulseEcho
  rw [if_pos ⟨le_refl 0, dvd_zero D⟩, if_neg h1]
  simp

/-- The comb response obeys the recurrence of the feedback loop after time 0. -/
theorem impulseEcho_succ (a g : F) (D : Int) (hD : 1 ≤ D) (t : Int) (ht : 0 < t) :
    impulseEcho a g D t = 0 + impulseEcho a g D (t - D) * g := by
  unfold impulseEcho
  by_cases hdvd : D ∣ t
  · have hle : D ≤ t := Int.le_of_dvd ht hdvd
    have hdvd2 : D ∣ t - D := Int.dvd_sub hdvd (dvd_refl D)
    rw [if_pos ⟨by omega, hdvd⟩, if_pos ⟨by omega, hdvd2⟩]
    have hq : (t - D) / D = t / D - 1 := by
      rw [Int.sub_ediv_of_dvd t (dvd_refl D), Int.ediv_self (by omega)]
    have hpos : 1 ≤ t / D := by
      obtain ⟨k, hk⟩ := hdvd
      rw [hk, Int.mul_ediv_cancel_left k (by omega : D ≠ 0)]
      by_contra hlt
      have hk0 : k ≤ 0 := by omega
      have : D * k ≤ 0 := Int.mul_nonpos_of_nonneg_of_nonpos (by omega) hk0
      omega
    have hn : (t / D).toNat = ((t - D) / D).toNat + 1 := by
      rw [hq]; omega
    rw [hn, pow_succ]
    ring
  · have hdvd2 : ¬ D ∣ t - D := by
      intro h
      apply hdvd
      have := Int.dvd_add h (dvd_refl D)
      simpa using this
    rw [if_neg (fun h => hdvd h.2), if_neg (fun h => hdvd2 h.2)]
    ring

/-- With the three effect flags true the switch runs the plain delay path. -/
theorem route_plain (lib : Library F R) (cs : ChainSettings F) (channel sample : Nat) (inp : F)
    (s : BlockState F R) (hf : cs.flangerOn = true) (hv : cs.vibratoOn = true)
    (hc : cs.chorusOn = true) :
    route lib cs channel sample inp s = case0 cs channel sample inp s := by
  simp [route, caseOfProcessing, hf, hv, hc]

/-- One iteration of the sample loop on the plain delay path, written out. -/
theorem sampleBody_plain (lib : Library F R) (cs : ChainSettings F) (channel sample : Nat)
    (s : BlockState F R) (hf : cs.flangerOn = true) (hv : cs.vibratoOn = true)
    (hc : cs.chorusOn = true) :
    sampleBody lib cs channel sample s
      = { p := { s.p with
              delay :=
                ((s.p.delay.process s.p.delay.currentDelayTime).store
                  (s.buffer channel sample
                    + (s.p.delay.process s.p.delay.currentDelayTime).out * cs.feedback)
                  ).calculatePositionAndPhase 0
              flanger := s.p.flanger.calculatePositionAndPhase cs.flangLfoFreq
              vibrato := s.p.vibrato.calculatePositionAndPhase cs.vibLfoFreq
              chorus := s.p.chorus.calculatePositionAndPhase cs.chorLfoFreq
              dryRevBufferCopy :=
                addSample s.p.dryRevBufferCopy channel sample (s.buffer channel sample)
              wetRevBufferCopy :=
                addSample s.p.wetRevBufferCopy channel sample
                  (s.p.delay.process s.p.delay.currentDelayTime).out }
          buffer :=
            if cs.wetReverbOn then
              setSample s.buffer channel sample
                (s.buffer channel sample * cs.dryLevel
                  + (s.p.delay.process s.p.delay.currentDelayTime).out * cs.wetLevel)
            else s.buffer } := by
  simp only [sampleBody, route_plain lib cs channel sample _ _ hf hv hc, case0, advance,
    store_out]

/-- The plain delay path as one step of a comb filter: if row `channel` of the
base delay unit holds the history of `h` before time `T` and the cursor is at
`T mod bufferSize`, then with an integer delay `D` in `1 .. bufferSize - 1`
the output is `h (T - D)`, and after the iteration the row holds the history
before `T + 1` of any `h` with `h T = in + h (T - D) * feedback`. -/
theorem comb_step (lib : Library F R) (cs : ChainSettings F) (channel sample : Nat)
    (s : BlockState F R) (hf : cs.flangerOn = true) (hv : cs.vibratoOn = true)
    (hc : cs.chorusOn = true) (D : Int) (T : Int) (h : Int → F)
    (hD0 : 1 ≤ D) (hD1 : D ≤ s.p.delay.bufferSize - 1)
    (hdt : s.p.delay.currentDelayTime = ((D : Int) : F))
    (hrow : s.p.delay.delayData = channel)
    (hcur : s.p.delay.localWritePosition = T % s.p.delay.bufferSize)
    (hist : HoldsHistory s.p.delay channel T h)
    (hrec : h T = s.buffer channel sample + h (T - D) * cs.feedback) :
    (s.p.delay.process s.p.delay.currentDelayTime).out = h (T - D)
      ∧ (sampleBody lib cs channel sample s).p.delay.out = h (T - D)
      ∧ (sampleBody lib cs channel sample s).p.delay.localWritePosition
          = (T + 1) % s.p.delay.bufferSize
      ∧ HoldsHistory (sampleBody lib cs channel sample s).p.delay channel (T + 1) h := by
  have hc0 : 0 < s.p.delay.bufferSize := by omega
  have hw0 : 0 ≤ s.p.delay.localWritePosition := by
    rw [hcur]; exact Int.emod_nonneg _ (by omega)
  have hw1 : s.p.delay.localWritePosition < s.p.delay.bufferSize := by
    rw [hcur]; exact Int.emod_lt_of_pos _ hc0
  have hout : (s.p.delay.process s.p.delay.currentDelayTime).out = h (T - D) := by
    rw [hdt, process_out_intDelay _ D hw0 hw1 hD0 hD1, hcur, slot_behind, hrow]
    exact hist (T - D) (by omega) (by omega)
  rw [sampleBody_plain lib cs channel sample s hf hv hc]
  refine ⟨hout, ?_, ?_, ?_⟩
  · simp only [calc_out, store_out]
    exact hout
  · simp only
    rw [calc_localWritePosition _ _ (by simpa using hw0) (by simpa using hw1)]
    simp only [store_localWritePosition, process_localWritePosition, store_bufferSize,
      process_bufferSize]
    rw [hcur, slot_next]
  · intro t ht0 ht1
    simp only [calc_delayBuffer, calc_bufferSize, store_bufferSize, process_bufferSize] at ht0 ⊢
    by_cases htT : t = T
    · subst htT
      have e1 : (s.p.delay.process s.p.delay.currentDelayTime).store
            (s.buffer channel sample
              + (s.p.delay.process s.p.delay.currentDelayTime).out * cs.feedback)
          = (s.p.delay.process s.p.delay.currentDelayTime).store (h t) := by
        rw [hrec, hout]
      rw [e1]
      have := store_at_cursor (s.p.delay.process s.p.delay.currentDelayTime) (h t)
      simp only [process_delayData, process_localWritePosition] at this
      rw [hrow, hcur] at this
      exact this
    · have hlt : t < T := by omega
      rw [store_other_slot _ _ _ _ (by
        simp only [process_localWritePosition]
        rw [hcur]
        exact slot_ne_of_lt t T _ hlt (by omega))]
      simp only [process_delayBuffer]
      exact hist t (by omega) hlt

/-- What the sample loop on the plain delay path leaves unchanged, for any
channel and any input: the geometry of the base delay unit, the other rows of
its buffer, the other channels of the audio buffer and the samples not yet
reached; and the cursor advances by the number of iterations. -/
theorem sampleLoop_plain_frame (lib : Library F R) (cs : ChainSettings F) (channel : Nat)
    (s0 : BlockState F R) (hf : cs.flangerOn = true) (hv : cs.vibratoOn = true)
    (hc : cs.chorusOn = true)
    (hw0 : 0 ≤ s0.p.delay.localWritePosition)
    (hw1 : s0.p.delay.localWritePosition < s0.p.delay.bufferSize) (k : Nat) :
    (sampleLoop lib cs channel k s0).p.delay.bufferSize = s0.p.delay.bufferSize
      ∧ (sampleLoop lib cs channel k s0).p.delay.currentDelayTime = s0.p.delay.currentDelayTime
      ∧ (sampleLoop lib cs channel k s0).p.delay.writePosition = s0.p.delay.writePosition
      ∧ (sampleLoop lib cs channel k s0).p.delay.delayData = s0.p.delay.delayData
      ∧ (sampleLoop lib cs channel k s0).p.delay.localWritePosition
          = (s0.p.delay.localWritePosition + (k : Int)) % s0.p.delay.bufferSize
      ∧ (∀ (ch : Nat) (i : Int), ch ≠ s0.p.delay.delayData →
          (sampleLoop lib cs channel k s0).p.delay.delayBuffer ch i = s0.p.delay.delayBuffer ch i)
      ∧ (∀ (ch j : Nat), ch ≠ channel →
          (sampleLoop lib cs channel k s0).buffer ch j = s0.buffer ch j)
      ∧ (∀ j : Nat, k ≤ j → (sampleLoop lib cs channel k s0).buffer channel j = s0.buffer channel j)
      ∧ (sampleLoop lib cs channel k s0).p.totalNumInputChannels = s0.p.totalNumInputChannels
      ∧ (sampleLoop lib cs channel k s0).p.totalNumOutputChannels = s0.p.totalNumOutputChannels
      ∧ (sampleLoop lib cs channel k s0).p.sampleRate = s0.p.sampleRate := by
  have hc0 : 0 < s0.p.delay.bufferSize := by omega
  induction k with
  | zero =>
    refine ⟨rfl, rfl, rfl, rfl, ?_, fun _ _ _ => rfl, fun _ _ _ => rfl, fun _ _ => rfl,
      rfl, rfl, rfl⟩
    simp only [sampleLoop, Nat.cast_zero, add_zero]
    exact (Int.emod_eq_of_lt hw0 hw1).symm
  | succ n ih =>
    obtain ⟨i1, i2, i3, i4, i5, i6, i7, i8, i9, i10, i11⟩ := ih
    have hl0 : 0 ≤ (sampleLoop lib cs channel n s0).p.delay.localWritePosition := by
      rw [i5]; exact Int.emod_nonneg _ (by omega)
    have hl1 : (sampleLoop lib cs channel n s0).p.delay.localWritePosition
        < (sampleLoop lib cs channel n s0).p.delay.bufferSize := by
      rw [i5, i1]; exact Int.emod_lt_of_pos _ hc0
    simp only [sampleLoop]
    rw [sampleBody_plain lib cs channel n _ hf hv hc]
    refine ⟨?_, ?_, ?_, ?_, ?_, ?_, ?_, ?_, i9, i10, i11⟩
    · simpa using i1
    · simpa using i2
    · simpa using i3
    · simpa using i4
    · simp only
      rw [calc_localWritePosition _ _ (by simpa using hl0) (by simpa using hl1)]
      simp only [store_localWritePosition, process_localWritePosition, store_bufferSize,
        process_bufferSize]
      rw [i5, i1, slot_next]
      congr 1
      push_cast
      ring
    · intro ch i hne
      simp only [calc_delayBuffer]
      rw [store_other_row _ _ _ _ (by simpa [i4] using hne)]
      simpa using i6 ch i hne
    · intro ch j hne
      simp only
      split_ifs
      · simp only [setSample, hne, false_and, if_false]
        exact i7 ch j hne
      · exact i7 ch j hne
    · intro j hj
      simp only
      have hjn : j ≠ n := by omega
      split_ifs
      · simp only [setSample, hjn, and_false, if_false]
        exact i8 j (by omega)
      · exact i8 j (by omega)

/-- The sample loop on the plain delay path is a comb filter: if the row of
the channel holds the history of `h` before time `T`, and `h` obeys
`h (T + j) = in j + h (T + j - D) * feedback` on the `k` samples processed,
then afterwards the row holds the history before `T + k`, `delay.out` of
sample `j` was `h (T + j - D)`, and sample `j` of the audio buffer is the
per-sample mix (or the input, when `wetReverbOn` is false). -/
theorem sampleLoop_plain_comb (lib : Library F R) (cs : ChainSettings F) (channel : Nat)
    (s0 : BlockState F R) (hf : cs.flangerOn = true) (hv : cs.vibratoOn = true)
    (hc : cs.chorusOn = true) (D : Int) (T : Int) (h : Int → F)
    (hD0 : 1 ≤ D) (hD1 : D ≤ s0.p.delay.bufferSize - 1)
    (hdt : s0.p.delay.currentDelayTime = ((D : Int) : F))
    (hrow : s0.p.delay.delayData = channel)
    (hcur : s0.p.delay.localWritePosition = T % s0.p.delay.bufferSize)
    (hist : HoldsHistory s0.p.delay channel T h) (k : Nat)
    (hrec : ∀ j : Nat, j < k →
      h (T + (j : Int)) = s0.buffer channel j + h (T + (j : Int) - D) * cs.feedback) :
    HoldsHistory (sampleLoop lib cs channel k s0).p.delay channel (T + (k : Int)) h
      ∧ (∀ j : Nat, j < k →
          (sampleLoop lib cs channel k s0).buffer channel j
            = if cs.wetReverbOn then
                s0.buffer channel j * cs.dryLevel + h (T + (j : Int) - D) * cs.wetLevel
              else s0.buffer channel j)
      ∧ (∀ j : Nat, j < k →
          (sampleLoop lib cs channel (j + 1) s0).p.delay.out = h (T + (j : Int) - D)) := by
  have hc0 : 0 < s0.p.delay.bufferSize := by omega
  have hw0 : 0 ≤ s0.p.delay.localWritePosition := by
    rw [hcur]; exact Int.emod_nonneg _ (by omega)
  have hw1 : s0.p.delay.localWritePosition < s0.p.delay.bufferSize := by
    rw [hcur]; exact Int.emod_lt_of_pos _ hc0
  induction k with
  | zero =>
    refine ⟨?_, fun j hj => absurd hj (Nat.not_lt_zero j), fun j hj => absurd hj (Nat.not_lt_zero j)⟩
    simpa [sampleLoop] using hist
  | succ n ih =>
    obtain ⟨ih1, ih2, ih3⟩ := ih (fun j hj => hrec j (by omega))
    obtain ⟨i1, i2, _, i4, i5, _, _, i8, _, _, _⟩ :=
      sampleLoop_plain_frame lib cs channel s0 hf hv hc hw0 hw1 n
    have hcur' : (sampleLoop lib cs channel n s0).p.delay.localWritePosition
        = (T + (n : Int)) % (sampleLoop lib cs channel n s0).p.delay.bufferSize := by
      rw [i5, i1, hcur, Int.emod_add_emod]
    have hin : (sampleLoop lib cs channel n s0).buffer channel n = s0.buffer channel n :=
      i8 n (le_refl n)
    obtain ⟨c1, c2, _, c4⟩ := comb_step lib cs channel n (sampleLoop lib cs channel n s0)
      hf hv hc D (T + (n : Int)) h hD0 (by rw [i1]; exact hD1) (by rw [i2]; exact hdt)
      (by rw [i4]; exact hrow) hcur' ih1 (by rw [hin]; exact hrec n (by omega))
    refine ⟨?_, ?_, ?_⟩
    · have e : T + ((n + 1 : Nat) : Int) = T + (n : Int) + 1 := by push_cast; ring
      rw [e]
      exact c4
    · intro j hj
      simp only [sampleLoop]
      rw [sampleBody_plain lib cs channel n _ hf hv hc]
      simp only
      by_cases hjn : j = n
      · subst hjn
        split_ifs
        · simp only [setSample, and_self, if_true]
          rw [hin, c1]
        · exact hin
      · have hlt : j < n := by omega
        have := ih2 j hlt
        split_ifs at this ⊢
        · simp only [setSample, hjn, and_false, if_false]
          exact this
        · exact this
    · intro j hj
      by_cases hjn : j = n
      · subst hjn
        exact c2
      · exact ih3 j (by omega)

/-- The comb response obeys the feedback recurrence for the impulse input. -/
theorem impulseEcho_rec (a g : F) (D : Int) (hD : 1 ≤ D) (j : Nat) :
    impulseEcho a g D (0 + (j : Int)) = impulse a j + impulseEcho a g D (0 + (j : Int) - D) * g := by
  rw [zero_add]
  by_cases hj : j = 0
  · subst hj
    simpa [impulse] using impulseEcho_zero a g D hD
  · have hpos : (0 : Int) < (j : Int) := by omega
    simpa [impulse, hj] using impulseEcho_succ a g D hD (j : Int) hpos

/-- The comb response one delay after the `k`-th echo. -/
theorem impulseEcho_tap (a g : F) (D : Int) (hD : 1 ≤ D) (k : Nat) (hk : 1 ≤ k) :
    impulseEcho a g D (((k * D.toNat : Nat) : Int) - D) = a * g ^ (k - 1) := by
  have hDn : ((D.toNat : Nat) : Int) = D := Int.toNat_of_nonneg (by omega)
  have e : ((k * D.toNat : Nat) : Int) - D = (((k - 1 : Nat)) : Int) * D := by
    push_cast
    rw [hDn, Nat.cast_sub hk]
    push_cast
    ring
  rw [e]
  unfold impulseEcho
  rw [if_pos ⟨by positivity, Dvd.intro_left _ rfl⟩, Int.mul_ediv_cancel _ (by omega : D ≠ 0)]
  simp

/-- The comb response is zero away from the echoes. -/
theorem impulseEcho_off_tap (a g : F) (D : Int) (hD : 1 ≤ D) (n : Nat)
    (hn : ¬ ∃ k : Nat, 1 ≤ k ∧ (n : Int) = (k : Int) * D) :
    impulseEcho a g D ((n : Int) - D) = 0 := by
  unfold impulseEcho
  rw [if_neg]
  rintro ⟨h0, q, hq⟩
  apply hn
  have hq0 : 0 ≤ q := by
    by_contra hneg
    have : D * q < 0 := Int.mul_neg_of_pos_of_neg (by omega) (by omega)
    omega
  refine ⟨q.toNat + 1, by omega, ?_⟩
  push_cast
  rw [Int.toNat_of_nonneg hq0]
  have : (n : Int) = D * q + D := by omega
  rw [this]
  ring

end CombFacts

/-! ## The plain delay path across channels and blocks -/

section BlockFacts

variable {F : Type} [LinearOrderedField F] [FloorRing F] {R : Type}

open DelayLineEffect

theorem truncToInt_natCast (n : Nat) : truncToInt ((n : Nat) : F) = (n : Int) := by
  have h : ((n : Nat) : F) = (((n : Int)) : F) := by push_cast; rfl
  rw [h, truncToInt_intCast]

/-- The history property only looks at one row and at the buffer size. -/
theorem holdsHistory_congr (e e2 : DelayLineEffect F) (channel : Nat) (T : Int) (h : Int → F)
    (hs : e2.bufferSize = e.bufferSize)
    (hb : ∀ i : Int, e2.delayBuffer channel i = e.delayBuffer channel i)
    (hist : HoldsHistory e channel T h) : HoldsHistory e2 channel T h := by
  intro t h0 h1
  rw [hs] at h0 ⊢
  rw [hb]
  exact hist t h0 h1

/-- `prepareSmoothing` with the default width 0. -/
theorem prepareSmoothing_zero (e : DelayLineEffect F) (delayTime : F) (sampleRate : Int) :
    e.prepareSmoothing delayTime sampleRate 0
      = { e with
          smoothedDelay := e.smoothedDelay.setTargetValue delayTime
          currentDelayTime := delayTime * (sampleRate : F) } := by
  simp [prepareSmoothing, SmoothedValue.getTargetValue, SmoothedValue.setTargetValue]

/-- `prepareDelayBuffer` without the LFO. -/
theorem prepareDelayBuffer_false (e : DelayLineEffect F) (channel : Nat) :
    e.prepareDelayBuffer channel false
      = { e with delayData := channel, localWritePosition := e.writePosition } := by
  simp [prepareDelayBuffer]

/-- The channel loop on the plain delay path, seen from one channel
`channel`: each channel advances the cursor from `writePosition` by
`numSamples`; the channels before and after `channel` leave its row and its
audio samples alone, and its own pass is the comb filter of
`sampleLoop_plain_comb`. -/
theorem channelLoop_plain (lib : Library F R) (cs : ChainSettings F) (numSamples channel : Nat)
    (s0 : BlockState F R) (hf : cs.flangerOn = true) (hv : cs.vibratoOn = true)
    (hc : cs.chorusOn = true) (D : Int) (T : Int) (h : Int → F)
    (hD0 : 1 ≤ D) (hD1 : D ≤ s0.p.delay.bufferSize - 1)
    (hdt : s0.p.delay.currentDelayTime = ((D : Int) : F))
    (hwp : s0.p.delay.writePosition = T % s0.p.delay.bufferSize)
    (hist : HoldsHistory s0.p.delay channel T h)
    (hrec : ∀ j : Nat, j < numSamples →
      h (T + (j : Int)) = s0.buffer channel j + h (T + (j : Int) - D) * cs.feedback)
    (k : Nat) :
    (channelLoop lib cs numSamples k s0).p.delay.bufferSize = s0.p.delay.bufferSize
      ∧ (channelLoop lib cs numSamples k s0).p.delay.currentDelayTime = s0.p.delay.currentDelayTime
      ∧ (channelLoop lib cs numSamples k s0).p.delay.writePosition = s0.p.delay.writePosition
      ∧ (channelLoop lib cs numSamples k s0).p.totalNumInputChannels = s0.p.totalNumInputChannels
      ∧ (channelLoop lib cs numSamples k s0).p.totalNumOutputChannels
          = s0.p.totalNumOutputChannels
      ∧ (channelLoop lib cs numSamples k s0).p.sampleRate = s0.p.sampleRate
      ∧ (1 ≤ k → (channelLoop lib cs numSamples k s0).p.delay.localWritePosition
          = (T + (numSamples : Int)) % s0.p.delay.bufferSize)
      ∧ (channel < k →
          HoldsHistory (channelLoop lib cs numSamples k s0).p.delay channel
              (T + (numSamples : Int)) h
            ∧ ∀ j : Nat, j < numSamples →
              (channelLoop lib cs numSamples k s0).buffer channel j
                = if cs.wetReverbOn then
                    s0.buffer channel j * cs.dryLevel + h (T + (j : Int) - D) * cs.wetLevel
                  else s0.buffer channel j)
      ∧ (k ≤ channel →
          HoldsHistory (channelLoop lib cs numSamples k s0).p.delay channel T h
            ∧ ∀ j : Nat, (channelLoop lib cs numSamples k s0).buffer channel j
                = s0.buffer channel j) := by
  have hc0 : 0 < s0.p.delay.bufferSize := by omega
  induction k with
  | zero =>
    exact ⟨rfl, rfl, rfl, rfl, rfl, rfl, fun h1 => absurd h1 (by decide),
      fun h1 => absurd h1 (Nat.not_lt_zero _), fun _ => ⟨hist, fun _ => rfl⟩⟩
  | succ n ih =>
    obtain ⟨a1, a2, a3, a4, a5, a6, _, a8, a9⟩ := ih
    -- the state at the start of the sample loop of channel `n`
    have hw0 : 0 ≤ (channelLoop lib cs numSamples n s0).p.delay.writePosition := by
      rw [a3, hwp]; exact Int.emod_nonneg _ (by omega)
    have hw1 : (channelLoop lib cs numSamples n s0).p.delay.writePosition
        < (channelLoop lib cs numSamples n s0).p.delay.bufferSize := by
      rw [a3, a1, hwp]; exact Int.emod_lt_of_pos _ hc0
    simp only [channelLoop, channelBody, channelStart, prepareDelayBuffer_false]
    obtain ⟨i1, i2, i3, _, i5, i6, i7, _, i9, i10, i11⟩ :=
      sampleLoop_plain_frame lib cs n
        ({ (channelLoop lib cs numSamples n s0) with
            p := { (channelLoop lib cs numSamples n s0).p with
              delay :=
                { (channelLoop lib cs numSamples n s0).p.delay with
                  delayData := n
                  localWritePosition := (channelLoop lib cs numSamples n s0).p.delay.writePosition }
              flanger := (channelLoop lib cs numSamples n s0).p.flanger.prepareDelayBuffer n true
              vibrato := (channelLoop lib cs numSamples n s0).p.vibrato.prepareDelayBuffer n true
              chorus := (channelLoop lib cs numSamples n s0).p.chorus.prepareDelayBuffer n true } } :
          BlockState F R)
        hf hv hc hw0 hw1 numSamples
    simp only at i1 i2 i3 i5 i6 i7 i9 i10 i11
    refine ⟨i1.trans a1, i2.trans a2, i3.trans a3, i9.trans a4, i10.trans a5, i11.trans a6,
      fun _ => ?_, fun hlt => ?_, fun hle => ?_⟩
    · rw [i5, a3, a1, hwp, Int.emod_add_emod]
    · by_cases hn : n = channel
      · subst hn
        obtain ⟨b1, b2⟩ := a9 (le_refl n)
        obtain ⟨c1, c2, _⟩ := sampleLoop_plain_comb lib cs n
          ({ (channelLoop lib cs numSamples n s0) with
              p := { (channelLoop lib cs numSamples n s0).p with
                delay :=
                  { (channelLoop lib cs numSamples n s0).p.delay with
                    delayData := n
                    localWritePosition :=
                      (channelLoop lib cs numSamples n s0).p.delay.writePosition }
                flanger := (channelLoop lib cs numSamples n s0).p.flanger.prepareDelayBuffer n true
                vibrato := (channelLoop lib cs numSamples n s0).p.vibrato.prepareDelayBuffer n true
                chorus := (channelLoop lib cs numSamples n s0).p.chorus.prepareDelayBuffer n true } } :
            BlockState F R)
          hf hv hc D T h hD0 (by simpa [a1] using hD1) (by simpa [a2] using hdt) rfl
          (by simp only; rw [a3, a1, hwp]) (fun t h0 h1 => b1 t h0 h1) numSamples
          (fun j hj => by simp only; rw [b2 j]; exact hrec j hj)
        refine ⟨c1, fun j hj => ?_⟩
        have := c2 j hj
        simp only [b2 j] at this
        exact this
      · have hlt2 : channel < n := by omega
        obtain ⟨b1, b2⟩ := a8 hlt2
        refine ⟨?_, fun j hj => ?_⟩
        · exact holdsHistory_congr _ _ channel _ h i1
            (fun i => i6 channel i (fun hch => hn hch.symm)) (fun t h0 h1 => b1 t h0 h1)
        · rw [i7 channel j (fun hch => hn hch.symm)]
          exact b2 j hj
    · have hle2 : n ≤ channel := by omega
      have hn : n ≠ channel := by omega
      obtain ⟨b1, b2⟩ := a9 hle2
      refine ⟨?_, fun j => ?_⟩
      · exact holdsHistory_congr _ _ channel _ h i1
          (fun i => i6 channel i (fun hch => hn hch.symm)) (fun t h0 h1 => b1 t h0 h1)
      · rw [i7 channel j (fun hch => hn hch.symm)]
        exact b2 j

/-- `updatePositionAndPhase` without the LFO. -/
theorem updatePositionAndPhase_false (e : DelayLineEffect F) :
    e.updatePositionAndPhase false = { e with writePosition := e.localWritePosition } := by
  simp [updatePositionAndPhase]

/-- One call of `processBlock` on the plain delay path with neither
reverberator running, seen from one input channel: the row of the channel
moves from the history before `T` to the history before `T + numSamples`, the
stored cursor follows, and the channel's output is the per-sample mix
`in * dryLevel + h (t - D) * wetLevel`. -/
theorem processBlock_plain (lib : Library F R) (cs : ChainSettings F) (numSamples channel : Nat)
    (s : BlockState F R) (hf : cs.flangerOn = true) (hv : cs.vibratoOn = true)
    (hc : cs.chorusOn = true) (hdry : cs.dryReverbOn = true) (hwet : cs.wetReverbOn = true)
    (hch : channel < s.p.totalNumInputChannels) (D : Int) (T : Int) (h : Int → F)
    (hD : cs.delayTime * (((truncToInt s.p.sampleRate : Int)) : F) = ((D : Int) : F))
    (hD0 : 1 ≤ D) (hD1 : D ≤ s.p.delay.bufferSize - 1)
    (hwp : s.p.delay.writePosition = T % s.p.delay.bufferSize)
    (hist : HoldsHistory s.p.delay channel T h)
    (hrec : ∀ j : Nat, j < numSamples →
      h (T + (j : Int)) = s.buffer channel j + h (T + (j : Int) - D) * cs.feedback) :
    (processBlock lib cs numSamples s).p.delay.bufferSize = s.p.delay.bufferSize
      ∧ (processBlock lib cs numSamples s).p.delay.writePosition
          = (T + (numSamples : Int)) % s.p.delay.bufferSize
      ∧ HoldsHistory (processBlock lib cs numSamples s).p.delay channel
          (T + (numSamples : Int)) h
      ∧ (processBlock lib cs numSamples s).p.totalNumInputChannels = s.p.totalNumInputChannels
      ∧ (processBlock lib cs numSamples s).p.sampleRate = s.p.sampleRate
      ∧ ∀ j : Nat, j < numSamples →
          (processBlock lib cs numSamples s).buffer channel j
            = s.buffer channel j * cs.dryLevel + h (T + (j : Int) - D) * cs.wetLevel := by
  have hsetup : (blockSetup lib cs s.p).delay
      = { s.p.delay with
          smoothedDelay := s.p.delay.smoothedDelay.setTargetValue cs.delayTime
          currentDelayTime := cs.delayTime * (((truncToInt s.p.sampleRate : Int)) : F) } :=
    prepareSmoothing_zero _ _ _
  obtain ⟨a1, _, _, a4, _, a6, a7, a8, _⟩ := channelLoop_plain lib cs numSamples channel
    ({ p := blockSetup lib cs s.p, buffer := s.buffer } : BlockState F R) hf hv hc D T h hD0
    (by simp only [hsetup]; exact hD1) (by simp only [hsetup]; exact hD)
    (by simp only [hsetup]; exact hwp)
    (holdsHistory_congr _ _ channel T h (by rw [hsetup]) (fun i => by rw [hsetup]) hist)
    (fun j hj => hrec j hj) s.p.totalNumInputChannels
  simp only [hsetup] at a1 a7
  obtain ⟨b1, b2⟩ := a8 hch
  have hdelay : (processBlock lib cs numSamples s).p.delay
      = ((channelLoop lib cs numSamples s.p.totalNumInputChannels
          ({ p := blockSetup lib cs s.p, buffer := s.buffer } : BlockState F R)).p.delay
        ).updatePositionAndPhase false := rfl
  have hbuf : (processBlock lib cs numSamples s).buffer channel
      = (channelLoop lib cs numSamples s.p.totalNumInputChannels
          ({ p := blockSetup lib cs s.p, buffer := s.buffer } : BlockState F R)).buffer channel := by
    funext j
    simp only [processBlock, clearExtraChannels, finalMix, hdry, hwet]
    simp [Nat.not_le.2 hch]
  refine ⟨?_, ?_, ?_, a4, a6, fun j hj => ?_⟩
  · rw [hdelay, updatePositionAndPhase_false]
    exact a1
  · rw [hdelay, updatePositionAndPhase_false]
    exact a7 (by omega)
  · rw [hdelay, updatePositionAndPhase_false]
    exact holdsHistory_congr _ _ channel _ h rfl (fun _ => rfl) b1
  · rw [hbuf, b2 j hj, if_pos hwet]

/-- Consecutive blocks on the plain delay path with neither reverberator
running, seen from one input channel: the played signal at time `t` is
`input t * dryLevel + h (t - D) * wetLevel` for every `t` covered by the
blocks, where `h` is a solution of the feedback recurrence. -/
theorem playBlocks_plain (lib : Library F R) (cs : ChainSettings F) (input : Nat → Nat → F)
    (channel : Nat) (hf : cs.flangerOn = true) (hv : cs.vibratoOn = true)
    (hc : cs.chorusOn = true) (hdry : cs.dryReverbOn = true) (hwet : cs.wetReverbOn = true)
    (D : Int) (h : Int → F) (hD0 : 1 ≤ D)
    (hrec : ∀ t : Nat, h (t : Int) = input channel t + h ((t : Int) - D) * cs.feedback)
    (blocks : List Nat) :
    ∀ (T : Nat) (p : MastersDelayAudioProcessor F R) (acc : Nat → Nat → F),
      channel < p.totalNumInputChannels →
      cs.delayTime * (((truncToInt p.sampleRate : Int)) : F) = ((D : Int) : F) →
      D ≤ p.delay.bufferSize - 1 →
      p.delay.writePosition = (T : Int) % p.delay.bufferSize →
      HoldsHistory p.delay channel (T : Int) h →
        (∀ t : Nat, T ≤ t → t < T + blocks.sum →
          (playBlocks lib cs input blocks T p acc).2 channel t
            = input channel t * cs.dryLevel + h ((t : Int) - D) * cs.wetLevel)
          ∧ ∀ t : Nat, t < T → (playBlocks lib cs input blocks T p acc).2 channel t = acc channel t := by
  induction blocks with
  | nil =>
    intro T p acc _ _ _ _ _
    exact ⟨fun t h0 h1 => by simp at h1; omega, fun t _ => rfl⟩
  | cons N rest ih =>
    intro T p acc hch hD hD1 hwp hist
    obtain ⟨b1, b2, b3, b4, b5, b6⟩ := processBlock_plain lib cs N channel
      ({ p := p, buffer := fun ch i => input ch (T + i) } : BlockState F R) hf hv hc hdry hwet hch
      D (T : Int) h hD hD0 hD1 hwp hist
      (fun j _ => by
        have := hrec (T + j)
        simpa using this)
    simp only at b1 b2 b3 b4 b5 b6
    have e : ((T : Int) + (N : Int)) = (((T + N : Nat)) : Int) := by push_cast; rfl
    rw [e] at b2 b3
    obtain ⟨r1, r2⟩ := ih (T + N)
      (processBlock lib cs N ({ p := p, buffer := fun ch i => input ch (T + i) } : BlockState F R)).p
      (fun ch t =>
        if T ≤ t ∧ t < T + N then
          (processBlock lib cs N
            ({ p := p, buffer := fun ch i => input ch (T + i) } : BlockState F R)).buffer ch (t - T)
        else acc ch t)
      (by rw [b4]; exact hch) (by rw [b5]; exact hD) (by rw [b1]; exact hD1)
      (by rw [b1]; exact b2) b3
    simp only [playBlocks]
    refine ⟨fun t h0 h1 => ?_, fun t ht => ?_⟩
    · by_cases hlt : t < T + N
      · rw [r2 t hlt, if_pos ⟨h0, hlt⟩, b6 (t - T) (by omega)]
        have e1 : T + (t - T) = t := by omega
        have e2 : (T : Int) + (((t - T : Nat)) : Int) = (t : Int) := by omega
        rw [e1, e2]
      · exact r1 t (by omega) (by simp only [List.sum_cons] at h1; omega)
    · rw [r2 t (by omega), if_neg (by omega)]

end BlockFacts

/-! ## Claims about the plain delay path -/

section CombClaims

variable {F : Type} [LinearOrderedField F] [FloorRing F] {R : Type}

open DelayLineEffect

/-- C2: comb-filter impulse response of the plain delay path. Starting the
sample loop with a cleared row, the cursor on slot 0, an integer delay `D`
with `1 ≤ D ≤ capacity - 1`, any feedback gain and the impulse input
(`a` at sample 0, 0 afterwards), `delay.out` at sample `k * D` is
`a * feedback ^ (k - 1)` for every `k ≥ 1`, and `delay.out` is 0 at every
other sample; in particular for `D = 44100` and feedback 1/2 the first four
taps are `a`, `a/2`, `a/4`, `a/8`. -/
theorem C2_comb_impulse_response (lib : Library F R) (cs : ChainSettings F) (channel : Nat)
    (s0 : BlockState F R) (a : F) (D : Int)
    (hf : cs.flangerOn = true) (hv : cs.vibratoOn = true) (hc : cs.chorusOn = true)
    (hD0 : 1 ≤ D) (hD1 : D ≤ s0.p.delay.bufferSize - 1)
    (hdt : s0.p.delay.currentDelayTime = ((D : Int) : F))
    (hrow : s0.p.delay.delayData = channel)
    (hcur : s0.p.delay.localWritePosition = 0)
    (hclear : ∀ i : Int, s0.p.delay.delayBuffer channel i = 0)
    (himp : ∀ j : Nat, s0.buffer channel j = impulse a j) :
    (∀ k : Nat, 1 ≤ k →
        (sampleLoop lib cs channel (k * D.toNat + 1) s0).p.delay.out = a * cs.feedback ^ (k - 1))
      ∧ (∀ n : Nat, (¬ ∃ k : Nat, 1 ≤ k ∧ (n : Int) = (k : Int) * D) →
          (sampleLoop lib cs channel (n + 1) s0).p.delay.out = 0)
      ∧ (D = 44100 → cs.feedback = 1 / 2 →
          (sampleLoop lib cs channel (44100 + 1) s0).p.delay.out = a
            ∧ (sampleLoop lib cs channel (88200 + 1) s0).p.delay.out = a / 2
            ∧ (sampleLoop lib cs channel (132300 + 1) s0).p.delay.out = a / 4
            ∧ (sampleLoop lib cs channel (176400 + 1) s0).p.delay.out = a / 8) := by
  have hist : HoldsHistory s0.p.delay channel 0 (impulseEcho a cs.feedback D) := by
    intro t _ ht
    rw [hclear]
    unfold impulseEcho
    rw [if_neg (by omega)]
  have hcur' : s0.p.delay.localWritePosition = 0 % s0.p.delay.bufferSize := by
    rw [hcur]; simp
  have out_at : ∀ n : Nat, (sampleLoop lib cs channel (n + 1) s0).p.delay.out
      = impulseEcho a cs.feedback D ((n : Int) - D) := by
    intro n
    have h3 := (sampleLoop_plain_comb lib cs channel s0 hf hv hc D 0
      (impulseEcho a cs.feedback D) hD0 hD1 hdt hrow hcur' hist (n + 1)
      (fun j _ => by rw [himp j]; exact impulseEcho_rec a cs.feedback D hD0 j)).2.2 n
      (Nat.lt_succ_self n)
    rw [h3, zero_add]
  have taps : ∀ k : Nat, 1 ≤ k →
      (sampleLoop lib cs channel (k * D.toNat + 1) s0).p.delay.out = a * cs.feedback ^ (k - 1) := by
    intro k hk
    rw [out_at, impulseEcho_tap a cs.feedback D hD0 k hk]
  refine ⟨taps, ?_, ?_⟩
  · intro n hn
    rw [out_at, impulseEcho_off_tap a cs.feedback D hD0 n hn]
  · intro hD hg
    have hn : D.toNat = 44100 := by rw [hD]; rfl
    have t1 := taps 1 (by decide)
    have t2 := taps 2 (by decide)
    have t3 := taps 3 (by decide)
    have t4 := taps 4 (by decide)
    rw [hn, hg] at t1 t2 t3 t4
    refine ⟨?_, ?_, ?_, ?_⟩
    · rw [show (44100 : Nat) = 1 * 44100 from rfl, t1]; norm_num
    · rw [show (88200 : Nat) = 2 * 44100 from rfl, t2]; norm_num; ring
    · rw [show (132300 : Nat) = 3 * 44100 from rfl, t3]; norm_num; ring
    · rw [show (176400 : Nat) = 4 * 44100 from rfl, t4]; norm_num; ring

/-- C2 at a concrete state: four slots, delay 2, feedback 1/2 and the impulse
of height 3; the second echo, at sample 4, is 3/2. -/
theorem C2_comb_impulse_response_witness :
    (sampleLoop flatLibrary defaultSettings 0 (2 * (2 : Int).toNat + 1) impulseDemo).p.delay.out
      = 3 * defaultSettings.feedback ^ (2 - 1) :=
  (C2_comb_impulse_response flatLibrary defaultSettings 0 impulseDemo 3 2 rfl rfl rfl
    (by decide) (by simp [impulseDemo, flangerDemo]) (by simp [impulseDemo, flangerDemo])
    rfl rfl (fun _ => rfl) (fun _ => rfl)).1 2 (by decide)

/-- C1: single-echo scenario. The engine is prepared at its sample rate of
44100 Hz (base delay buffer cleared, write cursor 0) and then plays, in consecutive blocks of any
lengths that cover sample 22050, an input that on one input channel is `a` at
sample 0 and 0 afterwards, with delay time 0.5 s, feedback 0, dry and wet
level 1, the three effect flags true (plain delay path) and both reverb flags
true (no reverberator runs). The output on that channel is `a` at sample 0,
0 at every sample in `[1, 22049]` and `a` at sample 22050. -/
theorem C1_single_echo (lib : Library F R) (p0 : MastersDelayAudioProcessor F R)
    (cs : ChainSettings F) (a : F) (input : Nat → Nat → F) (channel : Nat) (blocks : List Nat)
    (acc : Nat → Nat → F)
    (hrate : p0.sampleRate = 44100) (hch : channel < p0.totalNumInputChannels)
    (hdelay : cs.delayTime = 1 / 2) (_hfb : cs.feedback = 0)
    (hdl : cs.dryLevel = 1) (hwl : cs.wetLevel = 1)
    (hf : cs.flangerOn = true) (hv : cs.vibratoOn = true) (hc : cs.chorusOn = true)
    (hdry : cs.dryReverbOn = true) (hwet : cs.wetReverbOn = true)
    (himp : ∀ t : Nat, input channel t = impulse a t)
    (hlen : 22050 < blocks.sum) :
    (playBlocks lib cs input blocks 0 (prepareToPlay lib p0 p0.sampleRate) acc).2 channel 0 = a
      ∧ (∀ t : Nat, 1 ≤ t → t ≤ 22049 →
          (playBlocks lib cs input blocks 0 (prepareToPlay lib p0 p0.sampleRate) acc).2 channel t = 0)
      ∧ (playBlocks lib cs input blocks 0 (prepareToPlay lib p0 p0.sampleRate) acc).2 channel 22050
          = a := by
  have hsr : truncToInt (44100 : F) = 44100 := by
    have e : (44100 : F) = (((44100 : Nat)) : F) := by norm_num
    rw [e, truncToInt_natCast]
    rfl
  have hsize : (prepareToPlay lib p0 p0.sampleRate).delay.bufferSize = 132301 := by
    have e : (3 : F) * (((44100 : Int)) : F) = (((132300 : Int)) : F) := by norm_num
    have hconv : floatToInt32 ((((132300 : Int)) : F)) = 132300 :=
      floatToInt32_intCast 132300 (by decide) (by decide)
    simp only [prepareToPlay, prepare, hrate, hsr, e, hconv]
    decide
  have hrec : ∀ t : Nat, impulseEcho a cs.feedback 22050 (t : Int)
      = input channel t + impulseEcho a cs.feedback 22050 ((t : Int) - 22050) * cs.feedback := by
    intro t
    have := impulseEcho_rec a cs.feedback 22050 (by decide) t
    rw [zero_add] at this
    rw [himp t]
    exact this
  obtain ⟨r, _⟩ := playBlocks_plain lib cs input channel hf hv hc hdry hwet 22050
    (impulseEcho a cs.feedback 22050) (by decide) hrec blocks 0 (prepareToPlay lib p0 p0.sampleRate) acc
    hch
    (by
      have e : (prepareToPlay lib p0 p0.sampleRate).sampleRate = 44100 := hrate
      rw [e, hsr, hdelay]
      norm_num)
    (by rw [hsize]; decide)
    (by
      have e : (prepareToPlay lib p0 p0.sampleRate).delay.writePosition = 0 := rfl
      rw [e]; simp)
    (by
      intro t _ ht
      have e : (prepareToPlay lib p0 p0.sampleRate).delay.delayBuffer channel
          (t % (prepareToPlay lib p0 p0.sampleRate).delay.bufferSize) = 0 := rfl
      rw [e]
      unfold impulseEcho
      rw [if_neg (by
        intro hx
        have := hx.1
        simp only [Nat.cast_zero] at ht
        omega)])
  have hneg : ∀ t : Nat, t ≤ 22049 → impulseEcho a cs.feedback 22050 ((t : Int) - 22050) = 0 := by
    intro t ht
    unfold impulseEcho
    rw [if_neg (by intro hx; have := hx.1; omega)]
  have hzero : impulseEcho a cs.feedback 22050 (((22050 : Nat) : Int) - 22050) = a := by
    unfold impulseEcho
    simp
  refine ⟨?_, fun t h1 h2 => ?_, ?_⟩
  · rw [r 0 (le_refl 0) (by omega), hneg 0 (by decide), himp, hdl, hwl]
    simp [impulse]
  · rw [r t (by omega) (by omega), hneg t h2, himp, hdl, hwl]
    have : t ≠ 0 := by omega
    simp [impulse, this]
  · rw [r 22050 (by omega) (by omega), hzero, himp, hdl, hwl]
    simp [impulse]

/-- C1 at a concrete engine: one input channel, the impulse of height 3, a
first block of 512 samples and a second one of 30000; the output is 3 at
sample 0, 0 at samples 1 and 22049, and 3 at sample 22050. -/
theorem C1_single_echo_witness :
    (playBlocks flatLibrary echoSettings (fun _ t => impulse 3 t) [512, 30000] 0
        (prepareToPlay flatLibrary flangerDemo.p flangerDemo.p.sampleRate) (fun _ _ => 0)).2 0 0
        = 3
      ∧ (playBlocks flatLibrary echoSettings (fun _ t => impulse 3 t) [512, 30000] 0
          (prepareToPlay flatLibrary flangerDemo.p flangerDemo.p.sampleRate) (fun _ _ => 0)).2 0 1
        = 0
      ∧ (playBlocks flatLibrary echoSettings (fun _ t => impulse 3 t) [512, 30000] 0
          (prepareToPlay flatLibrary flangerDemo.p flangerDemo.p.sampleRate) (fun _ _ => 0)).2 0
            22049
        = 0
      ∧ (playBlocks flatLibrary echoSettings (fun _ t => impulse 3 t) [512, 30000] 0
          (prepareToPlay flatLibrary flangerDemo.p flangerDemo.p.sampleRate) (fun _ _ => 0)).2 0
            22050
        = 3 := by
  have h1 : flangerDemo.p.sampleRate = 44100 := rfl
  have h2 : 0 < flangerDemo.p.totalNumInputChannels := by decide
  have h3 : echoSettings.delayTime = 1 / 2 := rfl
  have h4 : echoSettings.feedback = 0 := rfl
  have h5 : echoSettings.dryLevel = 1 := rfl
  have h6 : echoSettings.wetLevel = 1 := rfl
  have h7 : (22050 : Nat) < ([512, 30000] : List Nat).sum := by norm_num
  have h := C1_single_echo flatLibrary flangerDemo.p echoSettings 3 (fun _ t => impulse 3 t) 0
    [512, 30000] (fun _ _ => 0) h1 h2 h3 h4 h5 h6 rfl rfl rfl rfl rfl (fun _ => rfl) h7
  exact ⟨h.1, h.2.1 1 (by decide) (by decide), h.2.1 22049 (by decide) (by decide), h.2.2⟩

end CombClaims

/-! ## Facts that hold on every path -/

section UnitFrames

variable {F : Type} [LinearOrderedField F] [FloorRing F]

namespace DelayLineEffect

@[simp] theorem process_currentWidth (e : DelayLineEffect F) (d : F) :
    (e.process d).currentWidth = e.currentWidth := by
  unfold process processTraced
  simp only
  split <;> rfl

@[simp] theorem process_phase (e : DelayLineEffect F) (d : F) :
    (e.process d).phase = e.phase := by
  unfold process processTraced
  simp only
  split <;> rfl

@[simp] theorem process_phaseOffset (e : DelayLineEffect F) (d : F) :
    (e.process d).phaseOffset = e.phaseOffset := by
  unfold process processTraced
  simp only
  split <;> rfl

@[simp] theorem process_lfoPhase (e : DelayLineEffect F) (d : F) :
    (e.process d).lfoPhase = e.lfoPhase := by
  unfold process processTraced
  simp only
  split <;> rfl

@[simp] theorem process_inverseSampleRate (e : DelayLineEffect F) (d : F) :
    (e.process d).inverseSampleRate = e.inverseSampleRate := by
  unfold process processTraced
  simp only
  split <;> rfl

@[simp] theorem process_weight (e : DelayLineEffect F) (d : F) :
    (e.process d).weight = e.weight := by
  unfold process processTraced
  simp only
  split <;> rfl

@[simp] theorem store_currentWidth (e : DelayLineEffect F) (v : F) :
    (e.store v).currentWidth = e.currentWidth := rfl

@[simp] theorem store_phase (e : DelayLineEffect F) (v : F) : (e.store v).phase = e.phase := rfl

@[simp] theorem store_phaseOffset (e : DelayLineEffect F) (v : F) :
    (e.store v).phaseOffset = e.phaseOffset := rfl

@[simp] theorem store_lfoPhase (e : DelayLineEffect F) (v : F) :
    (e.store v).lfoPhase = e.lfoPhase := rfl

@[simp] theorem store_inverseSampleRate (e : DelayLineEffect F) (v : F) :
    (e.store v).inverseSampleRate = e.inverseSampleRate := rfl

@[simp] theorem store_weight (e : DelayLineEffect F) (v : F) : (e.store v).weight = e.weight := rfl

@[simp] theorem calc_currentWidth (e : DelayLineEffect F) (f : F) :
    (e.calculatePositionAndPhase f).currentWidth = e.currentWidth := by
  simp only [calculatePositionAndPhase]
  split_ifs <;> rfl

@[simp] theorem calc_lfoPhase (e : DelayLineEffect F) (f : F) :
    (e.calculatePositionAndPhase f).lfoPhase = e.lfoPhase := by
  simp only [calculatePositionAndPhase]
  split_ifs <;> rfl

@[simp] theorem calc_inverseSampleRate (e : DelayLineEffect F) (f : F) :
    (e.calculatePositionAndPhase f).inverseSampleRate = e.inverseSampleRate := by
  simp only [calculatePositionAndPhase]
  split_ifs <;> rfl

end DelayLineEffect

open DelayLineEffect

theorem sameBlockConstants_refl (e : DelayLineEffect F) : SameBlockConstants e e :=
  ⟨rfl, rfl, rfl, rfl, rfl, rfl⟩

theorem sameBlockConstants_trans (e e2 e3 : DelayLineEffect F) (h : SameBlockConstants e e2)
    (h2 : SameBlockConstants e2 e3) : SameBlockConstants e e3 := by
  obtain ⟨a1, a2, a3, a4, a5, a6⟩ := h
  obtain ⟨b1, b2, b3, b4, b5, b6⟩ := h2
  exact ⟨b1.trans a1, b2.trans a2, b3.trans a3, b4.trans a4, b5.trans a5, b6.trans a6⟩

theorem keepsCursor_refl (e : DelayLineEffect F) : KeepsCursor e e :=
  ⟨sameBlockConstants_refl e, rfl, rfl, rfl⟩

theorem keepsCursor_trans (e e2 e3 : DelayLineEffect F) (h : KeepsCursor e e2)
    (h2 : KeepsCursor e2 e3) : KeepsCursor e e3 := by
  obtain ⟨a1, a2, a3, a4⟩ := h
  obtain ⟨b1, b2, b3, b4⟩ := h2
  exact ⟨sameBlockConstants_trans _ _ _ a1 b1, b2.trans a2, b3.trans a3, b4.trans a4⟩

theorem keepsCursor_process (e : DelayLineEffect F) (d : F) : KeepsCursor e (e.process d) := by
  simp [KeepsCursor, SameBlockConstants]

theorem keepsCursor_store (e : DelayLineEffect F) (v : F) : KeepsCursor e (e.store v) :=
  ⟨⟨rfl, rfl, rfl, rfl, rfl, rfl⟩, rfl, rfl, rfl⟩

theorem sameBlockConstants_calc (e : DelayLineEffect F) (f : F) :
    SameBlockConstants e (e.calculatePositionAndPhase f) := by
  simp [SameBlockConstants]

theorem sameBlockConstants_prepareDelayBuffer (e : DelayLineEffect F) (channel : Nat)
    (useLfo : Bool) : SameBlockConstants e (e.prepareDelayBuffer channel useLfo) := by
  cases useLfo <;> simp [SameBlockConstants, prepareDelayBuffer]

/-- The local cursor after `calculatePositionAndPhase`, for any cursor. -/
theorem calc_localWritePosition_eq (e : DelayLineEffect F) (f : F) :
    (e.calculatePositionAndPhase f).localWritePosition
      = if e.localWritePosition + 1 ≥ e.bufferSize then e.localWritePosition + 1 - e.bufferSize
        else e.localWritePosition + 1 := by
  simp only [calculatePositionAndPhase]
  split_ifs <;> rfl

/-- The phase after `calculatePositionAndPhase`. -/
theorem calc_phase_eq (e : DelayLineEffect F) (f : F) :
    (e.calculatePositionAndPhase f).phase
      = if e.phase + f * e.inverseSampleRate ≥ 1 then e.phase + f * e.inverseSampleRate - 1
        else e.phase + f * e.inverseSampleRate := by
  simp only [calculatePositionAndPhase]
  split_ifs <;> rfl

end UnitFrames

section RouteFrames

variable {F : Type} [LinearOrderedField F] [FloorRing F] {R : Type}

open DelayLineEffect

/-- One chorus voice changes the base delay unit only in its buffer and the
chorus unit only in its scratch members. -/
theorem chorusVoice_frame (lib : Library F R) (numOfVoices : Int) (chorDepth : F)
    (channel voice : Nat) (u : DelayLineEffect F × DelayLineEffect F) :
    KeepsCursor u.1 (chorusVoice lib numOfVoices chorDepth channel voice u).1
      ∧ (chorusVoice lib numOfVoices chorDepth channel voice u).1.out = u.1.out
      ∧ KeepsCursor u.2 (chorusVoice lib numOfVoices chorDepth channel voice u).2
      ∧ (chorusVoice lib numOfVoices chorDepth channel voice u).2.delayBuffer
          = u.2.delayBuffer := by
  simp only [chorusVoice]
  refine ⟨?_, ?_, ?_, ?_⟩
  · split_ifs <;> exact keepsCursor_store _ _
  · split_ifs <;> rfl
  · split_ifs <;> simp [KeepsCursor, SameBlockConstants]
  · split_ifs <;> simp

/-- The voice loop changes the base delay unit only in its buffer and the
chorus unit only in its scratch members. -/
theorem chorusVoices_frame (lib : Library F R) (numOfVoices : Int) (chorDepth : F)
    (channel count : Nat) (u : DelayLineEffect F × DelayLineEffect F) :
    KeepsCursor u.1 (chorusVoices lib numOfVoices chorDepth channel count u).1
      ∧ (chorusVoices lib numOfVoices chorDepth channel count u).1.out = u.1.out
      ∧ KeepsCursor u.2 (chorusVoices lib numOfVoices chorDepth channel count u).2
      ∧ (chorusVoices lib numOfVoices chorDepth channel count u).2.delayBuffer
          = u.2.delayBuffer := by
  induction count with
  | zero => exact ⟨keepsCursor_refl _, rfl, keepsCursor_refl _, rfl⟩
  | succ n ih =>
    obtain ⟨a1, a2, a3, a4⟩ := ih
    obtain ⟨b1, b2, b3, b4⟩ := chorusVoice_frame lib numOfVoices chorDepth channel n
      (chorusVoices lib numOfVoices chorDepth channel n u)
    simp only [chorusVoices]
    exact ⟨keepsCursor_trans _ _ _ a1 b1, b2.trans a2, keepsCursor_trans _ _ _ a3 b3,
      b4.trans a4⟩

/-- The routing of a sample, on any path, changes the four units only in
their buffers and scratch members. -/
theorem route_keepsCursor (lib : Library F R) (cs : ChainSettings F) (channel sample : Nat)
    (inp : F) (s : BlockState F R) :
    KeepsCursor s.p.delay (route lib cs channel sample inp s).p.delay
      ∧ KeepsCursor s.p.flanger (route lib cs channel sample inp s).p.flanger
      ∧ KeepsCursor s.p.vibrato (route lib cs channel sample inp s).p.vibrato
      ∧ KeepsCursor s.p.chorus (route lib cs channel sample inp s).p.chorus := by
  have hp := keepsCursor_process s.p.delay s.p.delay.currentDelayTime
  unfold route
  simp only
  split_ifs
  · exact ⟨keepsCursor_trans _ _ _ hp (keepsCursor_store _ _), keepsCursor_refl _,
      keepsCursor_refl _, keepsCursor_refl _⟩
  · refine ⟨?_, ?_, keepsCursor_refl _, keepsCursor_refl _⟩
    · rw [case1_delay]
      exact keepsCursor_trans _ _ _ hp (keepsCursor_store _ _)
    · rw [case1_flanger]
      exact keepsCursor_trans _ _ _ (keepsCursor_process _ _) (keepsCursor_store _ _)
  · refine ⟨?_, keepsCursor_refl _, ?_, keepsCursor_refl _⟩
    · exact keepsCursor_trans _ _ _ hp (keepsCursor_store _ _)
    · exact keepsCursor_trans _ _ _ (keepsCursor_process _ _) (keepsCursor_store _ _)
  · obtain ⟨a1, _, a3, _⟩ := chorusVoices_frame lib cs.numOfVoices.toInt cs.chorDepth channel
      (cs.numOfVoices.toInt + 1).toNat
      (s.p.delay.process s.p.delay.currentDelayTime, { s.p.chorus with phaseOffset := 0 })
    refine ⟨?_, keepsCursor_refl _, keepsCursor_refl _, ?_⟩
    · exact keepsCursor_trans _ _ _ hp (keepsCursor_trans _ _ _ a1 (keepsCursor_store _ _))
    · have h0 : KeepsCursor s.p.chorus ({ s.p.chorus with phaseOffset := 0 } : DelayLineEffect F) :=
        ⟨⟨rfl, rfl, rfl, rfl, rfl, rfl⟩, rfl, rfl, rfl⟩
      exact keepsCursor_trans _ _ _ h0 (keepsCursor_trans _ _ _ a3 (keepsCursor_store _ _))
  · exact ⟨keepsCursor_refl _, keepsCursor_refl _, keepsCursor_refl _, keepsCursor_refl _⟩

/-- The routing of a sample leaves the host data, the reverberators and the
dry scratch buffer unchanged. -/
theorem route_host (lib : Library F R) (cs : ChainSettings F) (channel sample : Nat)
    (inp : F) (s : BlockState F R) :
    (route lib cs channel sample inp s).p.totalNumInputChannels = s.p.totalNumInputChannels
      ∧ (route lib cs channel sample inp s).p.totalNumOutputChannels = s.p.totalNumOutputChannels
      ∧ (route lib cs channel sample inp s).p.sampleRate = s.p.sampleRate
      ∧ (route lib cs channel sample inp s).p.dryRevBufferCopy = s.p.dryRevBufferCopy
      ∧ (route lib cs channel sample inp s).p.dryReverb = s.p.dryReverb
      ∧ (route lib cs channel sample inp s).p.wetReverb = s.p.wetReverb := by
  unfold route
  simp only
  split_ifs <;> exact ⟨rfl, rfl, rfl, rfl, rfl, rfl⟩

/-- The switch as a chain of tests on the three flags. -/
theorem route_eq (lib : Library F R) (cs : ChainSettings F) (channel sample : Nat) (inp : F)
    (s : BlockState F R) :
    route lib cs channel sample inp s
      = (if cs.flangerOn = false then case1 lib cs channel sample inp s
        else if cs.vibratoOn = false then case2 lib cs channel sample inp s
        else if cs.chorusOn = false then case3 lib cs channel sample inp s
        else case0 cs channel sample inp s) := by
  unfold route
  cases cs.flangerOn <;> cases cs.vibratoOn <;> cases cs.chorusOn <;>
    simp [caseOfProcessing]

/-- The live buffer after the flanger path. -/
theorem case1_buffer (lib : Library F R) (cs : ChainSettings F) (channel sample : Nat) (inp : F)
    (s : BlockState F R) :
    (case1 lib cs channel sample inp s).buffer
      = (if cs.wetReverbOn then
          setSample s.buffer channel sample
            (s.buffer channel sample * cs.dryLevel
              + ((case1 lib cs channel sample inp s).p.delay.out
                + (case1 lib cs channel sample inp s).p.flanger.out * cs.flangDepth)
                * cs.wetLevel)
        else s.buffer) := by
  by_cases hw : cs.wetReverbOn = true
  · simp only [case1, store_out, hw, if_true]
    ring_nf
  · simp only [case1, hw]
    rfl

/-- The live buffer after the chorus path. -/
theorem case3_buffer (lib : Library F R) (cs : ChainSettings F) (channel sample : Nat) (inp : F)
    (s : BlockState F R) :
    (case3 lib cs channel sample inp s).buffer
      = (if cs.wetReverbOn then
          setSample s.buffer channel sample
            (s.buffer channel sample * cs.dryLevel
              + ((case3 lib cs channel sample inp s).p.delay.out
                + cs.chorDepth * (case3 lib cs channel sample inp s).p.chorus.out)
                * cs.wetLevel)
        else s.buffer) := by
  by_cases hw : cs.wetReverbOn = true
  · simp only [case3, store_out, hw, if_true]
    ring_nf
  · simp only [case3, hw]
    rfl

/-- On every path the routing adds the combined effect value to the wet
scratch sample and, when `wetReverbOn` holds, overwrites the live sample with
the per-sample mix; nothing else of the two buffers changes. -/
theorem route_mix (lib : Library F R) (cs : ChainSettings F) (channel sample : Nat) (inp : F)
    (s : BlockState F R) :
    (route lib cs channel sample inp s).p.wetRevBufferCopy
        = addSample s.p.wetRevBufferCopy channel sample
            (combinedOutput cs (route lib cs channel sample inp s))
      ∧ (route lib cs channel sample inp s).buffer
        = (if cs.wetReverbOn then
            setSample s.buffer channel sample
              (s.buffer channel sample * cs.dryLevel
                + combinedOutput cs (route lib cs channel sample inp s) * cs.wetLevel)
          else s.buffer) := by
  rw [route_eq]
  unfold combinedOutput
  by_cases hf : cs.flangerOn = false
  · rw [if_pos hf, if_pos hf]
    exact ⟨rfl, case1_buffer lib cs channel sample inp s⟩
  · rw [if_neg hf, if_neg hf]
    by_cases hv : cs.vibratoOn = false
    · rw [if_pos hv, if_pos hv]
      exact ⟨rfl, rfl⟩
    · rw [if_neg hv, if_neg hv]
      by_cases hc : cs.chorusOn = false
      · rw [if_pos hc, if_pos hc]
        exact ⟨rfl, case3_buffer lib cs channel sample inp s⟩
      · rw [if_neg hc, if_neg hc]
        exact ⟨rfl, rfl⟩

/-- One iteration of the sample loop changes the live buffer only in the
sample it processes. -/
theorem sampleBody_buffer_other (lib : Library F R) (cs : ChainSettings F)
    (s : BlockState F R) (ch i ch2 j : Nat) (h : ch2 ≠ ch ∨ j ≠ i) :
    (sampleBody lib cs ch i s).buffer ch2 j = s.buffer ch2 j := by
  have hne : ¬ (ch2 = ch ∧ j = i) := by
    intro hh; rcases h with h | h
    · exact h hh.1
    · exact h hh.2
  simp only [sampleBody, advance]
  rw [(route_mix lib cs ch i _ _).2]
  split_ifs
  · simp [setSample, hne]
  · rfl

/-- One iteration of the sample loop changes the wet scratch buffer only in
the sample it processes. -/
theorem sampleBody_wet_other (lib : Library F R) (cs : ChainSettings F)
    (s : BlockState F R) (ch i ch2 j : Nat) (h : ch2 ≠ ch ∨ j ≠ i) :
    (sampleBody lib cs ch i s).p.wetRevBufferCopy ch2 j = s.p.wetRevBufferCopy ch2 j := by
  have hne : ¬ (ch2 = ch ∧ j = i) := by
    intro hh; rcases h with h | h
    · exact h hh.1
    · exact h hh.2
  simp only [sampleBody, advance]
  rw [(route_mix lib cs ch i _ _).1]
  simp [addSample, hne]

/-- One iteration of the sample loop adds the input sample to the dry scratch
buffer. -/
theorem sampleBody_dry (lib : Library F R) (cs : ChainSettings F) (s : BlockState F R)
    (ch i : Nat) :
    (sampleBody lib cs ch i s).p.dryRevBufferCopy
      = addSample s.p.dryRevBufferCopy ch i (s.buffer ch i) := by
  simp only [sampleBody, advance]
  rw [(route_host lib cs ch i _ _).2.2.2.1]

/-- One iteration of the sample loop changes the dry scratch buffer only in
the sample it processes. -/
theorem sampleBody_dry_other (lib : Library F R) (cs : ChainSettings F)
    (s : BlockState F R) (ch i ch2 j : Nat) (h : ch2 ≠ ch ∨ j ≠ i) :
    (sampleBody lib cs ch i s).p.dryRevBufferCopy ch2 j = s.p.dryRevBufferCopy ch2 j := by
  have hne : ¬ (ch2 = ch ∧ j = i) := by
    intro hh; rcases h with h | h
    · exact h hh.1
    · exact h hh.2
  rw [sampleBody_dry]
  simp [addSample, hne]

end RouteFrames

/-! ## Cells of the audio and scratch buffers across the loops -/

section Cells

variable {F : Type} [LinearOrderedField F] [FloorRing F] {R : Type}

/-- A buffer `f` that an iteration changes only in its own cell is unchanged
by the sample loop in the other channels and in the samples not yet reached. -/
theorem sampleLoop_untouched (lib : Library F R) (cs : ChainSettings F)
    (f : BlockState F R → Nat → Nat → F)
    (hbody : ∀ (s : BlockState F R) (ch i ch2 j : Nat), (ch2 ≠ ch ∨ j ≠ i) →
      f (sampleBody lib cs ch i s) ch2 j = f s ch2 j)
    (s : BlockState F R) (ch k ch2 j : Nat) (h : ch2 ≠ ch ∨ k ≤ j) :
    f (sampleLoop lib cs ch k s) ch2 j = f s ch2 j := by
  induction k with
  | zero => rfl
  | succ n ih =>
    simp only [sampleLoop]
    rw [hbody _ ch n ch2 j (by rcases h with h | h; exact Or.inl h; exact Or.inr (by omega))]
    exact ih (by rcases h with h | h; exact Or.inl h; exact Or.inr (by omega))

/-- A cell already processed keeps the value that its own iteration left. -/
theorem sampleLoop_settled (lib : Library F R) (cs : ChainSettings F)
    (f : BlockState F R → Nat → Nat → F)
    (hbody : ∀ (s : BlockState F R) (ch i ch2 j : Nat), (ch2 ≠ ch ∨ j ≠ i) →
      f (sampleBody lib cs ch i s) ch2 j = f s ch2 j)
    (s : BlockState F R) (ch k j : Nat) (h : j < k) :
    f (sampleLoop lib cs ch k s) ch j = f (sampleLoop lib cs ch (j + 1) s) ch j := by
  induction k with
  | zero => omega
  | succ n ih =>
    by_cases hjn : j = n
    · subst hjn; rfl
    · simp only [sampleLoop]
      rw [hbody _ ch n ch j (Or.inr hjn)]
      have := ih (by omega)
      simp only [sampleLoop] at this
      exact this

/-- The channel loop leaves the channels not yet reached unchanged. -/
theorem channelLoop_untouched (lib : Library F R) (cs : ChainSettings F)
    (f : BlockState F R → Nat → Nat → F)
    (hbody : ∀ (s : BlockState F R) (ch i ch2 j : Nat), (ch2 ≠ ch ∨ j ≠ i) →
      f (sampleBody lib cs ch i s) ch2 j = f s ch2 j)
    (hstart : ∀ (s : BlockState F R) (ch : Nat), f (channelStart ch s) = f s)
    (numSamples : Nat) (s : BlockState F R) (k ch2 j : Nat) (h : k ≤ ch2) :
    f (channelLoop lib cs numSamples k s) ch2 j = f s ch2 j := by
  induction k with
  | zero => rfl
  | succ n ih =>
    simp only [channelLoop, channelBody]
    rw [sampleLoop_untouched lib cs f hbody _ n numSamples ch2 j (Or.inl (by omega)), hstart]
    exact ih (by omega)

/-- A channel already processed keeps what its own pass left. -/
theorem channelLoop_settled (lib : Library F R) (cs : ChainSettings F)
    (f : BlockState F R → Nat → Nat → F)
    (hbody : ∀ (s : BlockState F R) (ch i ch2 j : Nat), (ch2 ≠ ch ∨ j ≠ i) →
      f (sampleBody lib cs ch i s) ch2 j = f s ch2 j)
    (hstart : ∀ (s : BlockState F R) (ch : Nat), f (channelStart ch s) = f s)
    (numSamples : Nat) (s : BlockState F R) (k ch j : Nat) (h : ch < k) :
    f (channelLoop lib cs numSamples k s) ch j
      = f (channelLoop lib cs numSamples (ch + 1) s) ch j := by
  induction k with
  | zero => omega
  | succ n ih =>
    by_cases hcn : ch = n
    · subst hcn; rfl
    · have h1 : f (channelLoop lib cs numSamples (n + 1) s) ch j
          = f (channelLoop lib cs numSamples n s) ch j := by
        simp only [channelLoop, channelBody]
        rw [sampleLoop_untouched lib cs f hbody _ n numSamples ch j (Or.inl hcn), hstart]
      rw [h1]
      exact ih (by omega)

/-- The cell `(ch, j)` of a buffer that an iteration changes only in its own
cell: it still has its initial value when its iteration starts, and after the
loops it has the value that its iteration left. -/
theorem loops_cell (lib : Library F R) (cs : ChainSettings F)
    (f : BlockState F R → Nat → Nat → F)
    (hbody : ∀ (s : BlockState F R) (ch i ch2 j : Nat), (ch2 ≠ ch ∨ j ≠ i) →
      f (sampleBody lib cs ch i s) ch2 j = f s ch2 j)
    (hstart : ∀ (s : BlockState F R) (ch : Nat), f (channelStart ch s) = f s)
    (numSamples : Nat) (s : BlockState F R) (ch j : Nat) :
    f (iterationState lib cs numSamples s ch j) ch j = f s ch j
      ∧ ∀ k : Nat, ch < k → j < numSamples →
          f (channelLoop lib cs numSamples k s) ch j
            = f (sampleBody lib cs ch j (iterationState lib cs numSamples s ch j)) ch j := by
  refine ⟨?_, fun k hk hj => ?_⟩
  · unfold iterationState
    rw [sampleLoop_untouched lib cs f hbody _ ch j ch j (Or.inr (le_refl j)), hstart]
    exact channelLoop_untouched lib cs f hbody hstart numSamples s ch ch j (le_refl ch)
  · rw [channelLoop_settled lib cs f hbody hstart numSamples s k ch j hk]
    simp only [channelLoop, channelBody]
    rw [sampleLoop_settled lib cs f hbody _ ch numSamples j hj]
    rfl

/-- The combined effect value is not changed by the cursor advance that ends
the iteration. -/
theorem combinedOutput_sampleBody (lib : Library F R) (cs : ChainSettings F) (ch i : Nat)
    (s : BlockState F R) :
    combinedOutput cs (sampleBody lib cs ch i s)
      = combinedOutput cs
          (route lib cs ch i (s.buffer ch i)
            { s with p := { s.p with
                dryRevBufferCopy := addSample s.p.dryRevBufferCopy ch i (s.buffer ch i) } }) := by
  simp [combinedOutput, sampleBody, advance]

/-- The wet scratch sample and the live sample that an iteration of the
sample loop leaves in its own cell. -/
theorem sampleBody_own_cell (lib : Library F R) (cs : ChainSettings F) (ch i : Nat)
    (s : BlockState F R) :
    (sampleBody lib cs ch i s).p.wetRevBufferCopy ch i
        = s.p.wetRevBufferCopy ch i + combinedOutput cs (sampleBody lib cs ch i s)
      ∧ (sampleBody lib cs ch i s).buffer ch i
        = (if cs.wetReverbOn then
            s.buffer ch i * cs.dryLevel + combinedOutput cs (sampleBody lib cs ch i s) * cs.wetLevel
          else s.buffer ch i) := by
  rw [combinedOutput_sampleBody]
  simp only [sampleBody, advance]
  rw [(route_mix lib cs ch i _ _).1, (route_mix lib cs ch i _ _).2]
  refine ⟨by simp [addSample], ?_⟩
  split_ifs <;> simp [setSample]

/-- The cells of the live buffer and of the wet scratch buffer in
`processBlock`: when the iteration of cell `(ch, i)` starts, the live sample is
still the input and the wet scratch sample is 0; when the loops have finished,
the cell holds what that iteration left. -/
theorem block_cells (lib : Library F R) (cs : ChainSettings F) (numSamples : Nat)
    (s : BlockState F R) (ch i : Nat) (hch : ch < s.p.totalNumInputChannels)
    (hi : i < numSamples) :
    (iterationState lib cs numSamples { p := blockSetup lib cs s.p, buffer := s.buffer }
        ch i).buffer ch i = s.buffer ch i
      ∧ (iterationState lib cs numSamples { p := blockSetup lib cs s.p, buffer := s.buffer }
          ch i).p.wetRevBufferCopy ch i = 0
      ∧ (iterationState lib cs numSamples { p := blockSetup lib cs s.p, buffer := s.buffer }
          ch i).p.dryRevBufferCopy ch i = 0
      ∧ (channelLoop lib cs numSamples s.p.totalNumInputChannels
          { p := blockSetup lib cs s.p, buffer := s.buffer }).p.wetRevBufferCopy ch i
        = combinedOutput cs
            (sampleBody lib cs ch i
              (iterationState lib cs numSamples
                { p := blockSetup lib cs s.p, buffer := s.buffer } ch i))
      ∧ (channelLoop lib cs numSamples s.p.totalNumInputChannels
          { p := blockSetup lib cs s.p, buffer := s.buffer }).buffer ch i
        = (if cs.wetReverbOn then
            s.buffer ch i * cs.dryLevel
              + combinedOutput cs
                  (sampleBody lib cs ch i
                    (iterationState lib cs numSamples
                      { p := blockSetup lib cs s.p, buffer := s.buffer } ch i)) * cs.wetLevel
          else s.buffer ch i)
      ∧ (channelLoop lib cs numSamples s.p.totalNumInputChannels
          { p := blockSetup lib cs s.p, buffer := s.buffer }).p.dryRevBufferCopy ch i
        = s.buffer ch i := by
  obtain ⟨b1, b2⟩ := loops_cell lib cs (fun st => st.buffer)
    (fun st c j c2 j2 h => sampleBody_buffer_other lib cs st c j c2 j2 h) (fun _ _ => rfl)
    numSamples { p := blockSetup lib cs s.p, buffer := s.buffer } ch i
  obtain ⟨w1, w2⟩ := loops_cell lib cs (fun st => st.p.wetRevBufferCopy)
    (fun st c j c2 j2 h => sampleBody_wet_other lib cs st c j c2 j2 h) (fun _ _ => rfl)
    numSamples { p := blockSetup lib cs s.p, buffer := s.buffer } ch i
  obtain ⟨d1, d2⟩ := loops_cell lib cs (fun st => st.p.dryRevBufferCopy)
    (fun st c j c2 j2 h => sampleBody_dry_other lib cs st c j c2 j2 h) (fun _ _ => rfl)
    numSamples { p := blockSetup lib cs s.p, buffer := s.buffer } ch i
  simp only at b1 b2 w1 w2 d1 d2
  have w0 : (iterationState lib cs numSamples { p := blockSetup lib cs s.p, buffer := s.buffer }
      ch i).p.wetRevBufferCopy ch i = 0 := w1
  have d0 : (iterationState lib cs numSamples { p := blockSetup lib cs s.p, buffer := s.buffer }
      ch i).p.dryRevBufferCopy ch i = 0 := d1
  refine ⟨b1, w0, d0, ?_, ?_, ?_⟩
  · rw [w2 _ hch hi, (sampleBody_own_cell lib cs ch i _).1, w0, zero_add]
  · rw [b2 _ hch hi, (sampleBody_own_cell lib cs ch i _).2, b1]
  · rw [d2 _ hch hi, sampleBody_dry, b1]
    simp [addSample, d0]

end Cells

/-! ## Claims about the mix and the reverb stage -/

section MixClaims

variable {F : Type} [LinearOrderedField F] [FloorRing F] {R : Type}

open DelayLineEffect

/-- C11: per-sample mix and wet scratch. On every path the routing of a
sample adds the path's combined value to the wet scratch sample (plain:
`delay.out`; flanger: `delay.out + flanger.out * flangDepth`; vibrato:
`vibDepth * vibrato.out`; chorus: `delay.out + chorDepth * chorus.out`, see
`combinedOutput`) and overwrites the live sample with
`input * dryLevel + combined * wetLevel` if `wetReverbOn` is true, leaving it
otherwise. In `processBlock` the wet scratch sample is 0 and the live sample is
the input when the iteration of a cell starts, so when the loops have finished
the wet scratch sample is the combined value and the live sample is the mix
if `wetReverbOn` is true and the input otherwise. -/
theorem C11_per_sample_mix (lib : Library F R) (cs : ChainSettings F) (numSamples : Nat)
    (s st : BlockState F R) (inp : F) (channel sample : Nat)
    (hch : channel < s.p.totalNumInputChannels) (hi : sample < numSamples) :
    ((route lib cs channel sample inp st).p.wetRevBufferCopy channel sample
        = st.p.wetRevBufferCopy channel sample
          + combinedOutput cs (route lib cs channel sample inp st)
      ∧ (route lib cs channel sample inp st).buffer channel sample
        = (if cs.wetReverbOn then
            st.buffer channel sample * cs.dryLevel
              + combinedOutput cs (route lib cs channel sample inp st) * cs.wetLevel
          else st.buffer channel sample))
      ∧ ((iterationState lib cs numSamples { p := blockSetup lib cs s.p, buffer := s.buffer }
            channel sample).buffer channel sample = s.buffer channel sample
        ∧ (iterationState lib cs numSamples { p := blockSetup lib cs s.p, buffer := s.buffer }
            channel sample).p.wetRevBufferCopy channel sample = 0
        ∧ (channelLoop lib cs numSamples s.p.totalNumInputChannels
            { p := blockSetup lib cs s.p, buffer := s.buffer }).p.wetRevBufferCopy channel sample
          = combinedOutput cs
              (sampleBody lib cs channel sample
                (iterationState lib cs numSamples
                  { p := blockSetup lib cs s.p, buffer := s.buffer } channel sample))
        ∧ (channelLoop lib cs numSamples s.p.totalNumInputChannels
            { p := blockSetup lib cs s.p, buffer := s.buffer }).buffer channel sample
          = (if cs.wetReverbOn then
              s.buffer channel sample * cs.dryLevel
                + combinedOutput cs
                    (sampleBody lib cs channel sample
                      (iterationState lib cs numSamples
                        { p := blockSetup lib cs s.p, buffer := s.buffer } channel sample))
                  * cs.wetLevel
            else s.buffer channel sample)) := by
  obtain ⟨b1, b2, _, b4, b5, _⟩ := block_cells lib cs numSamples s channel sample hch hi
  refine ⟨⟨?_, ?_⟩, b1, b2, b4, b5⟩
  · rw [(route_mix lib cs channel sample inp st).1]
    simp [addSample]
  · rw [(route_mix lib cs channel sample inp st).2]
    split_ifs <;> simp [setSample]

/-- C11 at a concrete block: one input channel, one sample, the state
`flangerDemo` and the default settings. -/
theorem C11_per_sample_mix_witness :
    ((route flatLibrary defaultSettings 0 0 7 flangerDemo).p.wetRevBufferCopy 0 0
        = flangerDemo.p.wetRevBufferCopy 0 0
          + combinedOutput defaultSettings (route flatLibrary defaultSettings 0 0 7 flangerDemo)
      ∧ (route flatLibrary defaultSettings 0 0 7 flangerDemo).buffer 0 0
        = (if defaultSettings.wetReverbOn then
            flangerDemo.buffer 0 0 * defaultSettings.dryLevel
              + combinedOutput defaultSettings
                  (route flatLibrary defaultSettings 0 0 7 flangerDemo) * defaultSettings.wetLevel
          else flangerDemo.buffer 0 0))
      ∧ ((iterationState flatLibrary defaultSettings 1
            { p := blockSetup flatLibrary defaultSettings flangerDemo.p,
              buffer := flangerDemo.buffer } 0 0).buffer 0 0 = flangerDemo.buffer 0 0
        ∧ (iterationState flatLibrary defaultSettings 1
            { p := blockSetup flatLibrary defaultSettings flangerDemo.p,
              buffer := flangerDemo.buffer } 0 0).p.wetRevBufferCopy 0 0 = 0
        ∧ (channelLoop flatLibrary defaultSettings 1 flangerDemo.p.totalNumInputChannels
            { p := blockSetup flatLibrary defaultSettings flangerDemo.p,
              buffer := flangerDemo.buffer }).p.wetRevBufferCopy 0 0
          = combinedOutput defaultSettings
              (sampleBody flatLibrary defaultSettings 0 0
                (iterationState flatLibrary defaultSettings 1
                  { p := blockSetup flatLibrary defaultSettings flangerDemo.p,
                    buffer := flangerDemo.buffer } 0 0))
        ∧ (channelLoop flatLibrary defaultSettings 1 flangerDemo.p.totalNumInputChannels
            { p := blockSetup flatLibrary defaultSettings flangerDemo.p,
              buffer := flangerDemo.buffer }).buffer 0 0
          = (if defaultSettings.wetReverbOn then
              flangerDemo.buffer 0 0 * defaultSettings.dryLevel
                + combinedOutput defaultSettings
                    (sampleBody flatLibrary defaultSettings 0 0
                      (iterationState flatLibrary defaultSettings 1
                        { p := blockSetup flatLibrary defaultSettings flangerDemo.p,
                          buffer := flangerDemo.buffer } 0 0))
                  * defaultSettings.wetLevel
            else flangerDemo.buffer 0 0)) :=
  C11_per_sample_mix flatLibrary defaultSettings 1 flangerDemo flangerDemo 7 0 0 (by decide)
    (by decide)

/-- C12: reverb stage and final mix. A reverberator stage with its flag true
leaves reverberator and scratch buffer unchanged; with its flag false it calls
`processMono` on channel 0 for one input channel and `processStereo` on
channels 0 and 1 for two. `processBlock` runs the stage on the dry scratch
with `dryReverbOn` and on the wet scratch with `wetReverbOn`. For one or two
input channels, every sample of every input channel of the output equals
`dryScratch * dryLevel + wetScratch * wetLevel` (scratch values after the
stage) if at least one flag is false, and the per-sample mix
`input * dryLevel + combined * wetLevel` if both flags are true. -/
theorem C12_reverb_and_final_mix (lib : Library F R) (cs : ChainSettings F) (numSamples : Nat)
    (s : BlockState F R) (channel sample : Nat) (rev : R) (copy : Nat → Nat → F)
    (_hn : s.p.totalNumInputChannels = 1 ∨ s.p.totalNumInputChannels = 2)
    (hch : channel < s.p.totalNumInputChannels) (hi : sample < numSamples) :
    reverbStage lib true s.p.totalNumInputChannels numSamples rev copy = (rev, copy)
      ∧ reverbStage lib false 1 numSamples rev copy
        = ((lib.processMono rev (copy 0) numSamples).1,
            fun ch => if ch = 0 then (lib.processMono rev (copy 0) numSamples).2 else copy ch)
      ∧ reverbStage lib false 2 numSamples rev copy
        = ((lib.processStereo rev (copy 0) (copy 1) numSamples).1,
            fun ch =>
              if ch = 0 then (lib.processStereo rev (copy 0) (copy 1) numSamples).2.1
              else if ch = 1 then (lib.processStereo rev (copy 0) (copy 1) numSamples).2.2
              else copy ch)
      ∧ ((processBlock lib cs numSamples s).p.dryReverb,
            (processBlock lib cs numSamples s).p.dryRevBufferCopy)
        = reverbStage lib cs.dryReverbOn s.p.totalNumInputChannels numSamples
            (channelLoop lib cs numSamples s.p.totalNumInputChannels
              { p := blockSetup lib cs s.p, buffer := s.buffer }).p.dryReverb
            (channelLoop lib cs numSamples s.p.totalNumInputChannels
              { p := blockSetup lib cs s.p, buffer := s.buffer }).p.dryRevBufferCopy
      ∧ ((processBlock lib cs numSamples s).p.wetReverb,
            (processBlock lib cs numSamples s).p.wetRevBufferCopy)
        = reverbStage lib cs.wetReverbOn s.p.totalNumInputChannels numSamples
            (channelLoop lib cs numSamples s.p.totalNumInputChannels
              { p := blockSetup lib cs s.p, buffer := s.buffer }).p.wetReverb
            (channelLoop lib cs numSamples s.p.totalNumInputChannels
              { p := blockSetup lib cs s.p, buffer := s.buffer }).p.wetRevBufferCopy
      ∧ (processBlock lib cs numSamples s).buffer channel sample
        = (if cs.dryReverbOn = true ∧ cs.wetReverbOn = true then
            s.buffer channel sample * cs.dryLevel
              + combinedOutput cs
                  (sampleBody lib cs channel sample
                    (iterationState lib cs numSamples
                      { p := blockSetup lib cs s.p, buffer := s.buffer } channel sample))
                * cs.wetLevel
          else
            (processBlock lib cs numSamples s).p.dryRevBufferCopy channel sample * cs.dryLevel
              + (processBlock lib cs numSamples s).p.wetRevBufferCopy channel sample
                * cs.wetLevel) := by
  refine ⟨by simp [reverbStage], by simp [reverbStage], by simp [reverbStage], rfl, rfl, ?_⟩
  obtain ⟨_, _, _, _, b5, _⟩ := block_cells lib cs numSamples s channel sample hch hi
  have hout : (processBlock lib cs numSamples s).buffer channel sample
      = finalMix cs s.p.totalNumInputChannels numSamples
          (processBlock lib cs numSamples s).p.dryRevBufferCopy
          (processBlock lib cs numSamples s).p.wetRevBufferCopy
          (channelLoop lib cs numSamples s.p.totalNumInputChannels
            { p := blockSetup lib cs s.p, buffer := s.buffer }).buffer channel sample := by
    simp only [processBlock, clearExtraChannels]
    rw [if_neg (by omega)]
  rw [hout]
  unfold finalMix
  by_cases hd : cs.dryReverbOn = true
  · by_cases hw : cs.wetReverbOn = true
    · have e : cs.dryReverbOn = true ∧ cs.wetReverbOn = true := ⟨hd, hw⟩
      rw [if_pos hw] at b5
      rw [if_pos e, ← b5]
      simp [hd, hw]
    · have e : ¬ (cs.dryReverbOn = true ∧ cs.wetReverbOn = true) := fun h => hw h.2
      rw [if_neg e]
      simp [hd, hw, hch, hi]
  · have e : ¬ (cs.dryReverbOn = true ∧ cs.wetReverbOn = true) := fun h => hd h.1
    rw [if_neg e]
    simp [hd, hch, hi]

/-- C12 at a concrete block: one input channel, one sample, the state
`flangerDemo` and the default settings (both reverb flags true). -/
theorem C12_reverb_and_final_mix_witness :
    (processBlock flatLibrary defaultSettings 1 flangerDemo).buffer 0 0
      = (if defaultSettings.dryReverbOn = true ∧ defaultSettings.wetReverbOn = true then
          flangerDemo.buffer 0 0 * defaultSettings.dryLevel
            + combinedOutput defaultSettings
                (sampleBody flatLibrary defaultSettings 0 0
                  (iterationState flatLibrary defaultSettings 1
                    { p := blockSetup flatLibrary defaultSettings flangerDemo.p,
                      buffer := flangerDemo.buffer } 0 0))
              * defaultSettings.wetLevel
        else
          (processBlock flatLibrary defaultSettings 1 flangerDemo).p.dryRevBufferCopy 0 0
              * defaultSettings.dryLevel
            + (processBlock flatLibrary defaultSettings 1 flangerDemo).p.wetRevBufferCopy 0 0
              * defaultSettings.wetLevel) :=
  (C12_reverb_and_final_mix flatLibrary defaultSettings 1 flangerDemo 0 0 () (fun _ _ => 0)
    (Or.inl rfl) (by decide) (by decide)).2.2.2.2.2

end MixClaims

/-! ## The chorus path -/

section ChorusFacts

variable {F : Type} [LinearOrderedField F] [FloorRing F] {R : Type}

open DelayLineEffect

/-- A store at the cursor of the base delay unit after the voice loop replaces
whatever the voices stored there. -/
theorem chorusVoices_store (lib : Library F R) (numOfVoices : Int) (chorDepth : F)
    (channel count : Nat) (u : DelayLineEffect F × DelayLineEffect F) (w : F) :
    (chorusVoices lib numOfVoices chorDepth channel count u).1.store w = u.1.store w := by
  induction count with
  | zero => rfl
  | succ n ih =>
    have hstep : ∀ v : DelayLineEffect F × DelayLineEffect F,
        (chorusVoice lib numOfVoices chorDepth channel n v).1.store w = v.1.store w := by
      intro v
      by_cases h2 : numOfVoices + 2 = 2
      · simp only [chorusVoice, h2, if_true]
        exact store_store _ _ _
      · simp only [chorusVoice, h2, if_false]
        exact store_store _ _ _
    simp only [chorusVoices]
    rw [hstep]
    exact ih

/-- The base delay unit after the chorus path: the stores of the voices are
replaced by the feedback write of line 346. -/
theorem case3_delay (lib : Library F R) (cs : ChainSettings F) (channel sample : Nat) (inp : F)
    (s : BlockState F R) :
    (case3 lib cs channel sample inp s).p.delay
      = (s.p.delay.process s.p.delay.currentDelayTime).store
          (inp + (s.p.delay.process s.p.delay.currentDelayTime).out * cs.feedback) := by
  obtain ⟨_, f1, _, _⟩ := chorusVoices_frame lib cs.numOfVoices.toInt cs.chorDepth channel
    (cs.numOfVoices.toInt + 1).toNat
    (s.p.delay.process s.p.delay.currentDelayTime, { s.p.chorus with phaseOffset := 0 })
  simp only [case3]
  rw [f1, chorusVoices_store]

/-- With two voices the voice loop has one iteration: the chorus unit is read
once, with phase offset 0 and weight 1. -/
theorem case3_two_chorus_out (lib : Library F R) (cs : ChainSettings F) (channel sample : Nat)
    (inp : F) (s : BlockState F R) (h2 : cs.numOfVoices = NumOfVoices.Two) :
    (case3 lib cs channel sample inp s).p.chorus.out
      = (({ s.p.chorus with phaseOffset := 0, weight := 1 } : DelayLineEffect F).process
          (s.p.chorus.currentDelayTime
            + s.p.chorus.currentWidth
              * ({ s.p.chorus with phaseOffset := 0, weight := 1 } : DelayLineEffect F).lfo
                  lib.sinf lib.twoPi false)).out := by
  simp [case3, h2, NumOfVoices.toInt, chorusVoices, chorusVoice]

theorem sameBufferOffCursor_refl (e : DelayLineEffect F) : SameBufferOffCursor e e :=
  fun _ _ _ => rfl

theorem sameBufferOffCursor_trans (e e2 e3 : DelayLineEffect F) (h : SameBufferOffCursor e e2)
    (hk : KeepsCursor e e2) (h2 : SameBufferOffCursor e2 e3) : SameBufferOffCursor e e3 := by
  intro ch i hne
  rw [h2 ch i (by rw [hk.2.2.1, hk.2.1]; exact hne)]
  exact h ch i hne

theorem sameBufferOffCursor_process (e : DelayLineEffect F) (d : F) :
    SameBufferOffCursor e (e.process d) := by
  intro ch i _
  simp

theorem sameBufferOffCursor_store (e : DelayLineEffect F) (v : F) :
    SameBufferOffCursor e (e.store v) := by
  intro ch i hne
  have : ¬ (ch = e.delayData ∧ i = e.localWritePosition) := by
    intro hh
    rcases hne with h | h
    · exact h hh.1
    · exact h hh.2
  simp [store, this]

/-- The routing of a sample, on any path, changes the buffer of each unit at
most in the slot under its cursor. -/
theorem route_sameBufferOffCursor (lib : Library F R) (cs : ChainSettings F)
    (channel sample : Nat) (inp : F) (s : BlockState F R) :
    SameBufferOffCursor s.p.delay (route lib cs channel sample inp s).p.delay
      ∧ SameBufferOffCursor s.p.flanger (route lib cs channel sample inp s).p.flanger
      ∧ SameBufferOffCursor s.p.vibrato (route lib cs channel sample inp s).p.vibrato
      ∧ SameBufferOffCursor s.p.chorus (route lib cs channel sample inp s).p.chorus := by
  have hd : ∀ w : F, SameBufferOffCursor s.p.delay
      ((s.p.delay.process s.p.delay.currentDelayTime).store w) := fun w =>
    sameBufferOffCursor_trans _ _ _ (sameBufferOffCursor_process _ _) (keepsCursor_process _ _)
      (sameBufferOffCursor_store _ _)
  rw [route_eq]
  split_ifs
  · refine ⟨?_, ?_, sameBufferOffCursor_refl _, sameBufferOffCursor_refl _⟩
    · rw [case1_delay]; exact hd _
    · rw [case1_flanger]
      exact sameBufferOffCursor_trans _ _ _ (sameBufferOffCursor_process _ _)
        (keepsCursor_process _ _) (sameBufferOffCursor_store _ _)
  · refine ⟨hd _, sameBufferOffCursor_refl _, ?_, sameBufferOffCursor_refl _⟩
    exact sameBufferOffCursor_trans _ _ _ (sameBufferOffCursor_process _ _)
      (keepsCursor_process _ _) (sameBufferOffCursor_store _ _)
  · refine ⟨?_, sameBufferOffCursor_refl _, sameBufferOffCursor_refl _, ?_⟩
    · rw [case3_delay]; exact hd _
    · obtain ⟨_, _, a3, a4⟩ := chorusVoices_frame lib cs.numOfVoices.toInt cs.chorDepth channel
        (cs.numOfVoices.toInt + 1).toNat
        (s.p.delay.process s.p.delay.currentDelayTime, { s.p.chorus with phaseOffset := 0 })
      intro ch i hne
      have hcur : ¬ (ch = s.p.chorus.delayData ∧ i = s.p.chorus.localWritePosition) := by
        intro hh
        rcases hne with h | h
        · exact h hh.1
        · exact h hh.2
      simp only [case3]
      have e1 := a3.2.1
      have e2 := a3.2.2.1
      simp only at e1 e2
      simp only [store, e1, e2, hcur, if_false]
      rw [a4]
  · exact ⟨hd _, sameBufferOffCursor_refl _, sameBufferOffCursor_refl _,
      sameBufferOffCursor_refl _⟩

/-- One iteration of the sample loop, on any path: each unit keeps its block
constants and its row pointer, and its buffer changes at most in the slot
under its cursor. -/
theorem sampleBody_units (lib : Library F R) (cs : ChainSettings F) (ch i : Nat)
    (s : BlockState F R) :
    (SameBlockConstants s.p.delay (sampleBody lib cs ch i s).p.delay
        ∧ (sampleBody lib cs ch i s).p.delay.delayData = s.p.delay.delayData
        ∧ SameBufferOffCursor s.p.delay (sampleBody lib cs ch i s).p.delay)
      ∧ (SameBlockConstants s.p.flanger (sampleBody lib cs ch i s).p.flanger
        ∧ (sampleBody lib cs ch i s).p.flanger.delayData = s.p.flanger.delayData
        ∧ SameBufferOffCursor s.p.flanger (sampleBody lib cs ch i s).p.flanger)
      ∧ (SameBlockConstants s.p.vibrato (sampleBody lib cs ch i s).p.vibrato
        ∧ (sampleBody lib cs ch i s).p.vibrato.delayData = s.p.vibrato.delayData
        ∧ SameBufferOffCursor s.p.vibrato (sampleBody lib cs ch i s).p.vibrato)
      ∧ (SameBlockConstants s.p.chorus (sampleBody lib cs ch i s).p.chorus
        ∧ (sampleBody lib cs ch i s).p.chorus.delayData = s.p.chorus.delayData
        ∧ SameBufferOffCursor s.p.chorus (sampleBody lib cs ch i s).p.chorus) := by
  obtain ⟨k1, k2, k3, k4⟩ := route_keepsCursor lib cs ch i (s.buffer ch i)
    { s with p := { s.p with
        dryRevBufferCopy := addSample s.p.dryRevBufferCopy ch i (s.buffer ch i) } }
  obtain ⟨b1, b2, b3, b4⟩ := route_sameBufferOffCursor lib cs ch i (s.buffer ch i)
    { s with p := { s.p with
        dryRevBufferCopy := addSample s.p.dryRevBufferCopy ch i (s.buffer ch i) } }
  have key : ∀ (e e2 : DelayLineEffect F) (f : F), KeepsCursor e e2 → SameBufferOffCursor e e2 →
      SameBlockConstants e (e2.calculatePositionAndPhase f)
        ∧ (e2.calculatePositionAndPhase f).delayData = e.delayData
        ∧ SameBufferOffCursor e (e2.calculatePositionAndPhase f) := by
    intro e e2 f hk hb
    refine ⟨sameBlockConstants_trans _ _ _ hk.1 (sameBlockConstants_calc _ _), ?_, ?_⟩
    · rw [calc_delayData]; exact hk.2.2.1
    · intro c j hne
      rw [calc_delayBuffer]
      exact hb c j hne
  simp only [sampleBody, advance]
  exact ⟨key _ _ _ k1 b1, key _ _ _ k2 b2, key _ _ _ k3 b3, key _ _ _ k4 b4⟩

/-- With both reverb flags true the output of `processBlock` on an input
channel is the per-sample mix of each iteration. -/
theorem processBlock_mix (lib : Library F R) (cs : ChainSettings F) (numSamples : Nat)
    (s : BlockState F R) (ch i : Nat) (hd : cs.dryReverbOn = true) (hw : cs.wetReverbOn = true)
    (hch : ch < s.p.totalNumInputChannels) (hi : i < numSamples) :
    (processBlock lib cs numSamples s).buffer ch i
      = s.buffer ch i * cs.dryLevel
        + combinedOutput cs
            (sampleBody lib cs ch i
              (iterationState lib cs numSamples
                { p := blockSetup lib cs s.p, buffer := s.buffer } ch i)) * cs.wetLevel := by
  obtain ⟨_, _, _, _, b5, _⟩ := block_cells lib cs numSamples s ch i hch hi
  rw [if_pos hw] at b5
  rw [← b5]
  simp only [processBlock, clearExtraChannels, finalMix, hd, hw]
  simp [Nat.not_le.2 hch]

/-- The combined value on the chorus path. -/
theorem combinedOutput_chorus (cs : ChainSettings F) (r : BlockState F R)
    (hf : cs.flangerOn = true) (hv : cs.vibratoOn = true) (hc : cs.chorusOn = false) :
    combinedOutput cs r = r.p.delay.out + cs.chorDepth * r.p.chorus.out := by
  simp [combinedOutput, hf, hv, hc]

/-- The outputs of the base delay unit and of the chorus unit after an
iteration of the sample loop on the chorus path with two voices. -/
theorem sampleBody_chorus_two (lib : Library F R) (cs : ChainSettings F) (ch i : Nat)
    (s : BlockState F R) (hf : cs.flangerOn = true) (hv : cs.vibratoOn = true)
    (hc : cs.chorusOn = false) (h2 : cs.numOfVoices = NumOfVoices.Two) :
    (sampleBody lib cs ch i s).p.delay.out = (s.p.delay.process s.p.delay.currentDelayTime).out
      ∧ (sampleBody lib cs ch i s).p.chorus.out
        = (({ s.p.chorus with phaseOffset := 0, weight := 1 } : DelayLineEffect F).process
            (s.p.chorus.currentDelayTime
              + s.p.chorus.currentWidth
                * ({ s.p.chorus with phaseOffset := 0, weight := 1 } : DelayLineEffect F).lfo
                    lib.sinf lib.twoPi false)).out := by
  have hr : ∀ (inp : F) (st : BlockState F R),
      route lib cs ch i inp st = case3 lib cs ch i inp st := by
    intro inp st
    rw [route_eq]
    simp [hf, hv, hc]
  simp only [sampleBody, advance, calc_out, hr]
  refine ⟨?_, ?_⟩
  · rw [case3_delay, store_out]
  · rw [case3_two_chorus_out lib cs ch i _ _ h2]

theorem truncToInt_one : truncToInt (1 : F) = 1 := by
  simp [truncToInt]

/-- The base delay unit and the chorus unit of `chorusStart` when the sample
loop of channel 0 starts. -/
theorem chorusStart_channel0 :
    ((channelStart 0 chorusStart).p.delay.currentDelayTime = (((1 : Int)) : ℚ)
        ∧ (channelStart 0 chorusStart).p.delay.bufferSize = 4
        ∧ (channelStart 0 chorusStart).p.delay.localWritePosition = 0
        ∧ (channelStart 0 chorusStart).p.delay.writePosition = 0
        ∧ (channelStart 0 chorusStart).p.delay.delayData = 0
        ∧ (channelStart 0 chorusStart).p.delay.delayBuffer = rampUnit.delayBuffer)
      ∧ ((channelStart 0 chorusStart).p.chorus.currentDelayTime = 1
        ∧ (channelStart 0 chorusStart).p.chorus.currentWidth = 2
        ∧ (channelStart 0 chorusStart).p.chorus.bufferSize = 4
        ∧ (channelStart 0 chorusStart).p.chorus.localWritePosition = 0
        ∧ (channelStart 0 chorusStart).p.chorus.writePosition = 0
        ∧ (channelStart 0 chorusStart).p.chorus.delayData = 0
        ∧ (channelStart 0 chorusStart).p.chorus.delayBuffer = rampUnit.delayBuffer) := by
  simp [chorusStart, channelStart, blockSetup, prepareSmoothing, prepareDelayBuffer,
    chorusSettings, chorusDemo, defaultSettings, SmoothedValue.getTargetValue,
    SmoothedValue.setTargetValue, truncToInt_one, flangerDemo, rampUnit, blankUnit]

/-- With the zero function for `sinf` the LFO value is 1/2. -/
theorem flatLibrary_lfo (e : DelayLineEffect ℚ) (v : Bool) :
    e.lfo flatLibrary.sinf flatLibrary.twoPi v = 1 / 2 := by
  simp [lfo, flatLibrary]

/-- A unit over the rationals with four slots, the cursor on slot 0, delay 1
and width 2, read on the chorus path with two voices and the flat library:
the base delay tap is slot 3 and the chorus tap is slot 2. -/
theorem chorus_two_outs (ch i : Nat) (s : BlockState ℚ Unit)
    (d1 : s.p.delay.currentDelayTime = (((1 : Int)) : ℚ)) (d2 : s.p.delay.bufferSize = 4)
    (d3 : s.p.delay.localWritePosition = 0)
    (c1 : s.p.chorus.currentDelayTime = 1) (c2 : s.p.chorus.currentWidth = 2)
    (c3 : s.p.chorus.bufferSize = 4) (c4 : s.p.chorus.localWritePosition = 0) :
    (sampleBody flatLibrary chorusSettings ch i s).p.delay.out
        = s.p.delay.delayBuffer s.p.delay.delayData 3
      ∧ (sampleBody flatLibrary chorusSettings ch i s).p.chorus.out
        = s.p.chorus.delayBuffer s.p.chorus.delayData 2 := by
  obtain ⟨o1, o2⟩ := sampleBody_chorus_two flatLibrary chorusSettings ch i s rfl rfl rfl rfl
  refine ⟨?_, ?_⟩
  · rw [o1, d1, process_out_intDelay _ 1 (by rw [d3]) (by rw [d3, d2]; decide) (by decide)
      (by rw [d2]; decide), d3, d2]
    rfl
  · have hd : s.p.chorus.currentDelayTime + s.p.chorus.currentWidth
          * ({ s.p.chorus with phaseOffset := 0, weight := 1 } : DelayLineEffect ℚ).lfo
              flatLibrary.sinf flatLibrary.twoPi false = (((2 : Int)) : ℚ) := by
      rw [flatLibrary_lfo, c1, c2]; norm_num
    rw [o2, hd, process_out_intDelay _ 2 (by simp only; rw [c4]) (by simp only; rw [c4, c3]; decide)
      (by decide) (by simp only; rw [c3]; decide)]
    simp only
    rw [c4, c3]
    rfl

/-- The base delay unit when the sample loop of a channel starts. -/
theorem channelStart_delay (ch : Nat) (s : BlockState F R) :
    (channelStart ch s).p.delay
      = { s.p.delay with delayData := ch, localWritePosition := s.p.delay.writePosition } := by
  simp [channelStart, prepareDelayBuffer]

/-- The chorus unit when the sample loop of a channel starts. -/
theorem channelStart_chorus (ch : Nat) (s : BlockState F R) :
    (channelStart ch s).p.chorus
      = { s.p.chorus with
          delayData := ch
          localWritePosition := s.p.chorus.writePosition
          phase := s.p.chorus.lfoPhase } := by
  simp [channelStart, prepareDelayBuffer]

end ChorusFacts

/-! ## Claims about the chorus output -/

section ChorusClaims

variable {F : Type} [LinearOrderedField F] [FloorRing F] {R : Type}

open DelayLineEffect

/-- C13, as stated, fails: a stereo block on the chorus path with two voices,
dry level 0, wet level 1, depth 1 and both reverb flags true, base delay
output 40 and chorus output 30 on both channels. The output is 70 on channel
0, not the base delay output 40, and 70 on channel 1, not
`chorDepth * chorus.out` = 30. -/
theorem C13_hard_pan_counterexample :
    (processBlock flatLibrary chorusSettings 1 chorusDemo).buffer 0 0 = 70
      ∧ (sampleBody flatLibrary chorusSettings 0 0
          (iterationState flatLibrary chorusSettings 1 chorusStart 0 0)).p.delay.out = 40
      ∧ (processBlock flatLibrary chorusSettings 1 chorusDemo).buffer 1 0 = 70
      ∧ chorusSettings.chorDepth
          * (sampleBody flatLibrary chorusSettings 1 0
              (iterationState flatLibrary chorusSettings 1 chorusStart 1 0)).p.chorus.out = 30 := by
  obtain ⟨⟨d1, d2, d3, d4, d5, d6⟩, ⟨c1, c2, c3, c4, c5, c6, c7⟩⟩ := chorusStart_channel0
  have e1 : ∀ ch : Nat, rampUnit.delayBuffer ch 3 = 40 := fun ch => by simp [rampUnit]
  have e2 : ∀ ch : Nat, rampUnit.delayBuffer ch 2 = 30 := fun ch => by simp [rampUnit]
  have hmix : ∀ ch : Nat, ch < 2 →
      (processBlock flatLibrary chorusSettings 1 chorusDemo).buffer ch 0
        = chorusDemo.buffer ch 0 * chorusSettings.dryLevel
          + combinedOutput chorusSettings
              (sampleBody flatLibrary chorusSettings ch 0
                (iterationState flatLibrary chorusSettings 1 chorusStart ch 0))
            * chorusSettings.wetLevel := fun ch hch =>
    processBlock_mix flatLibrary chorusSettings 1 chorusDemo ch 0 rfl rfl hch (by decide)
  -- channel 0
  have hit0 : iterationState flatLibrary chorusSettings 1 chorusStart 0 0
      = channelStart 0 chorusStart := rfl
  obtain ⟨o1, o2⟩ := chorus_two_outs 0 0 (channelStart 0 chorusStart) d1 d2 d3 c1 c2 c3 c4
  rw [d6, d5, e1] at o1
  rw [c7, c6, e2] at o2
  -- channel 1
  have hit1 : iterationState flatLibrary chorusSettings 1 chorusStart 1 0
      = channelStart 1 (sampleBody flatLibrary chorusSettings 0 0 (channelStart 0 chorusStart)) :=
    rfl
  obtain ⟨⟨⟨k1, k2, _, k4, _, _⟩, _, kb⟩, _, _, ⟨⟨m1, m2, m3, m4, _, _⟩, _, mb⟩⟩ :=
    sampleBody_units flatLibrary chorusSettings 0 0 (channelStart 0 chorusStart)
  obtain ⟨p1, p2⟩ := chorus_two_outs 1 0
    (channelStart 1 (sampleBody flatLibrary chorusSettings 0 0 (channelStart 0 chorusStart)))
    (by rw [channelStart_delay]; simp only; rw [k2, d1])
    (by rw [channelStart_delay]; simp only; rw [k1, d2])
    (by rw [channelStart_delay]; simp only; rw [k4, d4])
    (by rw [channelStart_chorus]; simp only; rw [m2, c1])
    (by rw [channelStart_chorus]; simp only; rw [m3, c2])
    (by rw [channelStart_chorus]; simp only; rw [m1, c3])
    (by rw [channelStart_chorus]; simp only; rw [m4, c5])
  rw [channelStart_delay] at p1
  rw [channelStart_chorus] at p2
  simp only at p1 p2
  rw [kb 1 3 (Or.inl (by rw [d5]; decide)), d6, e1] at p1
  rw [mb 1 2 (Or.inl (by rw [c6]; decide)), c7, e2] at p2
  have hb0 := hmix 0 (by decide)
  have hb1 := hmix 1 (by decide)
  rw [hit0, combinedOutput_chorus _ _ rfl rfl rfl, o1, o2] at hb0
  rw [hit1, combinedOutput_chorus _ _ rfl rfl rfl, p1, p2] at hb1
  refine ⟨?_, by rw [hit0]; exact o1, ?_, ?_⟩
  · rw [hb0]; norm_num [chorusSettings, chorusDemo]
  · rw [hb1]; norm_num [chorusSettings, chorusDemo]
  · rw [hit1, p2]; norm_num [chorusSettings]

/-- C13, amended: on the chorus path with two voices, a stereo buffer, both
reverb flags true, dry level 0 and wet level 1, the output sample of channel 0
and of channel 1 alike is `delay.out + chorDepth * chorus.out` of that
channel. The hard-pan value of line 330 is only stored in the base delay
buffer under the cursor, where the feedback write of line 346 replaces it:
the base delay unit after the path is the one of the plain feedback write. -/
theorem C13_two_voice_chorus_output (lib : Library F R) (cs : ChainSettings F)
    (numSamples : Nat) (s st : BlockState F R) (inp : F) (sample channel : Nat)
    (hf : cs.flangerOn = true) (hv : cs.vibratoOn = true) (hc : cs.chorusOn = false)
    (_h2 : cs.numOfVoices = NumOfVoices.Two)
    (hd : cs.dryReverbOn = true) (hw : cs.wetReverbOn = true)
    (hdl : cs.dryLevel = 0) (hwl : cs.wetLevel = 1)
    (hn : s.p.totalNumInputChannels = 2) (hi : sample < numSamples) :
    (processBlock lib cs numSamples s).buffer 0 sample
        = (sampleBody lib cs 0 sample
            (iterationState lib cs numSamples { p := blockSetup lib cs s.p, buffer := s.buffer }
              0 sample)).p.delay.out
          + cs.chorDepth
            * (sampleBody lib cs 0 sample
                (iterationState lib cs numSamples
                  { p := blockSetup lib cs s.p, buffer := s.buffer } 0 sample)).p.chorus.out
      ∧ (processBlock lib cs numSamples s).buffer 1 sample
        = (sampleBody lib cs 1 sample
            (iterationState lib cs numSamples { p := blockSetup lib cs s.p, buffer := s.buffer }
              1 sample)).p.delay.out
          + cs.chorDepth
            * (sampleBody lib cs 1 sample
                (iterationState lib cs numSamples
                  { p := blockSetup lib cs s.p, buffer := s.buffer } 1 sample)).p.chorus.out
      ∧ (case3 lib cs channel sample inp st).p.delay
        = (st.p.delay.process st.p.delay.currentDelayTime).store
            (inp + (st.p.delay.process st.p.delay.currentDelayTime).out * cs.feedback) := by
  refine ⟨?_, ?_, case3_delay lib cs channel sample inp st⟩
  · rw [processBlock_mix lib cs numSamples s 0 sample hd hw (by omega) hi,
      combinedOutput_chorus _ _ hf hv hc, hdl, hwl]
    ring
  · rw [processBlock_mix lib cs numSamples s 1 sample hd hw (by omega) hi,
      combinedOutput_chorus _ _ hf hv hc, hdl, hwl]
    ring

/-- C13, amended, at the stereo block of the counterexample: both channels
carry `delay.out + chorDepth * chorus.out`. -/
theorem C13_two_voice_chorus_output_witness :
    (processBlock flatLibrary chorusSettings 1 chorusDemo).buffer 0 0
        = (sampleBody flatLibrary chorusSettings 0 0
            (iterationState flatLibrary chorusSettings 1
              { p := blockSetup flatLibrary chorusSettings chorusDemo.p, buffer := chorusDemo.buffer }
              0 0)).p.delay.out
          + chorusSettings.chorDepth
            * (sampleBody flatLibrary chorusSettings 0 0
                (iterationState flatLibrary chorusSettings 1
                  { p := blockSetup flatLibrary chorusSettings chorusDemo.p, buffer := chorusDemo.buffer }
                  0 0)).p.chorus.out
      ∧ (processBlock flatLibrary chorusSettings 1 chorusDemo).buffer 1 0
        = (sampleBody flatLibrary chorusSettings 1 0
            (iterationState flatLibrary chorusSettings 1
              { p := blockSetup flatLibrary chorusSettings chorusDemo.p, buffer := chorusDemo.buffer }
              1 0)).p.delay.out
          + chorusSettings.chorDepth
            * (sampleBody flatLibrary chorusSettings 1 0
                (iterationState flatLibrary chorusSettings 1
                  { p := blockSetup flatLibrary chorusSettings chorusDemo.p, buffer := chorusDemo.buffer }
                  1 0)).p.chorus.out :=
  ⟨(C13_two_voice_chorus_output flatLibrary chorusSettings 1 chorusDemo chorusDemo 7 0 0
      rfl rfl rfl rfl rfl rfl rfl rfl rfl (by decide)).1,
    (C13_two_voice_chorus_output flatLibrary chorusSettings 1 chorusDemo chorusDemo 7 0 0
      rfl rfl rfl rfl rfl rfl rfl rfl rfl (by decide)).2.1⟩

end ChorusClaims

/-! ## Zero depth -/

section DepthFacts

variable {F : Type} [LinearOrderedField F] [FloorRing F] {R : Type}

open DelayLineEffect

/-- On every path `delay.out` after an iteration of the sample loop is the
output that `process` computes on the base delay unit. -/
theorem sampleBody_delay_out (lib : Library F R) (cs : ChainSettings F) (ch i : Nat)
    (s : BlockState F R) :
    (sampleBody lib cs ch i s).p.delay.out = (s.p.delay.process s.p.delay.currentDelayTime).out := by
  simp only [sampleBody, advance, calc_out]
  rw [route_eq]
  split_ifs
  · rw [case1_delay, store_out]
  · rfl
  · rw [case3_delay, store_out]
  · rfl

/-- The base delay unit of `chorusDemo` when the sample loop of channel 0
starts, for settings with a delay time of 1 s: the tap of one sample of delay
is slot 3, which holds 40. -/
theorem chorusDemo_delay_tap (cs : ChainSettings ℚ) (h : cs.delayTime = 1) :
    (sampleBody flatLibrary cs 0 0
      (iterationState flatLibrary cs 1
        { p := blockSetup flatLibrary cs chorusDemo.p, buffer := chorusDemo.buffer }
        0 0)).p.delay.out = 40 := by
  have hit : iterationState flatLibrary cs 1
      { p := blockSetup flatLibrary cs chorusDemo.p, buffer := chorusDemo.buffer } 0 0
      = channelStart 0
          { p := blockSetup flatLibrary cs chorusDemo.p, buffer := chorusDemo.buffer } := rfl
  have hf : (channelStart 0
        ({ p := blockSetup flatLibrary cs chorusDemo.p, buffer := chorusDemo.buffer } :
          BlockState ℚ Unit)).p.delay.currentDelayTime = (((1 : Int)) : ℚ)
      ∧ (channelStart 0
        ({ p := blockSetup flatLibrary cs chorusDemo.p, buffer := chorusDemo.buffer } :
          BlockState ℚ Unit)).p.delay.bufferSize = 4
      ∧ (channelStart 0
        ({ p := blockSetup flatLibrary cs chorusDemo.p, buffer := chorusDemo.buffer } :
          BlockState ℚ Unit)).p.delay.localWritePosition = 0
      ∧ (channelStart 0
        ({ p := blockSetup flatLibrary cs chorusDemo.p, buffer := chorusDemo.buffer } :
          BlockState ℚ Unit)).p.delay.delayData = 0
      ∧ (channelStart 0
        ({ p := blockSetup flatLibrary cs chorusDemo.p, buffer := chorusDemo.buffer } :
          BlockState ℚ Unit)).p.delay.delayBuffer = rampUnit.delayBuffer := by
    simp [channelStart, blockSetup, prepareSmoothing, prepareDelayBuffer, chorusDemo, h,
      SmoothedValue.getTargetValue, SmoothedValue.setTargetValue, truncToInt_one, flangerDemo,
      rampUnit, blankUnit]
  obtain ⟨d1, d2, d3, d5, d6⟩ := hf
  rw [hit, sampleBody_delay_out, d1, process_out_intDelay _ 1 (by rw [d3])
    (by rw [d3, d2]; decide) (by decide) (by rw [d2]; decide), d6, d5, d3, d2]
  simp [rampUnit]

end DepthFacts

/-! ## Claims about zero depth -/

section DepthClaims

variable {F : Type} [LinearOrderedField F] [FloorRing F] {R : Type}

open DelayLineEffect

/-- C14, as stated, fails on the vibrato path: with `vibDepth` 0, dry level 0
and wet level 1 the output sample is 0, whereas the plain delay path gives the
base delay output 40 for the same sample and the same state. -/
theorem C14_vibrato_zero_depth_counterexample :
    (processBlock flatLibrary vibratoZeroSettings 1 chorusDemo).buffer 0 0 = 0
      ∧ combinedOutput vibratoZeroSettings
          (sampleBody flatLibrary vibratoZeroSettings 0 0
            (iterationState flatLibrary vibratoZeroSettings 1
              { p := blockSetup flatLibrary vibratoZeroSettings chorusDemo.p,
                buffer := chorusDemo.buffer }
              0 0)) = 0
      ∧ (sampleBody flatLibrary vibratoZeroSettings 0 0
          (iterationState flatLibrary vibratoZeroSettings 1
            { p := blockSetup flatLibrary vibratoZeroSettings chorusDemo.p,
              buffer := chorusDemo.buffer }
            0 0)).p.delay.out = 40
      ∧ (processBlock flatLibrary plainSettings 1 chorusDemo).buffer 0 0 = 40 := by
  have hv : ∀ r : BlockState ℚ Unit, combinedOutput vibratoZeroSettings r = 0 := by
    intro r
    simp [combinedOutput, vibratoZeroSettings, chorusSettings, defaultSettings]
  have hp : ∀ r : BlockState ℚ Unit, combinedOutput plainSettings r = r.p.delay.out := by
    intro r
    simp [combinedOutput, plainSettings, chorusSettings, defaultSettings]
  refine ⟨?_, hv _, chorusDemo_delay_tap vibratoZeroSettings rfl, ?_⟩
  · rw [processBlock_mix flatLibrary vibratoZeroSettings 1 chorusDemo 0 0 rfl rfl (by decide)
      (by decide), hv]
    norm_num [vibratoZeroSettings, chorusSettings]
  · rw [processBlock_mix flatLibrary plainSettings 1 chorusDemo 0 0 rfl rfl (by decide)
      (by decide), hp, chorusDemo_delay_tap plainSettings rfl]
    norm_num [plainSettings, chorusSettings]

/-- C14, amended: with `flangDepth` 0 the flanger path, and with `chorDepth` 0
the chorus path, leave the same wet scratch buffer and the same live buffer as
the plain delay path does for the same sample and state: their combined value
is the base delay output `delay.out`. On the vibrato path with `vibDepth` 0
the combined value is 0: the wet scratch sample is unchanged and the live
sample, when `wetReverbOn` is true, becomes `input * dryLevel`. -/
theorem C14_zero_depth (lib : Library F R) (cs : ChainSettings F) (channel sample : Nat)
    (inp : F) (s : BlockState F R) :
    ((case1 lib { cs with flangDepth := 0 } channel sample inp s).p.wetRevBufferCopy
          = (case0 cs channel sample inp s).p.wetRevBufferCopy
        ∧ (case1 lib { cs with flangDepth := 0 } channel sample inp s).buffer
          = (case0 cs channel sample inp s).buffer)
      ∧ ((case3 lib { cs with chorDepth := 0 } channel sample inp s).p.wetRevBufferCopy
          = (case0 cs channel sample inp s).p.wetRevBufferCopy
        ∧ (case3 lib { cs with chorDepth := 0 } channel sample inp s).buffer
          = (case0 cs channel sample inp s).buffer)
      ∧ ((case2 lib { cs with vibDepth := 0 } channel sample inp s).p.wetRevBufferCopy
          = s.p.wetRevBufferCopy
        ∧ (case2 lib { cs with vibDepth := 0 } channel sample inp s).buffer
          = (if cs.wetReverbOn then
              setSample s.buffer channel sample (s.buffer channel sample * cs.dryLevel)
            else s.buffer)) := by
  obtain ⟨_, f1, _, _⟩ := chorusVoices_frame lib cs.numOfVoices.toInt 0 channel
    (cs.numOfVoices.toInt + 1).toNat
    (s.p.delay.process s.p.delay.currentDelayTime, { s.p.chorus with phaseOffset := 0 })
  simp only at f1
  refine ⟨⟨?_, ?_⟩, ⟨?_, ?_⟩, ⟨?_, ?_⟩⟩
  · simp [case1, case0]
  · simp [case1, case0]
  · simp [case3, case0, f1]
  · simp [case3, case0, f1]
  · funext ch i
    simp [case2, addSample]
  · simp [case2]

end DepthClaims

/-! ## Silence -/

section SilenceFacts

variable {F : Type} [LinearOrderedField F] [FloorRing F] {R : Type}

open DelayLineEffect

/-- From a read position inside the buffer the four taps of the cubic are
inside the buffer. -/
theorem tapIndices_in_range (e : DelayLineEffect F) (hc : 1 ≤ e.bufferSize)
    (h0 : 0 ≤ e.localReadPosition) (h1 : e.localReadPosition < e.bufferSize) :
    (0 ≤ e.tapIndex0 ∧ e.tapIndex0 < e.bufferSize)
      ∧ (0 ≤ e.tapIndex1 ∧ e.tapIndex1 < e.bufferSize)
      ∧ (0 ≤ e.tapIndex2 ∧ e.tapIndex2 < e.bufferSize)
      ∧ (0 ≤ e.tapIndex3 ∧ e.tapIndex3 < e.bufferSize) := by
  have hpos : 0 < e.bufferSize := by omega
  refine ⟨⟨?_, ?_⟩, ⟨?_, ?_⟩, ⟨?_, ?_⟩, ⟨?_, ?_⟩⟩
  · exact Int.tmod_nonneg _ (by omega)
  · exact Int.tmod_lt_of_pos _ hpos
  · simp only [tapIndex1]; omega
  · simp only [tapIndex1]; omega
  · exact Int.tmod_nonneg _ (by omega)
  · exact Int.tmod_lt_of_pos _ hpos
  · exact Int.tmod_nonneg _ (by omega)
  · exact Int.tmod_lt_of_pos _ hpos

/-- A silent unit read at a delay of at most its buffer size gives 0. -/
theorem process_out_quiet (e : DelayLineEffect F) (d : F) (hq : Quiet e)
    (hd : d ≤ (e.bufferSize : F)) : (e.process d).out = 0 := by
  obtain ⟨hz, hc, hl⟩ := hq
  have hcF : (0 : F) < (e.bufferSize : F) := by
    have : (0 : Int) < e.bufferSize := by omega
    exact_mod_cast this
  have hlF : (0 : F) ≤ (e.localWritePosition : F) := by exact_mod_cast hl
  have hx : (0 : F) ≤ (e.localWritePosition : F) - d + (e.bufferSize : F) := by linarith
  have h0 := fmodf_nonneg _ _ hx hcF
  have h1 := fmodf_lt _ _ hx hcF
  rw [process_out]
  split_ifs with hg
  · rfl
  · obtain ⟨t0, t1, t2, t3⟩ := tapIndices_in_range
      ({ e with
          out := 0
          readPosition :=
            fmodf ((e.localWritePosition : F) - d + (e.bufferSize : F)) (e.bufferSize : F)
          localReadPosition :=
            Int.floor (fmodf ((e.localWritePosition : F) - d + (e.bufferSize : F))
              (e.bufferSize : F)) } : DelayLineEffect F)
      hc (Int.floor_nonneg.2 h0) (Int.floor_lt.2 h1)
    simp only [cubicInterpolation]
    rw [hz _ _ t0.1 t0.2, hz _ _ t1.1 t1.2, hz _ _ t2.1 t2.2, hz _ _ t3.1 t3.2]
    ring

theorem quiet_process (e : DelayLineEffect F) (d : F) (hq : Quiet e) : Quiet (e.process d) := by
  obtain ⟨hz, hc, hl⟩ := hq
  refine ⟨?_, by simpa using hc, by simpa using hl⟩
  intro ch i h0 h1
  rw [process_delayBuffer]
  exact hz ch i h0 (by simpa using h1)

theorem quiet_store (e : DelayLineEffect F) (v : F) (hq : Quiet e) (hv : v = 0) :
    Quiet (e.store v) := by
  obtain ⟨hz, hc, hl⟩ := hq
  refine ⟨?_, hc, hl⟩
  intro ch i h0 h1
  simp only [store]
  split_ifs
  · exact hv
  · exact hz ch i h0 h1

theorem quiet_calc (e : DelayLineEffect F) (f : F) (hq : Quiet e) :
    Quiet (e.calculatePositionAndPhase f) := by
  obtain ⟨hz, hc, hl⟩ := hq
  refine ⟨?_, by simpa using hc, ?_⟩
  · intro ch i h0 h1
    rw [calc_delayBuffer]
    exact hz ch i h0 (by simpa using h1)
  · rw [calc_localWritePosition_eq]
    split_ifs <;> omega

/-- The LFO value has the form that `DelaysInRange` quantifies over. -/
theorem lfo_eq (lib : Library F R) (e : DelayLineEffect F) :
    e.lfo lib.sinf lib.twoPi false = 1 / 2 + 1 / 4 * lib.sinf (lib.twoPi * (e.phase + e.phaseOffset))
      ∧ e.lfo lib.sinf lib.twoPi true
        = 1 / 2 + 1 / 10 * lib.sinf (lib.twoPi * (e.phase + e.phaseOffset)) := by
  simp [lfo]

end SilenceFacts

/-! ## Silence across the router -/

section SilenceRoute

variable {F : Type} [LinearOrderedField F] [FloorRing F] {R : Type}

open DelayLineEffect

/-- A unit that differs from a silent unit only in scratch members is silent. -/
theorem quiet_of_keepsCursor (e e2 : DelayLineEffect F) (hk : KeepsCursor e e2)
    (hb : e2.delayBuffer = e.delayBuffer) (hq : Quiet e) : Quiet e2 := by
  obtain ⟨hz, hc, hl⟩ := hq
  obtain ⟨⟨k1, _⟩, k2, _⟩ := hk
  refine ⟨?_, by rw [k1]; exact hc, by rw [k2]; exact hl⟩
  intro ch i h0 h1
  rw [hb]
  exact hz ch i h0 (by rw [← k1]; exact h1)

/-- One chorus voice on silent units: the base unit stays silent and the
chorus unit reads 0. -/
theorem chorusVoice_quiet_core (lib : Library F R) (numOfVoices : Int) (chorDepth : F)
    (channel voice : Nat) (u : DelayLineEffect F × DelayLineEffect F)
    (hq1 : Quiet u.1) (ho : u.1.out = 0) (hq2 : Quiet u.2)
    (hr : ∀ y : F, u.2.currentDelayTime + u.2.currentWidth * (1 / 2 + 1 / 4 * lib.sinf y)
      ≤ (u.2.bufferSize : F)) :
    Quiet (chorusVoice lib numOfVoices chorDepth channel voice u).1
      ∧ (chorusVoice lib numOfVoices chorDepth channel voice u).2.out = 0 := by
  have key : ∀ c1 : DelayLineEffect F, KeepsCursor u.2 c1 → c1.delayBuffer = u.2.delayBuffer →
      (c1.process (c1.currentDelayTime + c1.currentWidth * c1.lfo lib.sinf lib.twoPi false)).out
        = 0 := by
    intro c1 hk hb
    apply process_out_quiet _ _ (quiet_of_keepsCursor _ _ hk hb hq2)
    rw [(lfo_eq lib c1).1, hk.1.2.1, hk.1.2.2.1, hk.1.1]
    exact hr _
  simp only [chorusVoice]
  split_ifs
  all_goals
    refine ⟨quiet_store _ _ hq1 ?_, key _ ⟨⟨rfl, rfl, rfl, rfl, rfl, rfl⟩, rfl, rfl, rfl⟩ rfl⟩
  all_goals
    first
      | exact ho
      | (apply mul_eq_zero_of_left
         refine key _ ?_ ?_
         · exact ⟨⟨rfl, rfl, rfl, rfl, rfl, rfl⟩, rfl, rfl, rfl⟩
         · rfl)
      | (apply mul_eq_zero_of_left
         apply mul_eq_zero_of_left
         refine key _ ?_ ?_
         · exact ⟨⟨rfl, rfl, rfl, rfl, rfl, rfl⟩, rfl, rfl, rfl⟩
         · rfl)

/-- One chorus voice on silent units: both units stay silent, both outputs
are 0 and the chorus delay stays in range. -/
theorem chorusVoice_quiet (lib : Library F R) (numOfVoices : Int) (chorDepth : F)
    (channel voice : Nat) (u : DelayLineEffect F × DelayLineEffect F)
    (hq1 : Quiet u.1) (ho : u.1.out = 0) (hq2 : Quiet u.2)
    (hr : ∀ y : F, u.2.currentDelayTime + u.2.currentWidth * (1 / 2 + 1 / 4 * lib.sinf y)
      ≤ (u.2.bufferSize : F)) :
    Quiet (chorusVoice lib numOfVoices chorDepth channel voice u).1
      ∧ (chorusVoice lib numOfVoices chorDepth channel voice u).1.out = 0
      ∧ Quiet (chorusVoice lib numOfVoices chorDepth channel voice u).2
      ∧ (chorusVoice lib numOfVoices chorDepth channel voice u).2.out = 0
      ∧ (∀ y : F, (chorusVoice lib numOfVoices chorDepth channel voice u).2.currentDelayTime
            + (chorusVoice lib numOfVoices chorDepth channel voice u).2.currentWidth
              * (1 / 2 + 1 / 4 * lib.sinf y)
          ≤ ((chorusVoice lib numOfVoices chorDepth channel voice u).2.bufferSize : F)) := by
  obtain ⟨_, f2, f3, f4⟩ := chorusVoice_frame lib numOfVoices chorDepth channel voice u
  obtain ⟨m1, m2⟩ := chorusVoice_quiet_core lib numOfVoices chorDepth channel voice u hq1 ho hq2 hr
  refine ⟨m1, f2.trans ho, quiet_of_keepsCursor _ _ f3 f4 hq2, m2, ?_⟩
  intro y
  rw [f3.1.2.1, f3.1.2.2.1, f3.1.1]
  exact hr y

/-- The voice loop on silent units: both units stay silent, the base output
stays 0 and, once a voice has run, the chorus output is 0. -/
theorem chorusVoices_quiet (lib : Library F R) (numOfVoices : Int) (chorDepth : F)
    (channel count : Nat) (u : DelayLineEffect F × DelayLineEffect F)
    (hq1 : Quiet u.1) (ho : u.1.out = 0) (hq2 : Quiet u.2)
    (hr : ∀ y : F, u.2.currentDelayTime + u.2.currentWidth * (1 / 2 + 1 / 4 * lib.sinf y)
      ≤ (u.2.bufferSize : F)) :
    Quiet (chorusVoices lib numOfVoices chorDepth channel count u).1
      ∧ (chorusVoices lib numOfVoices chorDepth channel count u).1.out = 0
      ∧ Quiet (chorusVoices lib numOfVoices chorDepth channel count u).2
      ∧ (0 < count → (chorusVoices lib numOfVoices chorDepth channel count u).2.out = 0)
      ∧ (∀ y : F, (chorusVoices lib numOfVoices chorDepth channel count u).2.currentDelayTime
            + (chorusVoices lib numOfVoices chorDepth channel count u).2.currentWidth
              * (1 / 2 + 1 / 4 * lib.sinf y)
          ≤ ((chorusVoices lib numOfVoices chorDepth channel count u).2.bufferSize : F)) := by
  induction count with
  | zero => exact ⟨hq1, ho, hq2, fun h => absurd h (lt_irrefl 0), hr⟩
  | succ n ih =>
    obtain ⟨a1, a2, a3, _, a5⟩ := ih
    obtain ⟨b1, b2, b3, b4, b5⟩ := chorusVoice_quiet lib numOfVoices chorDepth channel n
      (chorusVoices lib numOfVoices chorDepth channel n u) a1 a2 a3 a5
    exact ⟨b1, b2, b3, fun _ => b4, b5⟩

/-- The routing of a zero sample through silent units, on any path: the four
units stay silent and the combined effect value is 0. -/
theorem route_silent (lib : Library F R) (cs : ChainSettings F) (channel sample : Nat)
    (inp : F) (s : BlockState F R) (hs : Silent lib s.p) (hi : inp = 0) :
    Quiet (route lib cs channel sample inp s).p.delay
      ∧ Quiet (route lib cs channel sample inp s).p.flanger
      ∧ Quiet (route lib cs channel sample inp s).p.vibrato
      ∧ Quiet (route lib cs channel sample inp s).p.chorus
      ∧ combinedOutput cs (route lib cs channel sample inp s) = 0 := by
  obtain ⟨q1, q2, q3, q4, r1, r2, r3, r4⟩ := hs
  have h1 : (s.p.delay.process s.p.delay.currentDelayTime).out = 0 :=
    process_out_quiet _ _ q1 r1
  have h2 : (s.p.flanger.process (s.p.flanger.currentDelayTime
      + s.p.flanger.currentWidth * s.p.flanger.lfo lib.sinf lib.twoPi false)).out = 0 := by
    apply process_out_quiet _ _ q2
    rw [(lfo_eq lib _).1]
    exact r2 _
  have h3 : (s.p.vibrato.process (s.p.vibrato.currentDelayTime
      * s.p.vibrato.lfo lib.sinf lib.twoPi true)).out = 0 := by
    apply process_out_quiet _ _ q3
    rw [(lfo_eq lib _).2]
    exact r3 _
  have p1 := quiet_process _ s.p.delay.currentDelayTime q1
  rw [route_eq]
  unfold combinedOutput
  subst hi
  by_cases hf : cs.flangerOn = false
  · rw [if_pos hf, if_pos hf]
    simp only [case1, store_out, h1, h2]
    refine ⟨?_, ?_, q3, q4, by simp⟩
    · exact quiet_store _ _ (quiet_store _ _ p1 (by simp)) (by simp)
    · exact quiet_store _ _ (quiet_process _ _ q2) (by simp)
  · rw [if_neg hf, if_neg hf]
    by_cases hv : cs.vibratoOn = false
    · rw [if_pos hv, if_pos hv]
      simp only [case2, store_out, h1, h3]
      refine ⟨?_, q2, ?_, q4, by simp⟩
      · exact quiet_store _ _ p1 (by simp)
      · exact quiet_store _ _ (quiet_process _ _ q3) rfl
    · rw [if_neg hv, if_neg hv]
      by_cases hc : cs.chorusOn = false
      · rw [if_pos hc, if_pos hc]
        have hcount : 0 < (cs.numOfVoices.toInt + 1).toNat := by
          cases cs.numOfVoices <;> decide
        obtain ⟨a1, a2, a3, a4, _⟩ := chorusVoices_quiet lib cs.numOfVoices.toInt cs.chorDepth
          channel (cs.numOfVoices.toInt + 1).toNat
          (s.p.delay.process s.p.delay.currentDelayTime, { s.p.chorus with phaseOffset := 0 })
          p1 h1
          (quiet_of_keepsCursor s.p.chorus _ ⟨⟨rfl, rfl, rfl, rfl, rfl, rfl⟩, rfl, rfl, rfl⟩
            rfl q4)
          r4
        simp only [case3, store_out, a2, a4 hcount]
        refine ⟨?_, q2, q3, ?_, by simp⟩
        · exact quiet_store _ _ a1 (by simp)
        · exact quiet_store _ _ a3 rfl
      · rw [if_neg hc, if_neg hc]
        simp only [case0, store_out, h1]
        exact ⟨quiet_store _ _ p1 (by simp), q2, q3, q4, trivial⟩

end SilenceRoute

/-! ## Silence across the loops -/

section SilenceLoops

variable {F : Type} [LinearOrderedField F] [FloorRing F] {R : Type}

open DelayLineEffect

/-- The delay range only depends on the block constants of the four units. -/
theorem delaysInRange_of_same (lib : Library F R) (p p2 : MastersDelayAudioProcessor F R)
    (h1 : SameBlockConstants p.delay p2.delay) (h2 : SameBlockConstants p.flanger p2.flanger)
    (h3 : SameBlockConstants p.vibrato p2.vibrato) (h4 : SameBlockConstants p.chorus p2.chorus)
    (hr : DelaysInRange lib p) : DelaysInRange lib p2 := by
  obtain ⟨r1, r2, r3, r4⟩ := hr
  refine ⟨?_, ?_, ?_, ?_⟩
  · rw [h1.2.1, h1.1]; exact r1
  · intro y; rw [h2.2.1, h2.2.2.1, h2.1]; exact r2 y
  · intro y; rw [h3.2.1, h3.1]; exact r3 y
  · intro y; rw [h4.2.1, h4.2.2.1, h4.1]; exact r4 y

/-- A silent unit whose stored cursor is not negative is at rest, also after
a change that keeps the block constants and leaves it silent. -/
theorem rested_of_quiet (e e2 : DelayLineEffect F) (hk : SameBlockConstants e e2)
    (hq : Quiet e2) (hr : Rested e) : Rested e2 :=
  ⟨hq.1, hq.2.1, by rw [hk.2.2.2.1]; exact hr.2.2⟩

/-- One iteration of the sample loop on silent units with a zero input
sample: the units stay silent and at rest, the combined effect value is 0 and,
when `wetReverbOn` holds, the live sample is 0. -/
theorem sampleBody_silent (lib : Library F R) (cs : ChainSettings F) (ch i : Nat)
    (s : BlockState F R) (hs : Silent lib s.p) (hin : s.buffer ch i = 0) :
    Silent lib (sampleBody lib cs ch i s).p
      ∧ (SilentAtRest lib s.p → SilentAtRest lib (sampleBody lib cs ch i s).p)
      ∧ combinedOutput cs (sampleBody lib cs ch i s) = 0
      ∧ (cs.wetReverbOn = true → (sampleBody lib cs ch i s).buffer ch i = 0) := by
  have hs1 : Silent lib
      ({ s with p := { s.p with
          dryRevBufferCopy := addSample s.p.dryRevBufferCopy ch i (s.buffer ch i) } } :
        BlockState F R).p := hs
  obtain ⟨a1, a2, a3, a4, a5⟩ := route_silent lib cs ch i (s.buffer ch i) _ hs1 hin
  obtain ⟨⟨u1, _⟩, ⟨u2, _⟩, ⟨u3, _⟩, ⟨u4, _⟩⟩ := sampleBody_units lib cs ch i s
  have hr := delaysInRange_of_same lib s.p (sampleBody lib cs ch i s).p u1 u2 u3 u4 hs.2.2.2.2
  have hc : combinedOutput cs (sampleBody lib cs ch i s) = 0 := by
    rw [combinedOutput_sampleBody]; exact a5
  have hsil : Silent lib (sampleBody lib cs ch i s).p :=
    ⟨quiet_calc _ _ a1, quiet_calc _ _ a2, quiet_calc _ _ a3, quiet_calc _ _ a4, hr⟩
  refine ⟨hsil, ?_, hc, ?_⟩
  · intro hrest
    exact ⟨rested_of_quiet _ _ u1 hsil.1 hrest.1, rested_of_quiet _ _ u2 hsil.2.1 hrest.2.1,
      rested_of_quiet _ _ u3 hsil.2.2.1 hrest.2.2.1,
      rested_of_quiet _ _ u4 hsil.2.2.2.1 hrest.2.2.2.1, hr⟩
  · intro hw
    rw [(sampleBody_own_cell lib cs ch i s).2, if_pos hw, hin, hc]
    simp

/-- The sample loop on silent units, over zero input samples, leaves the units
silent and at rest. -/
theorem sampleLoop_silent (lib : Library F R) (cs : ChainSettings F) (ch k : Nat)
    (s : BlockState F R) (hs : Silent lib s.p) (hrest : SilentAtRest lib s.p)
    (hin : ∀ j : Nat, j < k → s.buffer ch j = 0) :
    Silent lib (sampleLoop lib cs ch k s).p ∧ SilentAtRest lib (sampleLoop lib cs ch k s).p := by
  induction k with
  | zero => exact ⟨hs, hrest⟩
  | succ n ih =>
    obtain ⟨i1, i2⟩ := ih (fun j hj => hin j (Nat.lt_succ_of_lt hj))
    have hcell : (sampleLoop lib cs ch n s).buffer ch n = 0 := by
      rw [sampleLoop_untouched lib cs (fun t => t.buffer)
        (fun t c i c2 j h => sampleBody_buffer_other lib cs t c i c2 j h) s ch n ch n
        (Or.inr le_rfl)]
      exact hin n (Nat.lt_succ_self n)
    obtain ⟨b1, b2, _, _⟩ := sampleBody_silent lib cs ch n (sampleLoop lib cs ch n s) i1 hcell
    exact ⟨b1, b2 i2⟩

/-- The call of `prepareDelayBuffer` turns a unit at rest into a silent unit
at rest. -/
theorem quiet_prepareDelayBuffer (e : DelayLineEffect F) (channel : Nat) (useLfo : Bool)
    (h : Rested e) :
    Quiet (e.prepareDelayBuffer channel useLfo) ∧ Rested (e.prepareDelayBuffer channel useLfo) := by
  obtain ⟨hz, hc, hw⟩ := h
  cases useLfo
  · exact ⟨⟨hz, hc, hw⟩, ⟨hz, hc, hw⟩⟩
  · exact ⟨⟨hz, hc, hw⟩, ⟨hz, hc, hw⟩⟩

/-- The four calls of `prepareDelayBuffer` turn units at rest into silent
units at rest. -/
theorem channelStart_silent (lib : Library F R) (channel : Nat) (s : BlockState F R)
    (h : SilentAtRest lib s.p) :
    Silent lib (channelStart channel s).p ∧ SilentAtRest lib (channelStart channel s).p := by
  obtain ⟨h1, h2, h3, h4, hr⟩ := h
  have hr2 : DelaysInRange lib (channelStart channel s).p :=
    delaysInRange_of_same lib s.p _ (sameBlockConstants_prepareDelayBuffer _ _ _)
      (sameBlockConstants_prepareDelayBuffer _ _ _) (sameBlockConstants_prepareDelayBuffer _ _ _)
      (sameBlockConstants_prepareDelayBuffer _ _ _) hr
  exact ⟨⟨(quiet_prepareDelayBuffer _ _ _ h1).1, (quiet_prepareDelayBuffer _ _ _ h2).1,
      (quiet_prepareDelayBuffer _ _ _ h3).1, (quiet_prepareDelayBuffer _ _ _ h4).1, hr2⟩,
    ⟨(quiet_prepareDelayBuffer _ _ _ h1).2, (quiet_prepareDelayBuffer _ _ _ h2).2,
      (quiet_prepareDelayBuffer _ _ _ h3).2, (quiet_prepareDelayBuffer _ _ _ h4).2, hr2⟩⟩

/-- The channel loop on units at rest, over zero input samples, leaves the
units at rest. -/
theorem channelLoop_silent (lib : Library F R) (cs : ChainSettings F) (numSamples k : Nat)
    (s : BlockState F R) (hrest : SilentAtRest lib s.p)
    (hin : ∀ c j : Nat, c < k → j < numSamples → s.buffer c j = 0) :
    SilentAtRest lib (channelLoop lib cs numSamples k s).p := by
  induction k with
  | zero => exact hrest
  | succ n ih =>
    have i1 := ih (fun c j hc hj => hin c j (Nat.lt_succ_of_lt hc) hj)
    obtain ⟨c1, c2⟩ := channelStart_silent lib n (channelLoop lib cs numSamples n s) i1
    have hcell : ∀ j : Nat, j < numSamples →
        (channelStart n (channelLoop lib cs numSamples n s)).buffer n j = 0 := by
      intro j hj
      have e := channelLoop_untouched lib cs (fun t => t.buffer)
        (fun t c i c2 j h => sampleBody_buffer_other lib cs t c i c2 j h)
        (fun _ _ => rfl) numSamples s n n j le_rfl
      exact e.trans (hin n j (Nat.lt_succ_self n) hj)
    exact (sampleLoop_silent lib cs n numSamples _ c1 c2 hcell).2

/-- In a block of zero input samples on units at rest, every iteration of the
sample loop starts with silent units and a zero input sample. -/
theorem iterationState_silent (lib : Library F R) (cs : ChainSettings F) (numSamples : Nat)
    (s : BlockState F R) (ch i : Nat) (hi : i < numSamples) (hrest : SilentAtRest lib s.p)
    (hin : ∀ c j : Nat, c ≤ ch → j < numSamples → s.buffer c j = 0) :
    Silent lib (iterationState lib cs numSamples s ch i).p
      ∧ (iterationState lib cs numSamples s ch i).buffer ch i = 0 := by
  have i1 := channelLoop_silent lib cs numSamples ch s hrest
    (fun c j hc hj => hin c j (Nat.le_of_lt hc) hj)
  obtain ⟨c1, c2⟩ := channelStart_silent lib ch (channelLoop lib cs numSamples ch s) i1
  have hbuf : ∀ j : Nat, j < numSamples →
      (channelStart ch (channelLoop lib cs numSamples ch s)).buffer ch j = 0 := by
    intro j hj
    have e := channelLoop_untouched lib cs (fun t => t.buffer)
      (fun t c i c2 j h => sampleBody_buffer_other lib cs t c i c2 j h)
      (fun _ _ => rfl) numSamples s ch ch j le_rfl
    exact e.trans (hin ch j le_rfl hj)
  refine ⟨(sampleLoop_silent lib cs ch i _ c1 c2
    (fun j hj => hbuf j (lt_trans hj hi))).1, ?_⟩
  have e := (loops_cell lib cs (fun t => t.buffer)
    (fun t c i c2 j h => sampleBody_buffer_other lib cs t c i c2 j h)
    (fun _ _ => rfl) numSamples s ch i).1
  exact e.trans (hin ch i le_rfl hi)

/-- The end of the block keeps the buffers of the four units. -/
theorem processBlock_buffers (lib : Library F R) (cs : ChainSettings F) (numSamples : Nat)
    (s : BlockState F R)
    (h : SilentAtRest lib (channelLoop lib cs numSamples s.p.totalNumInputChannels
      { p := blockSetup lib cs s.p, buffer := s.buffer }).p) :
    ZeroBuffer (processBlock lib cs numSamples s).p.delay
      ∧ ZeroBuffer (processBlock lib cs numSamples s).p.flanger
      ∧ ZeroBuffer (processBlock lib cs numSamples s).p.vibrato
      ∧ ZeroBuffer (processBlock lib cs numSamples s).p.chorus := by
  obtain ⟨h1, h2, h3, h4, _⟩ := h
  exact ⟨h1.1, h2.1, h3.1, h4.1⟩

end SilenceLoops

/-! ## Claim C15 -/

section SilenceClaims

variable {F : Type} [LinearOrderedField F] [FloorRing F] {R : Type}

open DelayLineEffect

/-- The state `silentDemo` is silent, and it is at rest with all delays in
range when the block setup for `silentSettings` has run. -/
theorem silentDemo_silent :
    Silent flatLibrary silentDemo.p
      ∧ SilentAtRest flatLibrary (blockSetup flatLibrary silentSettings silentDemo.p) := by
  have hq : Quiet silentUnit := ⟨fun _ _ _ _ => rfl, by decide, by decide⟩
  refine ⟨⟨hq, hq, hq, hq, ?_⟩, ?_⟩
  · simp [DelaysInRange, silentDemo, silentUnit, blankUnit, flatLibrary]
    norm_num
  · simp [SilentAtRest, Rested, ZeroBuffer, DelaysInRange, blockSetup, prepareSmoothing,
      silentDemo, silentSettings, chorusSettings, defaultSettings, chorusDemo, silentUnit,
      blankUnit, flatLibrary, SmoothedValue.setTargetValue, SmoothedValue.getTargetValue,
      truncToInt_one]
    norm_num

/-- C15: silence is preserved. With both reverb flags true, on every path and
for all settings: when the four units are silent (buffers all zero) with every
delay in range and the input sample of an iteration of the sample loop is 0,
the iteration leaves 0 as the output sample, the combined effect value is 0
and the four units are still silent. Hence a block whose input samples are all
0, processed on units at rest with zeroed buffers, has every sample of every
input channel of its output equal to 0 and leaves the four buffers all zero. -/
theorem C15_silence_preserved (lib : Library F R) (cs : ChainSettings F)
    (hd : cs.dryReverbOn = true) (hw : cs.wetReverbOn = true)
    (channel sample : Nat) (s : BlockState F R) (hs : Silent lib s.p)
    (hin : s.buffer channel sample = 0)
    (numSamples : Nat) (b : BlockState F R) (c j : Nat)
    (hc : c < b.p.totalNumInputChannels) (hj : j < numSamples)
    (hb : SilentAtRest lib (blockSetup lib cs b.p))
    (hzero : ∀ c2 j2 : Nat, c2 < b.p.totalNumInputChannels → j2 < numSamples →
      b.buffer c2 j2 = 0) :
    ((sampleBody lib cs channel sample s).buffer channel sample = 0
        ∧ combinedOutput cs (sampleBody lib cs channel sample s) = 0
        ∧ Silent lib (sampleBody lib cs channel sample s).p)
      ∧ (processBlock lib cs numSamples b).buffer c j = 0
      ∧ ZeroBuffer (processBlock lib cs numSamples b).p.delay
      ∧ ZeroBuffer (processBlock lib cs numSamples b).p.flanger
      ∧ ZeroBuffer (processBlock lib cs numSamples b).p.vibrato
      ∧ ZeroBuffer (processBlock lib cs numSamples b).p.chorus := by
  obtain ⟨a1, _, a3, a4⟩ := sampleBody_silent lib cs channel sample s hs hin
  refine ⟨⟨a4 hw, a3, a1⟩, ?_, ?_⟩
  · obtain ⟨i1, i2⟩ := iterationState_silent lib cs numSamples
      { p := blockSetup lib cs b.p, buffer := b.buffer } c j hj hb
      (fun c2 j2 h2 hj2 => hzero c2 j2 (lt_of_le_of_lt h2 hc) hj2)
    rw [processBlock_mix lib cs numSamples b c j hd hw hc hj,
      (sampleBody_silent lib cs c j _ i1 i2).2.2.1, hzero c j hc hj]
    simp
  · exact processBlock_buffers lib cs numSamples b
      (channelLoop_silent lib cs numSamples b.p.totalNumInputChannels
        { p := blockSetup lib cs b.p, buffer := b.buffer } hb
        (fun c2 j2 h2 hj2 => hzero c2 j2 h2 hj2))

/-- C15 at a concrete block: the stereo state `silentDemo` with the settings
`silentSettings` (chorus path), a block of two samples. -/
theorem C15_silence_preserved_witness :
    (Silent flatLibrary silentDemo.p
        ∧ SilentAtRest flatLibrary (blockSetup flatLibrary silentSettings silentDemo.p))
      ∧ (sampleBody flatLibrary silentSettings 0 0 silentDemo).buffer 0 0 = 0
      ∧ (processBlock flatLibrary silentSettings 2 silentDemo).buffer 1 1 = 0 :=
  ⟨silentDemo_silent,
    (C15_silence_preserved flatLibrary silentSettings rfl rfl 0 0 silentDemo silentDemo_silent.1
      rfl 2 silentDemo 1 1 (by decide) (by decide) silentDemo_silent.2
      (fun _ _ _ _ => rfl)).1.1,
    (C15_silence_preserved flatLibrary silentSettings rfl rfl 0 0 silentDemo silentDemo_silent.1
      rfl 2 silentDemo 1 1 (by decide) (by decide) silentDemo_silent.2
      (fun _ _ _ _ => rfl)).2.1⟩

end SilenceClaims

/-! ## The low-frequency oscillator -/

section LfoClaims

variable {F : Type} [LinearOrderedField F] [FloorRing F] {R : Type}

open DelayLineEffect

/-- C16: LFO value and range. With the real sine for `sinf` and `2 * pi` for
`twoPi`, for every phase and phase offset: `lfo` in the wide setting
(`vibrato = false`) is `1/2 + 1/4 * sin (2 * pi * (phase + phaseOffset))` and
lies in `[1/4, 3/4]`; in the narrow setting (`vibrato = true`) it is
`1/2 + 1/10 * sin (2 * pi * (phase + phaseOffset))` and lies in `[2/5, 3/5]`;
in both settings it is strictly positive. -/
theorem C16_lfo_value_and_range (e : DelayLineEffect ℝ) :
    (e.lfo Real.sin (2 * Real.pi) false
        = 1 / 2 + 1 / 4 * Real.sin (2 * Real.pi * (e.phase + e.phaseOffset))
      ∧ 1 / 4 ≤ e.lfo Real.sin (2 * Real.pi) false
      ∧ e.lfo Real.sin (2 * Real.pi) false ≤ 3 / 4
      ∧ 0 < e.lfo Real.sin (2 * Real.pi) false)
    ∧ (e.lfo Real.sin (2 * Real.pi) true
        = 1 / 2 + 1 / 10 * Real.sin (2 * Real.pi * (e.phase + e.phaseOffset))
      ∧ 2 / 5 ≤ e.lfo Real.sin (2 * Real.pi) true
      ∧ e.lfo Real.sin (2 * Real.pi) true ≤ 3 / 5
      ∧ 0 < e.lfo Real.sin (2 * Real.pi) true) := by
  have h1 := Real.neg_one_le_sin (2 * Real.pi * (e.phase + e.phaseOffset))
  have h2 := Real.sin_le_one (2 * Real.pi * (e.phase + e.phaseOffset))
  have a : e.lfo Real.sin (2 * Real.pi) false
      = 1 / 2 + 1 / 4 * Real.sin (2 * Real.pi * (e.phase + e.phaseOffset)) := by
    simp [lfo]
  have b : e.lfo Real.sin (2 * Real.pi) true
      = 1 / 2 + 1 / 10 * Real.sin (2 * Real.pi * (e.phase + e.phaseOffset)) := by
    simp [lfo]
  refine ⟨⟨a, ?_, ?_, ?_⟩, b, ?_, ?_, ?_⟩
  · rw [a]; linarith
  · rw [a]; linarith
  · rw [a]; linarith
  · rw [b]; linarith
  · rw [b]; linarith
  · rw [b]; linarith

/-- C18: the LFO phase stays in `[0, 1)`. For a phase in `[0, 1)` and a step
`lfoFreq * inverseSampleRate` in `[0, 1)`, `calculatePositionAndPhase` leaves
the phase equal to the fractional part of `phase + lfoFreq *
inverseSampleRate`, which is again in `[0, 1)`. -/
theorem C18_lfo_phase_in_unit_interval (e : DelayLineEffect F) (lfoFreq : F)
    (h0 : 0 ≤ e.phase) (h1 : e.phase < 1)
    (h2 : 0 ≤ lfoFreq * e.inverseSampleRate) (h3 : lfoFreq * e.inverseSampleRate < 1) :
    (e.calculatePositionAndPhase lfoFreq).phase
        = Int.fract (e.phase + lfoFreq * e.inverseSampleRate)
      ∧ 0 ≤ (e.calculatePositionAndPhase lfoFreq).phase
      ∧ (e.calculatePositionAndPhase lfoFreq).phase < 1 := by
  have key : (e.calculatePositionAndPhase lfoFreq).phase
      = Int.fract (e.phase + lfoFreq * e.inverseSampleRate) := by
    rw [calc_phase_eq]
    split_ifs with h
    · symm
      rw [Int.fract_eq_iff]
      refine ⟨by linarith, by linarith, 1, ?_⟩
      push_cast
      ring
    · symm
      rw [Int.fract_eq_self]
      exact ⟨by linarith, lt_of_not_ge h⟩
  rw [key]
  exact ⟨rfl, Int.fract_nonneg _, Int.fract_lt_one _⟩

/-- C18 at a concrete unit: phase 3/4, inverse sample rate 1/2 and LFO
frequency 1, where the sum 5/4 wraps. -/
theorem C18_lfo_phase_in_unit_interval_witness :
    (wrapUnit.calculatePositionAndPhase 1).phase
        = Int.fract (wrapUnit.phase + 1 * wrapUnit.inverseSampleRate)
      ∧ 0 ≤ (wrapUnit.calculatePositionAndPhase 1).phase
      ∧ (wrapUnit.calculatePositionAndPhase 1).phase < 1 :=
  C18_lfo_phase_in_unit_interval wrapUnit 1 (by norm_num [wrapUnit, blankUnit])
    (by norm_num [wrapUnit, blankUnit]) (by norm_num [wrapUnit, blankUnit])
    (by norm_num [wrapUnit, blankUnit])

/-- C19: wrapping the LFO phase does not change the oscillator. With the real
sine for `sinf` and `2 * pi` for `twoPi`, in either range setting, `lfo` at
`phase - 1` and at `phase + 1` equals `lfo` at `phase`; and the value of `lfo`
after `calculatePositionAndPhase` is its value at the unwrapped phase
`phase + lfoFreq * inverseSampleRate`. -/
theorem C19_phase_wrap_keeps_lfo (e : DelayLineEffect ℝ) (vibrato : Bool) (lfoFreq : ℝ) :
    ({ e with phase := e.phase - 1 } : DelayLineEffect ℝ).lfo Real.sin (2 * Real.pi) vibrato
        = e.lfo Real.sin (2 * Real.pi) vibrato
      ∧ ({ e with phase := e.phase + 1 } : DelayLineEffect ℝ).lfo Real.sin (2 * Real.pi) vibrato
        = e.lfo Real.sin (2 * Real.pi) vibrato
      ∧ (e.calculatePositionAndPhase lfoFreq).lfo Real.sin (2 * Real.pi) vibrato
        = ({ e with phase := e.phase + lfoFreq * e.inverseSampleRate } :
            DelayLineEffect ℝ).lfo Real.sin (2 * Real.pi) vibrato := by
  have hm : ∀ x o : ℝ, Real.sin (2 * Real.pi * (x - 1 + o)) = Real.sin (2 * Real.pi * (x + o)) := by
    intro x o
    rw [show 2 * Real.pi * (x - 1 + o) = 2 * Real.pi * (x + o) - 2 * Real.pi by ring]
    exact Real.sin_sub_two_pi _
  have hp : ∀ x o : ℝ, Real.sin (2 * Real.pi * (x + 1 + o)) = Real.sin (2 * Real.pi * (x + o)) := by
    intro x o
    rw [show 2 * Real.pi * (x + 1 + o) = 2 * Real.pi * (x + o) + 2 * Real.pi by ring]
    exact Real.sin_add_two_pi _
  have ho : (e.calculatePositionAndPhase lfoFreq).phaseOffset = e.phaseOffset := by
    simp only [calculatePositionAndPhase]
    split_ifs <;> rfl
  refine ⟨?_, ?_, ?_⟩
  · simp only [lfo]
    rw [hm]
  · simp only [lfo]
    rw [hp]
  · simp only [lfo]
    rw [ho, calc_phase_eq]
    by_cases h : e.phase + lfoFreq * e.inverseSampleRate ≥ 1
    · rw [if_pos h, hm]
    · rw [if_neg h]

end LfoClaims

/-! ## The phase offsets of the chorus voices -/

section VoiceFacts

variable {F : Type} [LinearOrderedField F] [FloorRing F] {R : Type}

open DelayLineEffect

/-- One chorus voice adds the increment selected by the voice count to the
phase offset of the chorus unit. -/
theorem chorusVoice_phaseOffset (lib : Library F R) (numOfVoices : Int) (chorDepth : F)
    (channel voice : Nat) (u : DelayLineEffect F × DelayLineEffect F) :
    (chorusVoice lib numOfVoices chorDepth channel voice u).2.phaseOffset
      = u.2.phaseOffset
        + (if numOfVoices + 2 = 3 then 1 / 4
          else if numOfVoices + 2 > 3 then 1 / (((numOfVoices + 1 : Int)) : F) else 0) := by
  simp only [chorusVoice]
  split_ifs <;> simp

/-- After `count` voices the phase offset has grown by `count` increments. -/
theorem chorusVoices_phaseOffset (lib : Library F R) (numOfVoices : Int) (chorDepth : F)
    (channel count : Nat) (u : DelayLineEffect F × DelayLineEffect F) :
    (chorusVoices lib numOfVoices chorDepth channel count u).2.phaseOffset
      = u.2.phaseOffset
        + (count : F) * (if numOfVoices + 2 = 3 then 1 / 4
          else if numOfVoices + 2 > 3 then 1 / (((numOfVoices + 1 : Int)) : F) else 0) := by
  induction count with
  | zero => simp [chorusVoices]
  | succ n ih =>
    simp only [chorusVoices]
    rw [chorusVoice_phaseOffset, ih]
    push_cast
    ring

end VoiceFacts

section VoiceClaims

variable {F : Type} [LinearOrderedField F] [FloorRing F] {R : Type}

open DelayLineEffect

/-- C17, counterexample to the increment `1 / voiceCount`: with four voices
the phase offset after the first voice is 1/3, not 1/4, and with five voices
it is 1/4, not 1/5. -/
theorem C17_voice_increment_counterexample :
    ((chorusVoices flatLibrary NumOfVoices.Four.toInt 1 0 1
          (rampUnit, { rampUnit with phaseOffset := 0 })).2.phaseOffset = 1 / 3
        ∧ (chorusVoices flatLibrary NumOfVoices.Four.toInt 1 0 1
          (rampUnit, { rampUnit with phaseOffset := 0 })).2.phaseOffset ≠ 1 / 4)
      ∧ ((chorusVoices flatLibrary NumOfVoices.Five.toInt 1 0 1
          (rampUnit, { rampUnit with phaseOffset := 0 })).2.phaseOffset = 1 / 4
        ∧ (chorusVoices flatLibrary NumOfVoices.Five.toInt 1 0 1
          (rampUnit, { rampUnit with phaseOffset := 0 })).2.phaseOffset ≠ 1 / 5) := by
  have h4 : (chorusVoices flatLibrary NumOfVoices.Four.toInt 1 0 1
      (rampUnit, { rampUnit with phaseOffset := 0 })).2.phaseOffset = 1 / 3 := by
    rw [chorusVoices_phaseOffset]
    norm_num [NumOfVoices.toInt]
  have h5 : (chorusVoices flatLibrary NumOfVoices.Five.toInt 1 0 1
      (rampUnit, { rampUnit with phaseOffset := 0 })).2.phaseOffset = 1 / 4 := by
    rw [chorusVoices_phaseOffset]
    norm_num [NumOfVoices.toInt]
  refine ⟨⟨h4, ?_⟩, h5, ?_⟩
  · rw [h4]; norm_num
  · rw [h5]; norm_num

/-- C17 (amended): chorus voice staggering. The chorus path sets the phase
offset to 0 before the voice loop; after `k` voices the phase offset, which is
the offset that voice `k` is read with, is 0 for two voices, `k * (1/4)` for
three voices, `k * (1/3)` for four voices and `k * (1/4)` for five voices: the
increment for four and five voices is `1 / (voiceCount - 1)`. -/
theorem C17_voice_phase_offsets (lib : Library F R) (chorDepth : F) (channel k : Nat)
    (d c : DelayLineEffect F) :
    (chorusVoices lib NumOfVoices.Two.toInt chorDepth channel k
        (d, { c with phaseOffset := 0 })).2.phaseOffset = 0
      ∧ (chorusVoices lib NumOfVoices.Three.toInt chorDepth channel k
        (d, { c with phaseOffset := 0 })).2.phaseOffset = (k : F) * (1 / 4)
      ∧ (chorusVoices lib NumOfVoices.Four.toInt chorDepth channel k
        (d, { c with phaseOffset := 0 })).2.phaseOffset = (k : F) * (1 / 3)
      ∧ (chorusVoices lib NumOfVoices.Five.toInt chorDepth channel k
        (d, { c with phaseOffset := 0 })).2.phaseOffset = (k : F) * (1 / 4) := by
  refine ⟨?_, ?_, ?_, ?_⟩
  · rw [chorusVoices_phaseOffset]
    norm_num [NumOfVoices.toInt]
  · rw [chorusVoices_phaseOffset]
    norm_num [NumOfVoices.toInt]
  · rw [chorusVoices_phaseOffset]
    norm_num [NumOfVoices.toInt]
  · rw [chorusVoices_phaseOffset]
    norm_num [NumOfVoices.toInt]

end VoiceClaims

/-! ## The delay and width targets in sample units -/

section ScalingFacts

variable {F : Type} [LinearOrderedField F] [FloorRing F] {R : Type}

open DelayLineEffect

/-- The delay and the width that `prepareSmoothing` leaves. -/
theorem prepareSmoothing_values (e : DelayLineEffect F) (delayTime width : F) (sampleRate : Int) :
    (e.prepareSmoothing delayTime sampleRate width).currentDelayTime
        = delayTime * (sampleRate : F)
      ∧ (e.prepareSmoothing delayTime sampleRate width).currentWidth
        = (if width ≠ 0 then width * (sampleRate : F) else e.currentWidth) := by
  simp only [prepareSmoothing, SmoothedValue.setTargetValue, SmoothedValue.getTargetValue]
  split_ifs <;> exact ⟨rfl, rfl⟩

end ScalingFacts

section ScalingClaims

variable {F : Type} [LinearOrderedField F] [FloorRing F] {R : Type}

open DelayLineEffect

end ScalingClaims

/-! ## Divisors in the chorus path -/

section DivisorFacts

variable {F : Type} [LinearOrderedField F] [FloorRing F] {R : Type}

open DelayLineEffect

/-- The instrumented voice computes what `chorusVoice` computes. -/
theorem chorusVoiceTraced_fst (lib : Library F R) (numOfVoices : Int) (chorDepth : F)
    (channel voice : Nat) (u : DelayLineEffect F × DelayLineEffect F) :
    (chorusVoiceTraced lib numOfVoices chorDepth channel voice u).1
      = chorusVoice lib numOfVoices chorDepth channel voice u := by
  simp only [chorusVoiceTraced, chorusVoice]
  split_ifs <;> rfl

/-- The instrumented voice loop computes what `chorusVoices` computes. -/
theorem chorusVoicesTraced_fst (lib : Library F R) (numOfVoices : Int) (chorDepth : F)
    (channel count : Nat) (u : DelayLineEffect F × DelayLineEffect F) :
    (chorusVoicesTraced lib numOfVoices chorDepth channel count u).1
      = chorusVoices lib numOfVoices chorDepth channel count u := by
  induction count with
  | zero => rfl
  | succ n ih =>
    simp only [chorusVoicesTraced, chorusVoices]
    rw [chorusVoiceTraced_fst, ih]

/-- The divisors of one voice for each voice setting. -/
theorem chorusVoiceTraced_snd (lib : Library F R) (v : NumOfVoices) (chorDepth : F)
    (channel voice : Nat) (u : DelayLineEffect F × DelayLineEffect F) :
    (chorusVoiceTraced lib v.toInt chorDepth channel voice u).2
      = (match v with
        | NumOfVoices.Two => []
        | NumOfVoices.Three => [1]
        | NumOfVoices.Four => [2, 3]
        | NumOfVoices.Five => [3, 4]) := by
  cases v <;> simp [chorusVoiceTraced, NumOfVoices.toInt]

/-- No voice of the voice loop divides by 0. -/
theorem chorusVoicesTraced_snd (lib : Library F R) (v : NumOfVoices) (chorDepth : F)
    (channel count : Nat) (u : DelayLineEffect F × DelayLineEffect F) :
    ∀ d ∈ (chorusVoicesTraced lib v.toInt chorDepth channel count u).2, d ≠ 0 := by
  induction count with
  | zero => simp [chorusVoicesTraced]
  | succ n ih =>
    intro d hd
    simp only [chorusVoicesTraced, List.mem_append] at hd
    rcases hd with hd | hd
    · exact ih d hd
    · rw [chorusVoiceTraced_snd] at hd
      cases v <;> simp at hd <;> omega

end DivisorFacts

section DivisorClaims

variable {F : Type} [LinearOrderedField F] [FloorRing F] {R : Type}

open DelayLineEffect

/-- C21: no division by zero in the chorus path. For every voice setting the
divisors of one iteration of the voice loop are: none for two voices, 1 for
three, 2 and 3 for four, 3 and 4 for five; no divisor of the whole voice loop
(`numOfVoices + 1` iterations) is 0, as an integer and after conversion to
`float`; and the instrumented loop computes the units of the voice loop. -/
theorem C21_chorus_divisors_nonzero (lib : Library F R) (v : NumOfVoices) (chorDepth : F)
    (channel voice : Nat) (u : DelayLineEffect F × DelayLineEffect F) :
    (chorusVoiceTraced lib NumOfVoices.Two.toInt chorDepth channel voice u).2 = []
      ∧ (chorusVoiceTraced lib NumOfVoices.Three.toInt chorDepth channel voice u).2 = [1]
      ∧ (chorusVoiceTraced lib NumOfVoices.Four.toInt chorDepth channel voice u).2 = [2, 3]
      ∧ (chorusVoiceTraced lib NumOfVoices.Five.toInt chorDepth channel voice u).2 = [3, 4]
      ∧ (∀ d ∈ (chorusVoicesTraced lib v.toInt chorDepth channel (v.toInt + 1).toNat u).2,
          d ≠ 0 ∧ ((d : Int) : F) ≠ 0)
      ∧ (chorusVoicesTraced lib v.toInt chorDepth channel (v.toInt + 1).toNat u).1
          = chorusVoices lib v.toInt chorDepth channel (v.toInt + 1).toNat u := by
  refine ⟨chorusVoiceTraced_snd lib NumOfVoices.Two chorDepth channel voice u,
    chorusVoiceTraced_snd lib NumOfVoices.Three chorDepth channel voice u,
    chorusVoiceTraced_snd lib NumOfVoices.Four chorDepth channel voice u,
    chorusVoiceTraced_snd lib NumOfVoices.Five chorDepth channel voice u, ?_,
    chorusVoicesTraced_fst lib v.toInt chorDepth channel _ u⟩
  intro d hd
  have h := chorusVoicesTraced_snd lib v chorDepth channel _ u d hd
  exact ⟨h, by exact_mod_cast h⟩

/-- C21 on a concrete loop: with five voices the loop on `rampUnit` divides
by 3 (line 316), and 3 is not 0. -/
theorem C21_chorus_divisors_nonzero_witness :
    (3 : Int) ∈ (chorusVoicesTraced flatLibrary NumOfVoices.Five.toInt 1 0
        (NumOfVoices.Five.toInt + 1).toNat (rampUnit, rampUnit)).2
      ∧ ((3 : Int) ≠ 0 ∧ (((3 : Int)) : ℚ) ≠ 0) :=
  ⟨by simp [chorusVoicesTraced, chorusVoiceTraced, NumOfVoices.toInt],
    (C21_chorus_divisors_nonzero flatLibrary NumOfVoices.Five 1 0 0 (rampUnit, rampUnit)).2.2.2.2.1
      3 (by simp [chorusVoicesTraced, chorusVoiceTraced, NumOfVoices.toInt])⟩

end DivisorClaims

/-! ## The cubic interpolator -/

section CubicClaims

variable {F : Type} [LinearOrderedField F] [FloorRing F] {R : Type}

open DelayLineEffect

/-- C23: the interpolator is the Catmull-Rom cubic. `cubicInterpolation`
returns `catmullRom s0 s1 s2 s3 f` where `f` is `readPosition -
localReadPosition` and `s0 .. s3` are the samples of the row at the four tap
indices; for an integer read position `r` inside `[0, capacity)` the tap
indices are `(r - 1) mod capacity`, `r mod capacity`, `(r + 1) mod capacity`
and `(r + 2) mod capacity`. -/
theorem C23_catmull_rom (e : DelayLineEffect F)
    (h0 : 0 ≤ e.localReadPosition) (h1 : e.localReadPosition < e.bufferSize) :
    e.cubicInterpolation
        = catmullRom (e.delayBuffer e.delayData e.tapIndex0)
            (e.delayBuffer e.delayData e.tapIndex1) (e.delayBuffer e.delayData e.tapIndex2)
            (e.delayBuffer e.delayData e.tapIndex3)
            (e.readPosition - (e.localReadPosition : F))
      ∧ e.tapIndex0 = (e.localReadPosition - 1) % e.bufferSize
      ∧ e.tapIndex1 = e.localReadPosition % e.bufferSize
      ∧ e.tapIndex2 = (e.localReadPosition + 1) % e.bufferSize
      ∧ e.tapIndex3 = (e.localReadPosition + 2) % e.bufferSize := by
  have hc : 0 ≤ e.bufferSize := by omega
  refine ⟨?_, ?_, ?_, ?_, ?_⟩
  · simp only [cubicInterpolation, catmullRom]
    ring
  · simp only [tapIndex0]
    rw [Int.tmod_eq_emod (by omega) hc, Int.add_emod_self]
  · simp only [tapIndex1]
    rw [Int.emod_eq_of_lt h0 h1]
    omega
  · simp only [tapIndex2]
    rw [Int.tmod_eq_emod (by omega) hc]
  · simp only [tapIndex3]
    rw [Int.tmod_eq_emod (by omega) hc]

/-- C23 at `lineUnit`: integer read position 1 in a buffer of 4 slots. -/
theorem C23_catmull_rom_witness :
    lineUnit.cubicInterpolation
        = catmullRom (lineUnit.delayBuffer lineUnit.delayData lineUnit.tapIndex0)
            (lineUnit.delayBuffer lineUnit.delayData lineUnit.tapIndex1)
            (lineUnit.delayBuffer lineUnit.delayData lineUnit.tapIndex2)
            (lineUnit.delayBuffer lineUnit.delayData lineUnit.tapIndex3)
            (lineUnit.readPosition - (lineUnit.localReadPosition : ℚ))
      ∧ lineUnit.tapIndex0 = (lineUnit.localReadPosition - 1) % lineUnit.bufferSize
      ∧ lineUnit.tapIndex1 = lineUnit.localReadPosition % lineUnit.bufferSize
      ∧ lineUnit.tapIndex2 = (lineUnit.localReadPosition + 1) % lineUnit.bufferSize
      ∧ lineUnit.tapIndex3 = (lineUnit.localReadPosition + 2) % lineUnit.bufferSize :=
  C23_catmull_rom lineUnit (by decide) (by decide)

/-- C28: linear precision of the interpolator. If the four taps lie on a
line, `s_i = a + b * i` for `i = -1, 0, 1, 2`, `cubicInterpolation` returns
`a + b * f` for the fraction `f = readPosition - localReadPosition`; and on a
row that holds the constant `c` in every slot it returns `c`, for every read
position. -/
theorem C28_linear_precision (e e2 : DelayLineEffect F) (a b c : F)
    (h0 : e.delayBuffer e.delayData e.tapIndex0 = a + b * (-1))
    (h1 : e.delayBuffer e.delayData e.tapIndex1 = a + b * 0)
    (h2 : e.delayBuffer e.delayData e.tapIndex2 = a + b * 1)
    (h3 : e.delayBuffer e.delayData e.tapIndex3 = a + b * 2)
    (hc : ∀ i : Int, e2.delayBuffer e2.delayData i = c) :
    e.cubicInterpolation = a + b * (e.readPosition - (e.localReadPosition : F))
      ∧ e2.cubicInterpolation = c := by
  constructor
  · simp only [cubicInterpolation]
    rw [h0, h1, h2, h3]
    ring
  · simp only [cubicInterpolation]
    rw [hc, hc, hc, hc]
    ring

/-- C28 at `lineUnit` (taps 10, 20, 30, 40, fraction 1/2) and at `constUnit`
(constant 5). -/
theorem C28_linear_precision_witness :
    lineUnit.cubicInterpolation
        = 20 + 10 * (lineUnit.readPosition - (lineUnit.localReadPosition : ℚ))
      ∧ constUnit.cubicInterpolation = 5 :=
  C28_linear_precision lineUnit constUnit 20 10 5
    (by norm_num [lineUnit, rampUnit, blankUnit, tapIndex0])
    (by norm_num [lineUnit, rampUnit, blankUnit, tapIndex1])
    (by norm_num [lineUnit, rampUnit, blankUnit, tapIndex2, (by decide : Int.tmod 2 4 = 2)])
    (by norm_num [lineUnit, rampUnit, blankUnit, tapIndex3, (by decide : Int.tmod 3 4 = 3)])
    (fun _ => rfl)

/-- C29: continuity across integer read positions. For an integer read
position `r` inside `[0, capacity)` and all taps: the interpolation at
fraction 1 (read position `r + 1`) is the sample stored at index
`(r + 1) mod capacity`, and that is also what the interpolator returns at
fraction 0 when the integer read position is `(r + 1) mod capacity`, one
greater with the wrap at the end of the buffer. As a polynomial, `catmullRom`
at fraction 1 is the tap `s2` and at fraction 0 the tap `s1`. -/
theorem C29_continuity (e : DelayLineEffect F) (s0 s1 s2 s3 : F)
    (h0 : 0 ≤ e.localReadPosition) (h1 : e.localReadPosition < e.bufferSize) :
    ({ e with readPosition := (e.localReadPosition : F) + 1 } :
        DelayLineEffect F).cubicInterpolation
        = e.delayBuffer e.delayData ((e.localReadPosition + 1) % e.bufferSize)
      ∧ ({ e with
            localReadPosition := (e.localReadPosition + 1) % e.bufferSize
            readPosition := ((((e.localReadPosition + 1) % e.bufferSize : Int)) : F) } :
          DelayLineEffect F).cubicInterpolation
        = e.delayBuffer e.delayData ((e.localReadPosition + 1) % e.bufferSize)
      ∧ catmullRom s0 s1 s2 s3 1 = s2
      ∧ catmullRom s0 s1 s2 s3 0 = s1 := by
  have hm : (e.localReadPosition + 1).tmod e.bufferSize
      = (e.localReadPosition + 1) % e.bufferSize :=
    Int.tmod_eq_emod (by omega) (by omega)
  refine ⟨?_, ?_, ?_, ?_⟩
  · simp only [cubicInterpolation, tapIndex0, tapIndex1, tapIndex2, tapIndex3]
    rw [hm]
    ring
  · simp only [cubicInterpolation, tapIndex0, tapIndex1, tapIndex2, tapIndex3]
    ring_nf
  · simp only [catmullRom]
    ring
  · simp only [catmullRom]
    ring

/-- C29 at `wrapReadUnit`: the integer read position 3 is the last of the 4
slots, so the next position is slot 0. -/
theorem C29_continuity_witness :
    ({ wrapReadUnit with readPosition := (wrapReadUnit.localReadPosition : ℚ) + 1 } :
        DelayLineEffect ℚ).cubicInterpolation
        = wrapReadUnit.delayBuffer wrapReadUnit.delayData
            ((wrapReadUnit.localReadPosition + 1) % wrapReadUnit.bufferSize)
      ∧ ({ wrapReadUnit with
            localReadPosition := (wrapReadUnit.localReadPosition + 1) % wrapReadUnit.bufferSize
            readPosition :=
              ((((wrapReadUnit.localReadPosition + 1) % wrapReadUnit.bufferSize : Int)) : ℚ) } :
          DelayLineEffect ℚ).cubicInterpolation
        = wrapReadUnit.delayBuffer wrapReadUnit.delayData
            ((wrapReadUnit.localReadPosition + 1) % wrapReadUnit.bufferSize)
      ∧ catmullRom (30 : ℚ) 40 10 20 1 = 10
      ∧ catmullRom (30 : ℚ) 40 10 20 0 = 40 :=
  C29_continuity wrapReadUnit 30 40 10 20 (by decide) (by decide)

end CubicClaims

/-! ## The tap tempo -/

section TapFacts

variable {F : Type} [LinearOrderedField F] [FloorRing F]

/-- The loop of `calculateTapTempo` telescopes. -/
theorem sumIntervals_telescope (t : List F) (k : Nat) :
    sumIntervals t k = t.getD k 0 - t.getD 0 0 := by
  induction k with
  | zero => simp [sumIntervals]
  | succ n ih =>
    simp only [sumIntervals]
    rw [ih]
    ring

/-- The intervals of a non-empty list of tap times add up to the last minus
the first entry. -/
theorem tapIntervals_sum (a : F) (rest : List F) :
    (tapIntervals (a :: rest)).sum = (a :: rest).getD rest.length 0 - a := by
  induction rest generalizing a with
  | nil => simp [tapIntervals]
  | cons b rest ih =>
    have h : tapIntervals (a :: b :: rest) = (b - a) :: tapIntervals (b :: rest) := by
      simp [tapIntervals]
    rw [h, List.sum_cons, ih b]
    simp only [List.length_cons, List.getD_cons_succ]
    ring

/-- A list of `n` tap times has `n - 1` intervals. -/
theorem tapIntervals_length (t : List F) : (tapIntervals t).length = t.length - 1 := by
  simp only [tapIntervals, List.length_zipWith, List.length_tail]
  omega

/-- The mean of the intervals is the span of the taps divided by their number
less one. -/
theorem arithmeticMean_tapIntervals (t : List F) (h : 1 ≤ t.length) :
    arithmeticMean (tapIntervals t)
      = (t.getD (t.length - 1) 0 - t.getD 0 0) / ((t.length - 1 : Nat) : F) := by
  cases t with
  | nil => simp at h
  | cons a rest =>
    simp only [arithmeticMean]
    rw [tapIntervals_sum, tapIntervals_length]
    simp

/-- Two clicks on an editor with an empty tap list: the interval between them
is sent and the list is empty again. -/
theorem tapClicks_two (a b : F) (ed : MastersDelayAudioProcessorEditor F)
    (h : ed.tapTimes = []) :
    (tapTempoButtonOnClick a ed).tapTimes = [a]
      ∧ (tapTempoButtonOnClick a ed).erasures = ed.erasures
      ∧ (tapTempoButtonOnClick a ed).sentDelayTimes = ed.sentDelayTimes
      ∧ (tapTempoButtonOnClick b (tapTempoButtonOnClick a ed)).tapTimes = []
      ∧ (tapTempoButtonOnClick b (tapTempoButtonOnClick a ed)).erasures = ed.erasures
      ∧ (tapTempoButtonOnClick b (tapTempoButtonOnClick a ed)).sentDelayTimes
          = ed.sentDelayTimes ++ [b - a] := by
  simp [tapTempoButtonOnClick, calculateTapTempo, sumIntervals, h]

/-- The state after any sequence of clicks from an empty tap list. -/
theorem tapClicks_pairs :
    ∀ (ts : List F) (ed : MastersDelayAudioProcessorEditor F), ed.tapTimes = [] →
      (tapClicks ts ed).tapTimes.length = ts.length % 2
        ∧ (tapClicks ts ed).erasures = ed.erasures
        ∧ (tapClicks ts ed).sentDelayTimes = ed.sentDelayTimes ++ pairedIntervals ts
  | [], ed, h => by simp [tapClicks, pairedIntervals, h]
  | [a], ed, h => by
    obtain ⟨h1, h2, h3, _⟩ := tapClicks_two a a ed h
    simp [tapClicks, pairedIntervals, h1, h2, h3]
  | a :: b :: rest, ed, h => by
    obtain ⟨_, _, _, h4, h5, h6⟩ := tapClicks_two a b ed h
    obtain ⟨i1, i2, i3⟩ := tapClicks_pairs rest
      (tapTempoButtonOnClick b (tapTempoButtonOnClick a ed)) h4
    simp only [tapClicks, pairedIntervals]
    refine ⟨?_, ?_, ?_⟩
    · rw [i1]
      simp only [List.length_cons]
      omega
    · rw [i2, h5]
    · rw [i3, h6]
      simp

end TapFacts

section TapClaims

variable {F : Type} [LinearOrderedField F] [FloorRing F]

/-- C24: tap tempo average. For a list of `n ≥ 2` recorded tap times the call
`calculateTapTempo` passes to `setDelayTimeFromTapTempo` the arithmetic mean
of the `n - 1` intervals between consecutive taps, which is
`(t_last - t_first) / (n - 1)`, and leaves the tap list empty; for fewer than
2 taps it leaves the editor unchanged. -/
theorem C24_tap_tempo_average (ed ed2 : MastersDelayAudioProcessorEditor F)
    (h : 2 ≤ ed.tapTimes.length) (h2 : ed2.tapTimes.length < 2) :
    (calculateTapTempo ed).sentDelayTimes
        = ed.sentDelayTimes ++ [arithmeticMean (tapIntervals ed.tapTimes)]
      ∧ (tapIntervals ed.tapTimes).length = ed.tapTimes.length - 1
      ∧ arithmeticMean (tapIntervals ed.tapTimes)
        = (ed.tapTimes.getD (ed.tapTimes.length - 1) 0 - ed.tapTimes.getD 0 0)
          / ((ed.tapTimes.length - 1 : Nat) : F)
      ∧ (calculateTapTempo ed).tapTimes = []
      ∧ calculateTapTempo ed2 = ed2 := by
  have hn : ¬ ed.tapTimes.length < 2 := by omega
  refine ⟨?_, tapIntervals_length _, arithmeticMean_tapIntervals _ (by omega), ?_, ?_⟩
  · rw [arithmeticMean_tapIntervals _ (by omega)]
    simp only [calculateTapTempo, if_neg hn]
    rw [sumIntervals_telescope]
  · simp only [calculateTapTempo, if_neg hn]
  · simp only [calculateTapTempo, if_pos h2]

/-- C24 at the taps 1, 3, 4 and at the fresh editor. -/
theorem C24_tap_tempo_average_witness :
    (calculateTapTempo threeTaps).sentDelayTimes
        = threeTaps.sentDelayTimes ++ [arithmeticMean (tapIntervals threeTaps.tapTimes)]
      ∧ (tapIntervals threeTaps.tapTimes).length = threeTaps.tapTimes.length - 1
      ∧ arithmeticMean (tapIntervals threeTaps.tapTimes)
        = (threeTaps.tapTimes.getD (threeTaps.tapTimes.length - 1) 0
            - threeTaps.tapTimes.getD 0 0)
          / ((threeTaps.tapTimes.length - 1 : Nat) : ℚ)
      ∧ (calculateTapTempo threeTaps).tapTimes = []
      ∧ calculateTapTempo (freshEditor : MastersDelayAudioProcessorEditor ℚ) = freshEditor :=
  C24_tap_tempo_average threeTaps freshEditor (by decide) (by decide)

/-- C30: the tap list never accumulates. After any sequence of clicks on the
tap button, starting from the empty tap list, the list holds `0` entries
after an even and `1` entry after an odd number of clicks, so at most 1; the
values sent are the intervals between the first and second, third and fourth,
... click, each the single interval between the two most recent taps; and the
erasure of the oldest entry has never been executed. -/
theorem C30_tap_list_never_accumulates (ts : List F) :
    (tapClicks ts (freshEditor : MastersDelayAudioProcessorEditor F)).tapTimes.length
        = ts.length % 2
      ∧ (tapClicks ts (freshEditor : MastersDelayAudioProcessorEditor F)).tapTimes.length ≤ 1
      ∧ (tapClicks ts (freshEditor : MastersDelayAudioProcessorEditor F)).sentDelayTimes
        = pairedIntervals ts
      ∧ (tapClicks ts (freshEditor : MastersDelayAudioProcessorEditor F)).erasures = 0 := by
  obtain ⟨h1, h2, h3⟩ := tapClicks_pairs ts (freshEditor : MastersDelayAudioProcessorEditor F) rfl
  refine ⟨h1, ?_, ?_, ?_⟩
  · rw [h1]
    omega
  · rw [h3]
    simp [freshEditor]
  · rw [h2]
    rfl

end TapClaims

/-! ## The base delay line under every routing -/

section BaseDelayFacts

variable {F : Type} [LinearOrderedField F] [FloorRing F] {R : Type}

open DelayLineEffect

/-- On every path the base delay unit after the routing of a sample is the
unit after `process` with the feedback write under the cursor. -/
theorem route_delay (lib : Library F R) (cs : ChainSettings F) (channel sample : Nat) (inp : F)
    (s : BlockState F R) :
    (route lib cs channel sample inp s).p.delay
      = (s.p.delay.process s.p.delay.currentDelayTime).store
          (inp + (s.p.delay.process s.p.delay.currentDelayTime).out * cs.feedback) := by
  rw [route_eq]
  by_cases hf : cs.flangerOn = false
  · rw [if_pos hf]
    exact case1_delay lib cs channel sample inp s
  · rw [if_neg hf]
    by_cases hv : cs.vibratoOn = false
    · rw [if_pos hv]
      rfl
    · rw [if_neg hv]
      by_cases hc : cs.chorusOn = false
      · rw [if_pos hc]
        exact case3_delay lib cs channel sample inp s
      · rw [if_neg hc]
        rfl

/-- The base delay unit after one iteration of the sample loop. -/
theorem sampleBody_delay (lib : Library F R) (cs : ChainSettings F) (ch i : Nat)
    (s : BlockState F R) :
    (sampleBody lib cs ch i s).p.delay
      = ((s.p.delay.process s.p.delay.currentDelayTime).store
          (s.buffer ch i + (s.p.delay.process s.p.delay.currentDelayTime).out * cs.feedback)
        ).calculatePositionAndPhase 0 := by
  simp only [sampleBody, advance]
  rw [route_delay]

/-- Two iterations of the sample loop that start with the same base delay
unit, input sample and feedback leave the same base delay unit. -/
theorem sampleBody_delay_congr (lib lib2 : Library F R) (cs cs2 : ChainSettings F) (ch i : Nat)
    (s s2 : BlockState F R) (hfb : cs.feedback = cs2.feedback) (hd : s.p.delay = s2.p.delay)
    (hin : s.buffer ch i = s2.buffer ch i) :
    (sampleBody lib cs ch i s).p.delay = (sampleBody lib2 cs2 ch i s2).p.delay := by
  rw [sampleBody_delay, sampleBody_delay, hfb, hd, hin]

/-- The sample loop keeps the base delay units of two runs equal. -/
theorem sampleLoop_delay_congr (lib lib2 : Library F R) (cs cs2 : ChainSettings F) (ch k : Nat)
    (s s2 : BlockState F R) (hfb : cs.feedback = cs2.feedback) (hd : s.p.delay = s2.p.delay)
    (hin : ∀ j : Nat, j < k → s.buffer ch j = s2.buffer ch j) :
    (sampleLoop lib cs ch k s).p.delay = (sampleLoop lib2 cs2 ch k s2).p.delay := by
  induction k with
  | zero => exact hd
  | succ n ih =>
    have i1 := ih (fun j hj => hin j (Nat.lt_succ_of_lt hj))
    have c1 : (sampleLoop lib cs ch n s).buffer ch n = s.buffer ch n :=
      sampleLoop_untouched lib cs (fun t => t.buffer)
        (fun t c i c2 j h => sampleBody_buffer_other lib cs t c i c2 j h) s ch n ch n
        (Or.inr le_rfl)
    have c2 : (sampleLoop lib2 cs2 ch n s2).buffer ch n = s2.buffer ch n :=
      sampleLoop_untouched lib2 cs2 (fun t => t.buffer)
        (fun t c i c2 j h => sampleBody_buffer_other lib2 cs2 t c i c2 j h) s2 ch n ch n
        (Or.inr le_rfl)
    exact sampleBody_delay_congr lib lib2 cs cs2 ch n _ _ hfb i1
      (by rw [c1, c2]; exact hin n (Nat.lt_succ_self n))

/-- The channel loop keeps the base delay units of two runs equal. -/
theorem channelLoop_delay_congr (lib lib2 : Library F R) (cs cs2 : ChainSettings F)
    (numSamples k : Nat) (s s2 : BlockState F R) (hfb : cs.feedback = cs2.feedback)
    (hd : s.p.delay = s2.p.delay) (hin : s.buffer = s2.buffer) :
    (channelLoop lib cs numSamples k s).p.delay
      = (channelLoop lib2 cs2 numSamples k s2).p.delay := by
  induction k with
  | zero => exact hd
  | succ n ih =>
    have hstart : (channelStart n (channelLoop lib cs numSamples n s)).p.delay
        = (channelStart n (channelLoop lib2 cs2 numSamples n s2)).p.delay := by
      simp only [channelStart]
      rw [ih]
    refine sampleLoop_delay_congr lib lib2 cs cs2 n numSamples _ _ hfb hstart ?_
    intro j _
    have c1 := channelLoop_untouched lib cs (fun t => t.buffer)
      (fun t c i c2 j h => sampleBody_buffer_other lib cs t c i c2 j h)
      (fun _ _ => rfl) numSamples s n n j le_rfl
    have c2 := channelLoop_untouched lib2 cs2 (fun t => t.buffer)
      (fun t c i c2 j h => sampleBody_buffer_other lib2 cs2 t c i c2 j h)
      (fun _ _ => rfl) numSamples s2 n n j le_rfl
    exact c1.trans ((congrFun (congrFun hin n) j).trans c2.symm)

/-- Every iteration of the sample loop starts with equal base delay units
and equal input samples in two runs. -/
theorem iterationState_delay_congr (lib lib2 : Library F R) (cs cs2 : ChainSettings F)
    (numSamples : Nat) (s s2 : BlockState F R) (ch i : Nat) (hfb : cs.feedback = cs2.feedback)
    (hd : s.p.delay = s2.p.delay) (hin : s.buffer = s2.buffer) :
    (iterationState lib cs numSamples s ch i).p.delay
        = (iterationState lib2 cs2 numSamples s2 ch i).p.delay
      ∧ (iterationState lib cs numSamples s ch i).buffer ch i
        = (iterationState lib2 cs2 numSamples s2 ch i).buffer ch i := by
  have hstart : (channelStart ch (channelLoop lib cs numSamples ch s)).p.delay
      = (channelStart ch (channelLoop lib2 cs2 numSamples ch s2)).p.delay := by
    simp only [channelStart]
    rw [channelLoop_delay_congr lib lib2 cs cs2 numSamples ch s s2 hfb hd hin]
  have cell : ∀ j : Nat, (channelStart ch (channelLoop lib cs numSamples ch s)).buffer ch j
      = (channelStart ch (channelLoop lib2 cs2 numSamples ch s2)).buffer ch j := by
    intro j
    have c1 := channelLoop_untouched lib cs (fun t => t.buffer)
      (fun t c i c2 j h => sampleBody_buffer_other lib cs t c i c2 j h)
      (fun _ _ => rfl) numSamples s ch ch j le_rfl
    have c2 := channelLoop_untouched lib2 cs2 (fun t => t.buffer)
      (fun t c i c2 j h => sampleBody_buffer_other lib2 cs2 t c i c2 j h)
      (fun _ _ => rfl) numSamples s2 ch ch j le_rfl
    exact c1.trans ((congrFun (congrFun hin ch) j).trans c2.symm)
  refine ⟨sampleLoop_delay_congr lib lib2 cs cs2 ch i _ _ hfb hstart (fun j _ => cell j), ?_⟩
  have e1 := (loops_cell lib cs (fun t => t.buffer)
    (fun t c i c2 j h => sampleBody_buffer_other lib cs t c i c2 j h)
    (fun _ _ => rfl) numSamples s ch i).1
  have e2 := (loops_cell lib2 cs2 (fun t => t.buffer)
    (fun t c i c2 j h => sampleBody_buffer_other lib2 cs2 t c i c2 j h)
    (fun _ _ => rfl) numSamples s2 ch i).1
  exact e1.trans ((congrFun (congrFun hin ch) i).trans e2.symm)

end BaseDelayFacts

section BaseDelayClaims

variable {F : Type} [LinearOrderedField F] [FloorRing F] {R : Type}

open DelayLineEffect

/-- C26: the base delay line is independent of the routing. Two runs of
`processBlock` on the same input buffer, with the same feedback, base delay
time, sample rate, channel count and initial base delay unit, whatever the
flags, the voice count, the other settings, the library functions and the
states of the flanger, vibrato and chorus units: after every iteration of the
sample loop, in every channel, the base delay units of the two runs are equal
(so are the values `delay.out` and the buffer contents), and they are equal
when the block has ended. -/
theorem C26_base_delay_independent_of_routing (lib lib2 : Library F R)
    (cs cs2 : ChainSettings F) (numSamples : Nat) (s s2 : BlockState F R) (channel sample : Nat)
    (hfb : cs.feedback = cs2.feedback) (hdt : cs.delayTime = cs2.delayTime)
    (hunit : s.p.delay = s2.p.delay) (hsr : s.p.sampleRate = s2.p.sampleRate)
    (hnin : s.p.totalNumInputChannels = s2.p.totalNumInputChannels)
    (hin : s.buffer = s2.buffer) :
    (sampleBody lib cs channel sample
          (iterationState lib cs numSamples { p := blockSetup lib cs s.p, buffer := s.buffer }
            channel sample)).p.delay
        = (sampleBody lib2 cs2 channel sample
            (iterationState lib2 cs2 numSamples
              { p := blockSetup lib2 cs2 s2.p, buffer := s2.buffer } channel sample)).p.delay
      ∧ (processBlock lib cs numSamples s).p.delay
        = (processBlock lib2 cs2 numSamples s2).p.delay := by
  have hsetup : (blockSetup lib cs s.p).delay = (blockSetup lib2 cs2 s2.p).delay := by
    simp only [blockSetup]
    rw [hdt, hunit, hsr]
  constructor
  · obtain ⟨i1, i2⟩ := iterationState_delay_congr lib lib2 cs cs2 numSamples
      { p := blockSetup lib cs s.p, buffer := s.buffer }
      { p := blockSetup lib2 cs2 s2.p, buffer := s2.buffer } channel sample hfb hsetup hin
    exact sampleBody_delay_congr lib lib2 cs cs2 channel sample _ _ hfb i1 i2
  · have h := channelLoop_delay_congr lib lib2 cs cs2 numSamples s.p.totalNumInputChannels
      { p := blockSetup lib cs s.p, buffer := s.buffer }
      { p := blockSetup lib2 cs2 s2.p, buffer := s2.buffer } hfb hsetup hin
    simp only [processBlock]
    rw [h, hnin]

/-- C26 at two concrete runs: `chorusDemo` on the chorus path and
`routingDemo`, which has other effect units, on the vibrato path. -/
theorem C26_base_delay_independent_of_routing_witness :
    (sampleBody flatLibrary chorusSettings 1 0
          (iterationState flatLibrary chorusSettings 1
            { p := blockSetup flatLibrary chorusSettings chorusDemo.p, buffer := chorusDemo.buffer }
            1 0)).p.delay
        = (sampleBody flatLibrary vibratoZeroSettings 1 0
            (iterationState flatLibrary vibratoZeroSettings 1
              { p := blockSetup flatLibrary vibratoZeroSettings routingDemo.p,
                buffer := routingDemo.buffer } 1 0)).p.delay
      ∧ (processBlock flatLibrary chorusSettings 1 chorusDemo).p.delay
        = (processBlock flatLibrary vibratoZeroSettings 1 routingDemo).p.delay :=
  C26_base_delay_independent_of_routing flatLibrary flatLibrary chorusSettings
    vibratoZeroSettings 1 chorusDemo routingDemo 1 0 rfl rfl rfl rfl rfl rfl

end BaseDelayClaims

/-! ## The voices of the chorus path -/

section FinalVoiceFacts

variable {F : Type} [LinearOrderedField F] [FloorRing F] {R : Type}

open DelayLineEffect

/-- The value read by `process` depends on the unit only through its buffer,
its size, its cursor and its row. -/
theorem process_out_congr (e e2 : DelayLineEffect F) (d d2 : F) (hd : d2 = d)
    (hb : e2.delayBuffer = e.delayBuffer) (hs : e2.bufferSize = e.bufferSize)
    (hl : e2.localWritePosition = e.localWritePosition) (hr : e2.delayData = e.delayData) :
    (e2.process d2).out = (e.process d).out := by
  simp only [process_out, cubicInterpolation, tapIndex0, tapIndex1, tapIndex2, tapIndex3]
  rw [hb, hs, hl, hr, hd]

/-- The value that a chorus voice reads does not depend on the weight. -/
theorem chorusVoice_out (lib : Library F R) (numOfVoices : Int) (chorDepth : F)
    (channel voice : Nat) (u : DelayLineEffect F × DelayLineEffect F) :
    (chorusVoice lib numOfVoices chorDepth channel voice u).2.out
      = (u.2.process
          (u.2.currentDelayTime + u.2.currentWidth * u.2.lfo lib.sinf lib.twoPi false)).out := by
  simp only [chorusVoice]
  split_ifs <;> exact process_out_congr _ _ _ _ rfl rfl rfl rfl rfl

/-- The chorus unit after the voice loop of `case3` holds the value read by
the final voice. -/
theorem chorusVoices_final_out (lib : Library F R) (cs : ChainSettings F) (channel : Nat)
    (d c : DelayLineEffect F) :
    (chorusVoices lib cs.numOfVoices.toInt cs.chorDepth channel
        (cs.numOfVoices.toInt + 1).toNat (d, { c with phaseOffset := 0 })).2.out
      = (({ c with phaseOffset := ((cs.numOfVoices.toInt : Int) : F)
              * (if cs.numOfVoices.toInt + 2 = 3 then 1 / 4
                else if cs.numOfVoices.toInt + 2 > 3 then
                  1 / (((cs.numOfVoices.toInt + 1 : Int)) : F)
                else 0) } : DelayLineEffect F).process
          (c.currentDelayTime + c.currentWidth
            * ({ c with phaseOffset := ((cs.numOfVoices.toInt : Int) : F)
              * (if cs.numOfVoices.toInt + 2 = 3 then 1 / 4
                else if cs.numOfVoices.toInt + 2 > 3 then
                  1 / (((cs.numOfVoices.toInt + 1 : Int)) : F)
                else 0) } : DelayLineEffect F).lfo lib.sinf lib.twoPi false)).out := by
  have hcount : (cs.numOfVoices.toInt + 1).toNat = cs.numOfVoices.toInt.toNat + 1 := by
    cases cs.numOfVoices <;> rfl
  have hcast : ((cs.numOfVoices.toInt.toNat : Nat) : F) = ((cs.numOfVoices.toInt : Int) : F) := by
    cases cs.numOfVoices <;> simp [NumOfVoices.toInt]
  rw [hcount]
  simp only [chorusVoices]
  rw [chorusVoice_out]
  obtain ⟨_, _, k, hb⟩ := chorusVoices_frame lib cs.numOfVoices.toInt cs.chorDepth channel
    cs.numOfVoices.toInt.toNat (d, ({ c with phaseOffset := 0 } : DelayLineEffect F))
  have hp := chorusVoices_phaseOffset lib cs.numOfVoices.toInt cs.chorDepth channel
    cs.numOfVoices.toInt.toNat (d, ({ c with phaseOffset := 0 } : DelayLineEffect F))
  obtain ⟨⟨k1, k2, k3, _⟩, k4, k5, k6⟩ := k
  apply process_out_congr
  · simp only [lfo]
    rw [k2, k3, k6, hp, hcast]
    simp
  · exact hb
  · exact k1
  · exact k4
  · exact k5

end FinalVoiceFacts

section FinalVoiceClaims

variable {F : Type} [LinearOrderedField F] [FloorRing F] {R : Type}

open DelayLineEffect

/-- C27: only the last chorus voice is audible. For every voice setting,
channel and depth, the chorus path leaves the same live buffer, the same wet
scratch buffer, the same outputs `delay.out` and `chorus.out` (so the same
combined value `delay.out + chorDepth * chorus.out`), the same base delay
unit, the same chorus buffer and the same flanger and vibrato units as
`case3FinalVoice`, which processes only the voice of index `numOfVoices`,
computes no weight and writes nothing into the base delay buffer before the
feedback write. -/
theorem C27_only_last_voice_audible (lib : Library F R) (cs : ChainSettings F)
    (channel sample : Nat) (inp : F) (s : BlockState F R) :
    (case3 lib cs channel sample inp s).buffer
        = (case3FinalVoice lib cs channel sample inp s).buffer
      ∧ (case3 lib cs channel sample inp s).p.wetRevBufferCopy
        = (case3FinalVoice lib cs channel sample inp s).p.wetRevBufferCopy
      ∧ ((case3 lib cs channel sample inp s).p.delay.out
          = (case3FinalVoice lib cs channel sample inp s).p.delay.out
        ∧ (case3 lib cs channel sample inp s).p.chorus.out
          = (case3FinalVoice lib cs channel sample inp s).p.chorus.out)
      ∧ (case3 lib cs channel sample inp s).p.delay
        = (case3FinalVoice lib cs channel sample inp s).p.delay
      ∧ (case3 lib cs channel sample inp s).p.chorus.delayBuffer
        = (case3FinalVoice lib cs channel sample inp s).p.chorus.delayBuffer
      ∧ (case3 lib cs channel sample inp s).p.flanger
        = (case3FinalVoice lib cs channel sample inp s).p.flanger
      ∧ (case3 lib cs channel sample inp s).p.vibrato
        = (case3FinalVoice lib cs channel sample inp s).p.vibrato := by
  obtain ⟨f1, _, _⟩ := chorusVoices_delay_frame lib cs.numOfVoices.toInt cs.chorDepth channel
    (cs.numOfVoices.toInt + 1).toNat
    (s.p.delay.process s.p.delay.currentDelayTime, { s.p.chorus with phaseOffset := 0 })
  obtain ⟨_, _, k, hb⟩ := chorusVoices_frame lib cs.numOfVoices.toInt cs.chorDepth channel
    (cs.numOfVoices.toInt + 1).toNat
    (s.p.delay.process s.p.delay.currentDelayTime, { s.p.chorus with phaseOffset := 0 })
  have hout := chorusVoices_final_out lib cs channel
    (s.p.delay.process s.p.delay.currentDelayTime) s.p.chorus
  simp only at f1 hb
  have hdelay := case3_delay lib cs channel sample inp s
  have hd : (case3 lib cs channel sample inp s).p.delay
      = (case3FinalVoice lib cs channel sample inp s).p.delay := by
    rw [hdelay]
    rfl
  have hc : (case3 lib cs channel sample inp s).p.chorus.out
      = (case3FinalVoice lib cs channel sample inp s).p.chorus.out := by
    simp only [case3, case3FinalVoice, store_out]
    exact hout
  have hdo : (case3 lib cs channel sample inp s).p.delay.out
      = (case3FinalVoice lib cs channel sample inp s).p.delay.out := by rw [hd]
  refine ⟨?_, ?_, ⟨hdo, hc⟩, hd, ?_, rfl, rfl⟩
  · rw [case3_buffer, hdo, hc]
    by_cases hw : cs.wetReverbOn = true
    · simp only [case3FinalVoice, store_out, hw, if_true]
      ring_nf
    · simp only [case3FinalVoice, hw]
      rfl
  · show addSample s.p.wetRevBufferCopy channel sample
        ((case3 lib cs channel sample inp s).p.delay.out
          + cs.chorDepth * (case3 lib cs channel sample inp s).p.chorus.out)
      = addSample s.p.wetRevBufferCopy channel sample
        ((case3FinalVoice lib cs channel sample inp s).p.delay.out
          + cs.chorDepth * (case3FinalVoice lib cs channel sample inp s).p.chorus.out)
    rw [hdo, hc]
  · obtain ⟨_, k4, k5, _⟩ := k
    funext ch i
    simp only [case3, case3FinalVoice, store, process_delayBuffer, process_delayData,
      process_localWritePosition]
    rw [hb, k4, k5, f1]

end FinalVoiceClaims

/-! ## Cursor and phase across a block -/

section AdvanceFacts

variable {F : Type} [LinearOrderedField F] [FloorRing F] {R : Type}

open DelayLineEffect

/-- A unit that the router has only changed in buffer and scratch members is,
after `calculatePositionAndPhase`, one sample later. -/
theorem advancedBy_calc (e e2 : DelayLineEffect F) (f : F) (hk : KeepsCursor e e2) :
    AdvancedBy f e (e2.calculatePositionAndPhase f) := by
  obtain ⟨hc, k2, _, k4⟩ := hk
  refine ⟨sameBlockConstants_trans _ _ _ hc (sameBlockConstants_calc _ _), ?_, ?_⟩
  · rw [calc_localWritePosition_eq, k2, hc.1]
  · rw [calc_phase_eq, k4, hc.2.2.2.2.2]

/-- One iteration of the sample loop moves each of the four units one sample
on, with the LFO frequency passed to its `calculatePositionAndPhase`. -/
theorem sampleBody_advances (lib : Library F R) (cs : ChainSettings F) (ch i : Nat)
    (s : BlockState F R) :
    AdvancedBy 0 s.p.delay (sampleBody lib cs ch i s).p.delay
      ∧ AdvancedBy cs.flangLfoFreq s.p.flanger (sampleBody lib cs ch i s).p.flanger
      ∧ AdvancedBy cs.vibLfoFreq s.p.vibrato (sampleBody lib cs ch i s).p.vibrato
      ∧ AdvancedBy cs.chorLfoFreq s.p.chorus (sampleBody lib cs ch i s).p.chorus := by
  obtain ⟨k1, k2, k3, k4⟩ := route_keepsCursor lib cs ch i (s.buffer ch i)
    { s with p := { s.p with
        dryRevBufferCopy := addSample s.p.dryRevBufferCopy ch i (s.buffer ch i) } }
  simp only [sampleBody, advance]
  exact ⟨advancedBy_calc _ _ _ k1, advancedBy_calc _ _ _ k2, advancedBy_calc _ _ _ k3,
    advancedBy_calc _ _ _ k4⟩

/-- A cursor inside the buffer that moves one slot with a wrap is the next
slot modulo the size. -/
theorem wrap_step (w c : Int) (k : Nat) (h0 : 0 ≤ w) (h1 : w < c) :
    (if (w + k) % c + 1 ≥ c then (w + k) % c + 1 - c else (w + k) % c + 1)
      = (w + (k + 1 : Nat)) % c := by
  have hc : 0 < c := by omega
  have a := Int.emod_nonneg (w + k) (ne_of_gt hc)
  have b := Int.emod_lt_of_pos (w + k) hc
  have e : (w + ((k + 1 : Nat) : Int)) % c = ((w + k) % c + 1) % c := by
    rw [slot_next]
    push_cast
    rw [add_assoc]
  rw [e]
  generalize (w + (k : Int)) % c = x at a b
  split_ifs with h
  · have hx : x + 1 = c := by omega
    rw [hx, Int.emod_self]
    omega
  · exact (Int.emod_eq_of_lt (by omega) (by omega)).symm

/-- The sample loop moves a unit that every iteration moves one sample on:
after `k` iterations a cursor that started inside the buffer is `k` slots on,
modulo the size, and the phase has advanced `k` times. -/
theorem sampleLoop_advanced (lib : Library F R) (cs : ChainSettings F) (ch : Nat)
    (unit : MastersDelayAudioProcessor F R → DelayLineEffect F) (f : F)
    (hbody : ∀ (s : BlockState F R) (i : Nat),
      AdvancedBy f (unit s.p) (unit (sampleBody lib cs ch i s).p))
    (k : Nat) (s : BlockState F R)
    (h0 : 0 ≤ (unit s.p).localWritePosition)
    (h1 : (unit s.p).localWritePosition < (unit s.p).bufferSize) :
    SameBlockConstants (unit s.p) (unit (sampleLoop lib cs ch k s).p)
      ∧ (unit (sampleLoop lib cs ch k s).p).localWritePosition
        = ((unit s.p).localWritePosition + k) % (unit s.p).bufferSize
      ∧ (unit (sampleLoop lib cs ch k s).p).phase
        = advancePhase (f * (unit s.p).inverseSampleRate) k (unit s.p).phase := by
  induction k with
  | zero =>
    refine ⟨sameBlockConstants_refl _, ?_, rfl⟩
    simp only [sampleLoop, Nat.cast_zero, add_zero]
    rw [Int.emod_eq_of_lt h0 h1]
  | succ n ih =>
    obtain ⟨a1, a2, a3⟩ := ih
    obtain ⟨b1, b2, b3⟩ := hbody (sampleLoop lib cs ch n s) n
    refine ⟨sameBlockConstants_trans _ _ _ a1 b1, ?_, ?_⟩
    · simp only [sampleLoop]
      rw [b2, a2, a1.1]
      exact wrap_step _ _ n h0 h1
    · simp only [sampleLoop, advancePhase]
      rw [b3, a3, a1.2.2.2.2.2]

/-- The channel loop keeps the block constants of a unit that every
iteration moves one sample on and every channel restarts with
`prepareDelayBuffer`. -/
theorem channelLoop_unit_constants (lib : Library F R) (cs : ChainSettings F) (numSamples : Nat)
    (unit : MastersDelayAudioProcessor F R → DelayLineEffect F) (f : F) (useLfo : Bool)
    (hbody : ∀ (c : Nat) (s : BlockState F R) (i : Nat),
      AdvancedBy f (unit s.p) (unit (sampleBody lib cs c i s).p))
    (hstart : ∀ (c : Nat) (s : BlockState F R),
      unit (channelStart c s).p = (unit s.p).prepareDelayBuffer c useLfo)
    (k : Nat) (s : BlockState F R) :
    SameBlockConstants (unit s.p) (unit (channelLoop lib cs numSamples k s).p) := by
  have hloop : ∀ (c n : Nat) (t : BlockState F R),
      SameBlockConstants (unit t.p) (unit (sampleLoop lib cs c n t).p) := by
    intro c n t
    induction n with
    | zero => exact sameBlockConstants_refl _
    | succ m ih => exact sameBlockConstants_trans _ _ _ ih (hbody c _ m).1
  induction k with
  | zero => exact sameBlockConstants_refl _
  | succ n ih =>
    have b : SameBlockConstants (unit (channelLoop lib cs numSamples n s).p)
        (unit (channelStart n (channelLoop lib cs numSamples n s)).p) := by
      rw [hstart]
      exact sameBlockConstants_prepareDelayBuffer _ _ _
    exact sameBlockConstants_trans _ _ _ ih
      (sameBlockConstants_trans _ _ _ b (hloop n numSamples _))

/-- In every channel, iteration `i` of the sample loop starts with the cursor
`i` slots after the stored cursor, modulo the size, and, for a unit with LFO,
with the stored phase advanced `i` times. -/
theorem iterationState_advanced (lib : Library F R) (cs : ChainSettings F) (numSamples : Nat)
    (unit : MastersDelayAudioProcessor F R → DelayLineEffect F) (f : F) (useLfo : Bool)
    (hbody : ∀ (c : Nat) (s : BlockState F R) (i : Nat),
      AdvancedBy f (unit s.p) (unit (sampleBody lib cs c i s).p))
    (hstart : ∀ (c : Nat) (s : BlockState F R),
      unit (channelStart c s).p = (unit s.p).prepareDelayBuffer c useLfo)
    (s : BlockState F R) (ch i : Nat) (hr : CursorInRange (unit s.p)) :
    (unit (iterationState lib cs numSamples s ch i).p).localWritePosition
        = ((unit s.p).writePosition + i) % (unit s.p).bufferSize
      ∧ (useLfo = true →
          (unit (iterationState lib cs numSamples s ch i).p).phase
            = advancePhase (f * (unit s.p).inverseSampleRate) i (unit s.p).lfoPhase) := by
  have a := channelLoop_unit_constants lib cs numSamples unit f useLfo hbody hstart ch s
  have hs := hstart ch (channelLoop lib cs numSamples ch s)
  have w1 : (unit (channelStart ch (channelLoop lib cs numSamples ch s)).p).localWritePosition
      = (unit s.p).writePosition := by
    rw [hs]
    cases useLfo <;> exact a.2.2.2.1
  have c1 : (unit (channelStart ch (channelLoop lib cs numSamples ch s)).p).bufferSize
      = (unit s.p).bufferSize := by
    rw [hs]
    cases useLfo <;> exact a.1
  have r1 : (unit (channelStart ch (channelLoop lib cs numSamples ch s)).p).inverseSampleRate
      = (unit s.p).inverseSampleRate := by
    rw [hs]
    cases useLfo <;> exact a.2.2.2.2.2
  obtain ⟨_, b2, b3⟩ := sampleLoop_advanced lib cs ch unit f (hbody ch) i
    (channelStart ch (channelLoop lib cs numSamples ch s))
    (by rw [w1]; exact hr.1) (by rw [w1, c1]; exact hr.2)
  refine ⟨?_, ?_⟩
  · simp only [iterationState]
    rw [b2, w1, c1]
  · intro hl
    have p1 : (unit (channelStart ch (channelLoop lib cs numSamples ch s)).p).phase
        = (unit s.p).lfoPhase := by
      rw [hs, hl]
      exact a.2.2.2.2.1
    simp only [iterationState]
    rw [b3, r1, p1]

/-- The members of a unit that `prepareSmoothing` leaves unchanged. -/
theorem prepareSmoothing_frame (e : DelayLineEffect F) (delayTime width : F) (sampleRate : Int) :
    (e.prepareSmoothing delayTime sampleRate width).bufferSize = e.bufferSize
      ∧ (e.prepareSmoothing delayTime sampleRate width).writePosition = e.writePosition
      ∧ (e.prepareSmoothing delayTime sampleRate width).lfoPhase = e.lfoPhase
      ∧ (e.prepareSmoothing delayTime sampleRate width).inverseSampleRate
          = e.inverseSampleRate := by
  simp only [prepareSmoothing]
  split_ifs <;> exact ⟨rfl, rfl, rfl, rfl⟩

/-- With at least one input channel the channel loop ends in the state that
iteration `numSamples` of the last channel would start in. -/
theorem channelLoop_last (lib : Library F R) (cs : ChainSettings F) (numSamples n : Nat)
    (s : BlockState F R) (h : 1 ≤ n) :
    channelLoop lib cs numSamples n s = iterationState lib cs numSamples s (n - 1) numSamples := by
  cases n with
  | zero => omega
  | succ m => rfl

end AdvanceFacts

section AdvanceClaims

variable {F : Type} [LinearOrderedField F] [FloorRing F] {R : Type}

open DelayLineEffect

/-- C22: cursor and phase persist and advance block by block, whatever the
routing. For every setting of the flags, at least one input channel and every
block length `N`, when the stored cursors are inside their buffers: after
`processBlock` each of the four units has `writePosition = (w0 + N) mod
capacity`, with `w0` and the capacity taken before the block (the channel
count does not enter); the flanger, vibrato and chorus units have `lfoPhase`
equal to the previous `lfoPhase` advanced `N` times by `lfoFreq *
inverseSampleRate` with wrapping; and in every channel iteration `i` of the
sample loop starts with the cursor `(w0 + i) mod capacity` and the phase
advanced `i` times. -/
theorem C22_cursor_and_phase_advance (lib : Library F R) (cs : ChainSettings F)
    (numSamples : Nat) (s : BlockState F R) (channel sample : Nat)
    (hC : 1 ≤ s.p.totalNumInputChannels)
    (hd : CursorInRange s.p.delay) (hf : CursorInRange s.p.flanger)
    (hv : CursorInRange s.p.vibrato) (hc : CursorInRange s.p.chorus) :
    ((processBlock lib cs numSamples s).p.delay.writePosition
          = (s.p.delay.writePosition + numSamples) % s.p.delay.bufferSize
        ∧ (processBlock lib cs numSamples s).p.flanger.writePosition
          = (s.p.flanger.writePosition + numSamples) % s.p.flanger.bufferSize
        ∧ (processBlock lib cs numSamples s).p.vibrato.writePosition
          = (s.p.vibrato.writePosition + numSamples) % s.p.vibrato.bufferSize
        ∧ (processBlock lib cs numSamples s).p.chorus.writePosition
          = (s.p.chorus.writePosition + numSamples) % s.p.chorus.bufferSize)
      ∧ ((processBlock lib cs numSamples s).p.flanger.lfoPhase
          = advancePhase (cs.flangLfoFreq * s.p.flanger.inverseSampleRate) numSamples
              s.p.flanger.lfoPhase
        ∧ (processBlock lib cs numSamples s).p.vibrato.lfoPhase
          = advancePhase (cs.vibLfoFreq * s.p.vibrato.inverseSampleRate) numSamples
              s.p.vibrato.lfoPhase
        ∧ (processBlock lib cs numSamples s).p.chorus.lfoPhase
          = advancePhase (cs.chorLfoFreq * s.p.chorus.inverseSampleRate) numSamples
              s.p.chorus.lfoPhase)
      ∧ ((iterationState lib cs numSamples { p := blockSetup lib cs s.p, buffer := s.buffer }
            channel sample).p.delay.localWritePosition
          = (s.p.delay.writePosition + sample) % s.p.delay.bufferSize
        ∧ (iterationState lib cs numSamples { p := blockSetup lib cs s.p, buffer := s.buffer }
            channel sample).p.flanger.localWritePosition
          = (s.p.flanger.writePosition + sample) % s.p.flanger.bufferSize
        ∧ (iterationState lib cs numSamples { p := blockSetup lib cs s.p, buffer := s.buffer }
            channel sample).p.vibrato.localWritePosition
          = (s.p.vibrato.writePosition + sample) % s.p.vibrato.bufferSize
        ∧ (iterationState lib cs numSamples { p := blockSetup lib cs s.p, buffer := s.buffer }
            channel sample).p.chorus.localWritePosition
          = (s.p.chorus.writePosition + sample) % s.p.chorus.bufferSize)
      ∧ ((iterationState lib cs numSamples { p := blockSetup lib cs s.p, buffer := s.buffer }
            channel sample).p.flanger.phase
          = advancePhase (cs.flangLfoFreq * s.p.flanger.inverseSampleRate) sample
              s.p.flanger.lfoPhase
        ∧ (iterationState lib cs numSamples { p := blockSetup lib cs s.p, buffer := s.buffer }
            channel sample).p.vibrato.phase
          = advancePhase (cs.vibLfoFreq * s.p.vibrato.inverseSampleRate) sample
              s.p.vibrato.lfoPhase
        ∧ (iterationState lib cs numSamples { p := blockSetup lib cs s.p, buffer := s.buffer }
            channel sample).p.chorus.phase
          = advancePhase (cs.chorLfoFreq * s.p.chorus.inverseSampleRate) sample
              s.p.chorus.lfoPhase) := by
  have key : ∀ (ch i : Nat),
      ((iterationState lib cs numSamples { p := blockSetup lib cs s.p, buffer := s.buffer }
            ch i).p.delay.localWritePosition
          = (s.p.delay.writePosition + i) % s.p.delay.bufferSize
        ∧ (iterationState lib cs numSamples { p := blockSetup lib cs s.p, buffer := s.buffer }
            ch i).p.flanger.localWritePosition
          = (s.p.flanger.writePosition + i) % s.p.flanger.bufferSize
        ∧ (iterationState lib cs numSamples { p := blockSetup lib cs s.p, buffer := s.buffer }
            ch i).p.vibrato.localWritePosition
          = (s.p.vibrato.writePosition + i) % s.p.vibrato.bufferSize
        ∧ (iterationState lib cs numSamples { p := blockSetup lib cs s.p, buffer := s.buffer }
            ch i).p.chorus.localWritePosition
          = (s.p.chorus.writePosition + i) % s.p.chorus.bufferSize)
      ∧ ((iterationState lib cs numSamples { p := blockSetup lib cs s.p, buffer := s.buffer }
            ch i).p.flanger.phase
          = advancePhase (cs.flangLfoFreq * s.p.flanger.inverseSampleRate) i
              s.p.flanger.lfoPhase
        ∧ (iterationState lib cs numSamples { p := blockSetup lib cs s.p, buffer := s.buffer }
            ch i).p.vibrato.phase
          = advancePhase (cs.vibLfoFreq * s.p.vibrato.inverseSampleRate) i
              s.p.vibrato.lfoPhase
        ∧ (iterationState lib cs numSamples { p := blockSetup lib cs s.p, buffer := s.buffer }
            ch i).p.chorus.phase
          = advancePhase (cs.chorLfoFreq * s.p.chorus.inverseSampleRate) i
              s.p.chorus.lfoPhase) := by
    intro ch i
    obtain ⟨d1, d2, _, _⟩ := prepareSmoothing_frame s.p.delay cs.delayTime 0
      (truncToInt s.p.sampleRate)
    obtain ⟨f1, f2, f3, f4⟩ := prepareSmoothing_frame s.p.flanger cs.flangDelay cs.flangWidth
      (truncToInt s.p.sampleRate)
    obtain ⟨v1, v2, v3, v4⟩ := prepareSmoothing_frame s.p.vibrato cs.vibWidth 0
      (truncToInt s.p.sampleRate)
    obtain ⟨c1, c2, c3, c4⟩ := prepareSmoothing_frame s.p.chorus cs.chorDelay cs.chorWidth
      (truncToInt s.p.sampleRate)
    have a := iterationState_advanced lib cs numSamples (fun p => p.delay) 0 false
      (fun c t j => (sampleBody_advances lib cs c j t).1) (fun _ _ => rfl)
      { p := blockSetup lib cs s.p, buffer := s.buffer } ch i
      ⟨by rw [show (blockSetup lib cs s.p).delay.writePosition = s.p.delay.writePosition from d2]
          exact hd.1,
        by
          rw [show (blockSetup lib cs s.p).delay.writePosition = s.p.delay.writePosition from d2,
            show (blockSetup lib cs s.p).delay.bufferSize = s.p.delay.bufferSize from d1]
          exact hd.2⟩
    have b := iterationState_advanced lib cs numSamples (fun p => p.flanger) cs.flangLfoFreq true
      (fun c t j => (sampleBody_advances lib cs c j t).2.1) (fun _ _ => rfl)
      { p := blockSetup lib cs s.p, buffer := s.buffer } ch i
      ⟨by rw [show (blockSetup lib cs s.p).flanger.writePosition = s.p.flanger.writePosition
            from f2]
          exact hf.1,
        by
          rw [show (blockSetup lib cs s.p).flanger.writePosition = s.p.flanger.writePosition
            from f2,
            show (blockSetup lib cs s.p).flanger.bufferSize = s.p.flanger.bufferSize from f1]
          exact hf.2⟩
    have c := iterationState_advanced lib cs numSamples (fun p => p.vibrato) cs.vibLfoFreq true
      (fun c t j => (sampleBody_advances lib cs c j t).2.2.1) (fun _ _ => rfl)
      { p := blockSetup lib cs s.p, buffer := s.buffer } ch i
      ⟨by rw [show (blockSetup lib cs s.p).vibrato.writePosition = s.p.vibrato.writePosition
            from v2]
          exact hv.1,
        by
          rw [show (blockSetup lib cs s.p).vibrato.writePosition = s.p.vibrato.writePosition
            from v2,
            show (blockSetup lib cs s.p).vibrato.bufferSize = s.p.vibrato.bufferSize from v1]
          exact hv.2⟩
    have d := iterationState_advanced lib cs numSamples (fun p => p.chorus) cs.chorLfoFreq true
      (fun c t j => (sampleBody_advances lib cs c j t).2.2.2) (fun _ _ => rfl)
      { p := blockSetup lib cs s.p, buffer := s.buffer } ch i
      ⟨by rw [show (blockSetup lib cs s.p).chorus.writePosition = s.p.chorus.writePosition
            from c2]
          exact hc.1,
        by
          rw [show (blockSetup lib cs s.p).chorus.writePosition = s.p.chorus.writePosition
            from c2,
            show (blockSetup lib cs s.p).chorus.bufferSize = s.p.chorus.bufferSize from c1]
          exact hc.2⟩
    simp only at a b c d
    have e1 : (blockSetup lib cs s.p).delay.writePosition = s.p.delay.writePosition := d2
    have e2 : (blockSetup lib cs s.p).delay.bufferSize = s.p.delay.bufferSize := d1
    have e3 : (blockSetup lib cs s.p).flanger.writePosition = s.p.flanger.writePosition := f2
    have e4 : (blockSetup lib cs s.p).flanger.bufferSize = s.p.flanger.bufferSize := f1
    have e5 : (blockSetup lib cs s.p).flanger.lfoPhase = s.p.flanger.lfoPhase := f3
    have e6 : (blockSetup lib cs s.p).flanger.inverseSampleRate = s.p.flanger.inverseSampleRate :=
      f4
    have e7 : (blockSetup lib cs s.p).vibrato.writePosition = s.p.vibrato.writePosition := v2
    have e8 : (blockSetup lib cs s.p).vibrato.bufferSize = s.p.vibrato.bufferSize := v1
    have e9 : (blockSetup lib cs s.p).vibrato.lfoPhase = s.p.vibrato.lfoPhase := v3
    have e10 : (blockSetup lib cs s.p).vibrato.inverseSampleRate
        = s.p.vibrato.inverseSampleRate := v4
    have e11 : (blockSetup lib cs s.p).chorus.writePosition = s.p.chorus.writePosition := c2
    have e12 : (blockSetup lib cs s.p).chorus.bufferSize = s.p.chorus.bufferSize := c1
    have e13 : (blockSetup lib cs s.p).chorus.lfoPhase = s.p.chorus.lfoPhase := c3
    have e14 : (blockSetup lib cs s.p).chorus.inverseSampleRate
        = s.p.chorus.inverseSampleRate := c4
    rw [e1, e2] at a
    rw [e3, e4, e5, e6] at b
    rw [e7, e8, e9, e10] at c
    rw [e11, e12, e13, e14] at d
    exact ⟨⟨a.1, b.1, c.1, d.1⟩, b.2 trivial, c.2 trivial, d.2 trivial⟩
  have hlast := channelLoop_last lib cs numSamples s.p.totalNumInputChannels
    { p := blockSetup lib cs s.p, buffer := s.buffer } hC
  obtain ⟨⟨w1, w2, w3, w4⟩, p2, p3, p4⟩ := key (s.p.totalNumInputChannels - 1) numSamples
  rw [← hlast] at w1 w2 w3 w4 p2 p3 p4
  exact ⟨⟨w1, w2, w3, w4⟩, ⟨p2, p3, p4⟩, key channel sample⟩

/-- C22 at a concrete block: the stereo state `chorusDemo`, three samples,
the chorus path. The stored cursor of the base delay unit moves from 0 to 3 in
its four slots, and the chorus unit starts sample 2 of channel 1 on slot 2. -/
theorem C22_cursor_and_phase_advance_witness :
    (processBlock flatLibrary chorusSettings 3 chorusDemo).p.delay.writePosition
        = (chorusDemo.p.delay.writePosition + ((3 : Nat) : Int)) % chorusDemo.p.delay.bufferSize
      ∧ (processBlock flatLibrary chorusSettings 3 chorusDemo).p.chorus.lfoPhase
        = advancePhase (chorusSettings.chorLfoFreq * chorusDemo.p.chorus.inverseSampleRate) 3
            chorusDemo.p.chorus.lfoPhase
      ∧ (iterationState flatLibrary chorusSettings 3
            { p := blockSetup flatLibrary chorusSettings chorusDemo.p, buffer := chorusDemo.buffer }
            1 2).p.chorus.localWritePosition
        = (chorusDemo.p.chorus.writePosition + ((2 : Nat) : Int)) % chorusDemo.p.chorus.bufferSize :=
  ⟨(C22_cursor_and_phase_advance flatLibrary chorusSettings 3 chorusDemo 1 2 (by decide)
      ⟨by decide, by decide⟩ ⟨by decide, by decide⟩ ⟨by decide, by decide⟩
      ⟨by decide, by decide⟩).1.1,
    (C22_cursor_and_phase_advance flatLibrary chorusSettings 3 chorusDemo 1 2 (by decide)
      ⟨by decide, by decide⟩ ⟨by decide, by decide⟩ ⟨by decide, by decide⟩
      ⟨by decide, by decide⟩).2.1.2.2,
    (C22_cursor_and_phase_advance flatLibrary chorusSettings 3 chorusDemo 1 2 (by decide)
      ⟨by decide, by decide⟩ ⟨by decide, by decide⟩ ⟨by decide, by decide⟩
      ⟨by decide, by decide⟩).2.2.1.2.2.2⟩

end AdvanceClaims

/-! ## Reads under the declared parameter ranges -/

section RangeFacts

variable {F : Type} [LinearOrderedField F] [FloorRing F] {R : Type}

open DelayLineEffect

/-- A read at a delay in `(0, bufferSize - 1]` from a cursor inside the
buffer is inside the buffer and misses the cursor. -/
theorem readInRange_of (e : DelayLineEffect F) (d : F) (hd0 : 0 < d)
    (hd1 : d ≤ (e.bufferSize : F) - 1) (h0 : 0 ≤ e.localWritePosition)
    (h1 : e.localWritePosition < e.bufferSize) : ReadInRange e d := by
  have hc : 1 ≤ e.bufferSize := by omega
  have hcF : (0 : F) < (e.bufferSize : F) := by
    have : (0 : Int) < e.bufferSize := by omega
    exact_mod_cast this
  have hwF : (0 : F) ≤ (e.localWritePosition : F) := by exact_mod_cast h0
  have hwc : (e.localWritePosition : F) + 1 ≤ (e.bufferSize : F) := by
    have : e.localWritePosition + 1 ≤ e.bufferSize := by omega
    exact_mod_cast this
  have hx : (0 : F) ≤ (e.localWritePosition : F) - d + (e.bufferSize : F) := by linarith
  have f0 := fmodf_nonneg _ _ hx hcF
  have f1 := fmodf_lt _ _ hx hcF
  have hne : Int.floor (fmodf ((e.localWritePosition : F) - d + (e.bufferSize : F))
      (e.bufferSize : F)) ≠ e.localWritePosition := by
    rw [fmodf_of_nonneg _ _ hx hcF]
    by_cases hlt : (e.localWritePosition : F) - d + (e.bufferSize : F) < (e.bufferSize : F)
    · have hq : Int.floor (((e.localWritePosition : F) - d + (e.bufferSize : F))
          / (e.bufferSize : F)) = 0 := by
        rw [Int.floor_eq_iff]
        refine ⟨by simpa using div_nonneg hx (le_of_lt hcF), ?_⟩
        simpa using (div_lt_one hcF).2 hlt
      rw [hq]
      intro hfl
      have hle : e.localWritePosition + 1
          ≤ Int.floor ((e.localWritePosition : F) - d + (e.bufferSize : F)
              - (((0 : Int)) : F) * (e.bufferSize : F)) := by
        rw [Int.le_floor]
        push_cast
        linarith
      omega
    · have hge : (e.bufferSize : F) ≤ (e.localWritePosition : F) - d + (e.bufferSize : F) :=
        le_of_not_lt hlt
      have hq : Int.floor (((e.localWritePosition : F) - d + (e.bufferSize : F))
          / (e.bufferSize : F)) = 1 := by
        rw [Int.floor_eq_iff]
        refine ⟨by simpa using (one_le_div hcF).2 hge, ?_⟩
        rw [div_lt_iff₀ hcF]
        push_cast
        linarith
      rw [hq]
      intro hfl
      have hl : Int.floor ((e.localWritePosition : F) - d + (e.bufferSize : F)
          - (((1 : Int)) : F) * (e.bufferSize : F)) < e.localWritePosition := by
        rw [Int.floor_lt]
        push_cast
        linarith
      omega
  refine ⟨⟨hd0, hd1⟩, hx, ?_, ?_⟩
  · rw [processTraced_reads, if_neg hne]
    obtain ⟨t0, t1, t2, t3⟩ := tapIndices_in_range
      ({ e with
          out := 0
          readPosition :=
            fmodf ((e.localWritePosition : F) - d + (e.bufferSize : F)) (e.bufferSize : F)
          localReadPosition :=
            Int.floor (fmodf ((e.localWritePosition : F) - d + (e.bufferSize : F))
              (e.bufferSize : F)) } : DelayLineEffect F)
      hc (Int.floor_nonneg.2 f0) (Int.floor_lt.2 f1)
    intro idx hidx
    simp only [cubicReads, List.mem_cons, List.mem_singleton, List.not_mem_nil, or_false] at hidx
    rcases hidx with h | h | h | h
    · rw [h]; exact t0
    · rw [h]; exact t1
    · rw [h]; exact t2
    · rw [h]; exact t3
  · rw [process_localReadPosition]
    exact hne

/-- A cursor that is a remainder modulo a positive size is inside the buffer. -/
theorem emod_in_range (w c : Int) (k : Nat) (h0 : 0 ≤ w) (h1 : w < c) :
    0 ≤ (w + k) % c ∧ (w + k) % c < c :=
  ⟨Int.emod_nonneg _ (by omega), Int.emod_lt_of_pos _ (by omega)⟩

/-- In a block that starts with the stored cursor of a unit inside its
buffer, every iteration of the sample loop finds the unit with the buffer size
it had and with its cursor inside the buffer. -/
theorem iterationState_unit_in_range (lib : Library F R) (cs : ChainSettings F)
    (numSamples : Nat) (unit : MastersDelayAudioProcessor F R → DelayLineEffect F) (f : F)
    (useLfo : Bool)
    (hbody : ∀ (c : Nat) (s : BlockState F R) (i : Nat),
      AdvancedBy f (unit s.p) (unit (sampleBody lib cs c i s).p))
    (hstart : ∀ (c : Nat) (s : BlockState F R),
      unit (channelStart c s).p = (unit s.p).prepareDelayBuffer c useLfo)
    (s : BlockState F R) (ch i : Nat) (hr : CursorInRange (unit s.p)) :
    (unit (iterationState lib cs numSamples s ch i).p).bufferSize = (unit s.p).bufferSize
      ∧ (unit (iterationState lib cs numSamples s ch i).p).currentDelayTime
          = (unit s.p).currentDelayTime
      ∧ (unit (iterationState lib cs numSamples s ch i).p).currentWidth
          = (unit s.p).currentWidth
      ∧ 0 ≤ (unit (iterationState lib cs numSamples s ch i).p).localWritePosition
      ∧ (unit (iterationState lib cs numSamples s ch i).p).localWritePosition
          < (unit (iterationState lib cs numSamples s ch i).p).bufferSize := by
  have a := channelLoop_unit_constants lib cs numSamples unit f useLfo hbody hstart ch s
  have b : SameBlockConstants (unit (channelLoop lib cs numSamples ch s).p)
      (unit (channelStart ch (channelLoop lib cs numSamples ch s)).p) := by
    rw [hstart]
    exact sameBlockConstants_prepareDelayBuffer _ _ _
  have hloop : ∀ (n : Nat) (t : BlockState F R),
      SameBlockConstants (unit t.p) (unit (sampleLoop lib cs ch n t).p) := by
    intro n t
    induction n with
    | zero => exact sameBlockConstants_refl _
    | succ m ih => exact sameBlockConstants_trans _ _ _ ih (hbody ch _ m).1
  have c : SameBlockConstants (unit s.p) (unit (iterationState lib cs numSamples s ch i).p) :=
    sameBlockConstants_trans _ _ _ a (sameBlockConstants_trans _ _ _ b (hloop i _))
  obtain ⟨w, _⟩ := iterationState_advanced lib cs numSamples unit f useLfo hbody hstart s ch i hr
  obtain ⟨r0, r1⟩ := emod_in_range _ _ i hr.1 hr.2
  refine ⟨c.1, c.2.1, c.2.2.1, ?_, ?_⟩
  · rw [w]; exact r0
  · rw [w, c.1]; exact r1

/-- For a sample rate of at least 200 Hz the four buffer sizes of
`prepareToPlay` leave room for the largest delays of the declared ranges. -/
theorem capacity_bounds (sr : Int) (hsr : 200 ≤ sr) :
    ((truncToInt ((3 : F) * ((sr : Int) : F)) + 1 : Int) : F) - 1 = 3 * ((sr : Int) : F)
      ∧ (35 / 1000 : F) * ((sr : Int) : F)
          ≤ ((truncToInt ((2 / 100 + 2 / 100 : F) * ((sr : Int) : F)) + 1 : Int) : F) - 1
      ∧ (24 / 1000 : F) * ((sr : Int) : F)
          ≤ ((truncToInt ((4 / 100 : F) * ((sr : Int) : F)) + 1 : Int) : F) - 1
      ∧ (725 / 10000 : F) * ((sr : Int) : F)
          ≤ ((truncToInt ((8 / 100 : F) * ((sr : Int) : F)) + 1 : Int) : F) - 1 := by
  have hs : (200 : F) ≤ ((sr : Int) : F) := by exact_mod_cast hsr
  have htr : ∀ x : F, 0 ≤ x → x - 1 < ((truncToInt x : Int) : F) := by
    intro x hx
    simp only [truncToInt, if_pos hx]
    exact Int.sub_one_lt_floor x
  refine ⟨?_, ?_, ?_, ?_⟩
  · have e : (3 : F) * ((sr : Int) : F) = (((3 * sr : Int)) : F) := by push_cast; ring
    rw [e, truncToInt_intCast]
    push_cast
    ring
  · have h := htr ((2 / 100 + 2 / 100 : F) * ((sr : Int) : F)) (by positivity)
    push_cast
    linarith
  · have h := htr ((4 / 100 : F) * ((sr : Int) : F)) (by positivity)
    push_cast
    linarith
  · have h := htr ((8 / 100 : F) * ((sr : Int) : F)) (by positivity)
    push_cast
    linarith

/-- The conversion to `int` of a value that is not negative is not negative. -/
theorem truncToInt_nonneg (x : F) (hx : 0 ≤ x) : 0 ≤ truncToInt x := by
  simp only [truncToInt, if_pos hx]
  exact Int.floor_nonneg.2 hx

/-- The size and the cursor that `prepare` leaves when the maximal delay in
samples is not negative. -/
theorem prepare_size (e : DelayLineEffect F) (sampleRate channels : Int) (maxDelayTime : F)
    (h : 0 ≤ maxDelayTime * (sampleRate : F))
    (h1 : maxDelayTime * (sampleRate : F) < 2147483647) :
    (e.prepare sampleRate channels maxDelayTime).bufferSize
        = truncToInt (maxDelayTime * (sampleRate : F)) + 1
      ∧ (e.prepare sampleRate channels maxDelayTime).writePosition = 0 := by
  have ht : truncToInt (maxDelayTime * (sampleRate : F))
      = Int.floor (maxDelayTime * (sampleRate : F)) := by simp only [truncToInt, if_pos h]
  have hf0 : 0 ≤ Int.floor (maxDelayTime * (sampleRate : F)) := Int.floor_nonneg.2 h
  have hf1 : Int.floor (maxDelayTime * (sampleRate : F)) < 2147483647 := by
    rw [Int.floor_lt]
    exact_mod_cast h1
  have hconv := floatToInt32_of_nonneg (maxDelayTime * (sampleRate : F)) h (by linarith)
  constructor
  · simp only [prepare]
    rw [hconv, wrapInt32_of_fits _ (by omega) (by omega), if_neg (by omega), ht]
  · simp only [prepare]

/-- After `prepareToPlay` at an integer sample rate `sr` with `200 ≤ sr` and
`3 * sr ≤ 2^24` the processor is prepared at that rate. -/
theorem prepareToPlay_preparedAt (lib : Library F R) (p0 : MastersDelayAudioProcessor F R)
    (sr : Int) (hsr : 200 ≤ sr) (hhi : 3 * sr ≤ 16777216)
    (hp0 : p0.sampleRate = ((sr : Int) : F)) :
    PreparedAt sr (prepareToPlay lib p0 p0.sampleRate) := by
  have hs : (0 : F) ≤ ((sr : Int) : F) := by
    have : (0 : Int) ≤ sr := by omega
    exact_mod_cast this
  have hu : (3 : F) * ((sr : Int) : F) ≤ 16777216 := by exact_mod_cast hhi
  have ht : truncToInt p0.sampleRate = sr := by rw [hp0, truncToInt_intCast]
  obtain ⟨d1, d2⟩ := prepare_size p0.delay sr (p0.totalNumInputChannels : Int) 3
    (by positivity) (by linarith)
  obtain ⟨f1, f2⟩ := prepare_size p0.flanger sr (p0.totalNumInputChannels : Int)
    (2 / 100 + 2 / 100) (by positivity) (by linarith)
  obtain ⟨v1, v2⟩ := prepare_size p0.vibrato sr (p0.totalNumInputChannels : Int)
    (4 / 100) (by positivity) (by linarith)
  obtain ⟨c1, c2⟩ := prepare_size p0.chorus sr (p0.totalNumInputChannels : Int)
    (8 / 100) (by positivity) (by linarith)
  have t1 := truncToInt_nonneg ((3 : F) * ((sr : Int) : F)) (by positivity)
  have t2 := truncToInt_nonneg ((2 / 100 + 2 / 100 : F) * ((sr : Int) : F)) (by positivity)
  have t3 := truncToInt_nonneg ((4 / 100 : F) * ((sr : Int) : F)) (by positivity)
  have t4 := truncToInt_nonneg ((8 / 100 : F) * ((sr : Int) : F)) (by positivity)
  simp only [PreparedAt, CursorInRange, prepareToPlay, ht]
  refine ⟨hp0, ⟨d1, ?_, ?_⟩, ⟨f1, ?_, ?_⟩, ⟨v1, ?_, ?_⟩, ⟨c1, ?_, ?_⟩⟩
  · rw [d2]
  · rw [d2, d1]; omega
  · show 0 ≤ (p0.flanger.prepare sr (p0.totalNumInputChannels : Int)
      (2 / 100 + 2 / 100)).writePosition
    rw [f2]
  · show (p0.flanger.prepare sr (p0.totalNumInputChannels : Int)
      (2 / 100 + 2 / 100)).writePosition
        < (p0.flanger.prepare sr (p0.totalNumInputChannels : Int) (2 / 100 + 2 / 100)).bufferSize
    rw [f2, f1]; omega
  · show 0 ≤ (p0.vibrato.prepare sr (p0.totalNumInputChannels : Int) (4 / 100)).writePosition
    rw [v2]
  · show (p0.vibrato.prepare sr (p0.totalNumInputChannels : Int) (4 / 100)).writePosition
        < (p0.vibrato.prepare sr (p0.totalNumInputChannels : Int) (4 / 100)).bufferSize
    rw [v2, v1]; omega
  · show 0 ≤ (p0.chorus.prepare sr (p0.totalNumInputChannels : Int) (8 / 100)).writePosition
    rw [c2]
  · show (p0.chorus.prepare sr (p0.totalNumInputChannels : Int) (8 / 100)).writePosition
        < (p0.chorus.prepare sr (p0.totalNumInputChannels : Int) (8 / 100)).bufferSize
    rw [c2, c1]; omega

/-- Bounds of a delay `a * sr + w * sr * l` in samples from bounds of its
parts. -/
theorem delay_bounds (a w l sr A W L : F) (ha0 : 0 < a) (ha : a ≤ A) (hw0 : 0 ≤ w)
    (hw : w ≤ W) (hl0 : 0 ≤ l) (hl : l ≤ L) (hs : 0 < sr) :
    0 < a * sr + w * sr * l ∧ a * sr + w * sr * l ≤ (A + W * L) * sr := by
  have h1 : 0 < a * sr := mul_pos ha0 hs
  have h2 : 0 ≤ w * sr * l := mul_nonneg (mul_nonneg hw0 hs.le) hl0
  have h3 : a * sr ≤ A * sr := mul_le_mul_of_nonneg_right ha hs.le
  have h4 : w * sr * l ≤ W * sr * L :=
    mul_le_mul (mul_le_mul_of_nonneg_right hw hs.le) hl hl0
      (mul_nonneg (le_trans hw0 hw) hs.le)
  constructor
  · linarith
  · have e : (A + W * L) * sr = A * sr + W * sr * L := by ring
    rw [e]
    linarith

/-- What the block setup leaves in the four units: sizes and stored cursors
are kept, the delays and widths are the targets in samples. -/
theorem blockSetup_unit_values (lib : Library F R) (cs : ChainSettings F)
    (p : MastersDelayAudioProcessor F R) :
    ((blockSetup lib cs p).delay.bufferSize = p.delay.bufferSize
        ∧ (blockSetup lib cs p).delay.writePosition = p.delay.writePosition
        ∧ (blockSetup lib cs p).delay.currentDelayTime
            = cs.delayTime * ((truncToInt p.sampleRate : Int) : F))
      ∧ ((blockSetup lib cs p).flanger.bufferSize = p.flanger.bufferSize
        ∧ (blockSetup lib cs p).flanger.writePosition = p.flanger.writePosition
        ∧ (blockSetup lib cs p).flanger.currentDelayTime
            = cs.flangDelay * ((truncToInt p.sampleRate : Int) : F)
        ∧ (blockSetup lib cs p).flanger.currentWidth
            = (if cs.flangWidth ≠ 0 then cs.flangWidth * ((truncToInt p.sampleRate : Int) : F)
              else p.flanger.currentWidth))
      ∧ ((blockSetup lib cs p).vibrato.bufferSize = p.vibrato.bufferSize
        ∧ (blockSetup lib cs p).vibrato.writePosition = p.vibrato.writePosition
        ∧ (blockSetup lib cs p).vibrato.currentDelayTime
            = cs.vibWidth * ((truncToInt p.sampleRate : Int) : F))
      ∧ ((blockSetup lib cs p).chorus.bufferSize = p.chorus.bufferSize
        ∧ (blockSetup lib cs p).chorus.writePosition = p.chorus.writePosition
        ∧ (blockSetup lib cs p).chorus.currentDelayTime
            = cs.chorDelay * ((truncToInt p.sampleRate : Int) : F)
        ∧ (blockSetup lib cs p).chorus.currentWidth
            = (if cs.chorWidth ≠ 0 then cs.chorWidth * ((truncToInt p.sampleRate : Int) : F)
              else p.chorus.currentWidth)) := by
  obtain ⟨d1, d2, _, _⟩ := prepareSmoothing_frame p.delay cs.delayTime 0
    (truncToInt p.sampleRate)
  obtain ⟨f1, f2, _, _⟩ := prepareSmoothing_frame p.flanger cs.flangDelay cs.flangWidth
    (truncToInt p.sampleRate)
  obtain ⟨v1, v2, _, _⟩ := prepareSmoothing_frame p.vibrato cs.vibWidth 0
    (truncToInt p.sampleRate)
  obtain ⟨c1, c2, _, _⟩ := prepareSmoothing_frame p.chorus cs.chorDelay cs.chorWidth
    (truncToInt p.sampleRate)
  obtain ⟨d3, _⟩ := prepareSmoothing_values p.delay cs.delayTime 0 (truncToInt p.sampleRate)
  obtain ⟨f3, f4⟩ := prepareSmoothing_values p.flanger cs.flangDelay cs.flangWidth
    (truncToInt p.sampleRate)
  obtain ⟨v3, _⟩ := prepareSmoothing_values p.vibrato cs.vibWidth 0 (truncToInt p.sampleRate)
  obtain ⟨c3, c4⟩ := prepareSmoothing_values p.chorus cs.chorDelay cs.chorWidth
    (truncToInt p.sampleRate)
  exact ⟨⟨d1, d2, d3⟩, ⟨f1, f2, f3, f4⟩, ⟨v1, v2, v3⟩, ⟨c1, c2, c3, c4⟩⟩

/-- The advance of the cursor keeps the result of the read. -/
theorem sameRead_calc (e e2 : DelayLineEffect F) (f : F) (h : SameRead e e2) :
    SameRead e (e2.calculatePositionAndPhase f) := by
  obtain ⟨h1, h2, h3⟩ := h
  refine ⟨?_, ?_, ?_⟩
  · rw [← h1]
    simp only [calculatePositionAndPhase]
    split_ifs <;> rfl
  · rw [← h2]
    simp only [calculatePositionAndPhase]
    split_ifs <;> rfl
  · rw [calc_out, h3]

/-- A store into the buffer keeps the result of the read. -/
theorem sameRead_store (e : DelayLineEffect F) (v : F) : SameRead e (e.store v) :=
  ⟨rfl, rfl, rfl⟩

end RangeFacts

section RangeClaims

variable {F : Type} [LinearOrderedField F] [FloorRing F] {R : Type}

open DelayLineEffect

set_option maxHeartbeats 1600000

/-- C25 fails as stated at the integer sample rate 2000000000 Hz, which is at
least 200, with the settings `rangeSettings` inside the declared ranges (delay
time 0.5 s): the product `3 * 2000000000` does not fit the 32-bit `int` of
`prepare`, so `prepareToPlay` leaves the base delay unit with the buffer size
1, while the delay of the unit in the first iteration of the sample loop is
1000000000 samples, which exceeds `bufferSize - 1 = 0`. -/
theorem C25_sample_rate_counterexample :
    (200 : Int) ≤ 2000000000
      ∧ hugeRateDemo.sampleRate = (((2000000000 : Int)) : ℚ)
      ∧ DeclaredRanges rangeSettings
      ∧ (prepareToPlay flatLibrary hugeRateDemo hugeRateDemo.sampleRate).delay.bufferSize = 1
      ∧ (iterationState flatLibrary rangeSettings 1
            { p := blockSetup flatLibrary rangeSettings
                (prepareToPlay flatLibrary hugeRateDemo hugeRateDemo.sampleRate),
              buffer := flangerDemo.buffer } 0 0).p.delay.bufferSize = 1
      ∧ (iterationState flatLibrary rangeSettings 1
            { p := blockSetup flatLibrary rangeSettings
                (prepareToPlay flatLibrary hugeRateDemo hugeRateDemo.sampleRate),
              buffer := flangerDemo.buffer } 0 0).p.delay.currentDelayTime = 1000000000
      ∧ ¬ ReadInRange
          (iterationState flatLibrary rangeSettings 1
            { p := blockSetup flatLibrary rangeSettings
                (prepareToPlay flatLibrary hugeRateDemo hugeRateDemo.sampleRate),
              buffer := flangerDemo.buffer } 0 0).p.delay
          (iterationState flatLibrary rangeSettings 1
            { p := blockSetup flatLibrary rangeSettings
                (prepareToPlay flatLibrary hugeRateDemo hugeRateDemo.sampleRate),
              buffer := flangerDemo.buffer } 0 0).p.delay.currentDelayTime := by
  have hrate : hugeRateDemo.sampleRate = (((2000000000 : Int)) : ℚ) := rfl
  have ht : truncToInt hugeRateDemo.sampleRate = 2000000000 := by
    rw [hrate, truncToInt_intCast]
  have hprod : truncToInt ((3 : ℚ) * (((2000000000 : Int)) : ℚ)) = 6000000000 := by
    have h : (3 : ℚ) * (((2000000000 : Int)) : ℚ) = (((6000000000 : Int)) : ℚ) := by norm_num
    rw [h, truncToInt_intCast]
  have hconv : floatToInt32 ((3 : ℚ) * (((2000000000 : Int)) : ℚ)) = -2147483648 := by
    unfold floatToInt32
    rw [hprod]
    decide
  have hwrap : wrapInt32 (-2147483648 + 1) = -2147483647 := by decide
  have hsize : (prepareToPlay flatLibrary hugeRateDemo hugeRateDemo.sampleRate).delay.bufferSize
      = 1 := by
    simp only [prepareToPlay, prepare]
    rw [ht, hconv, hwrap]
    decide
  have hwp : (prepareToPlay flatLibrary hugeRateDemo hugeRateDemo.sampleRate).delay.writePosition
      = 0 := by
    simp only [prepareToPlay, prepare]
  have hrate2 : (prepareToPlay flatLibrary hugeRateDemo hugeRateDemo.sampleRate).sampleRate
      = (((2000000000 : Int)) : ℚ) := rfl
  obtain ⟨⟨bd1, bd2, bd3⟩, _⟩ := blockSetup_unit_values flatLibrary rangeSettings
    (prepareToPlay flatLibrary hugeRateDemo hugeRateDemo.sampleRate)
  rw [hrate2, truncToInt_intCast] at bd3
  obtain ⟨d1, d2, _, _, _⟩ := iterationState_unit_in_range flatLibrary rangeSettings 1
    (fun q => q.delay) 0 false (fun c t j => (sampleBody_advances flatLibrary rangeSettings c j t).1)
    (fun _ _ => rfl)
    { p := blockSetup flatLibrary rangeSettings
        (prepareToPlay flatLibrary hugeRateDemo hugeRateDemo.sampleRate),
      buffer := flangerDemo.buffer } 0 0
    ⟨by rw [bd2, hwp], by rw [bd2, bd1, hwp, hsize]; decide⟩
  simp only at d1 d2
  rw [bd1, hsize] at d1
  rw [bd3] at d2
  have hd : (iterationState flatLibrary rangeSettings 1
      { p := blockSetup flatLibrary rangeSettings
          (prepareToPlay flatLibrary hugeRateDemo hugeRateDemo.sampleRate),
        buffer := flangerDemo.buffer } 0 0).p.delay.currentDelayTime = 1000000000 := by
    rw [d2]
    norm_num [rangeSettings, defaultSettings]
  refine ⟨by decide, rfl, by norm_num [DeclaredRanges, rangeSettings, defaultSettings],
    hsize, d1, hd, ?_⟩
  rintro ⟨⟨_, h2⟩, _⟩
  rw [hd, d1] at h2
  norm_num at h2

/-- C25, amended by an upper bound on the sample rate: the declared parameter
ranges keep every read inside the buffer at every integer sample rate `sr`
with `200 ≤ sr` and `3 * sr ≤ 2^24`. `prepareToPlay` at such a rate leaves the
processor prepared at `sr`. For a processor prepared at `sr` (buffer sizes of
`prepareToPlay`, stored cursors inside the buffers), settings inside the ranges
declared in `createParameterLayout`, a `sinf` with values in `[-1, 1]`, every
LFO phase and phase offset (those of an arbitrary unit `u`, in particular those
of the unit that is read), every state `st` in which an iteration of the sample
loop of `processBlock` starts and every state `v` in which an iteration of the
voice loop of case 3 starts: the delay in samples of each of the four units
(base delay `currentDelayTime`, flanger and chorus `currentDelayTime +
currentWidth * lfo`, vibrato `currentDelayTime * lfo`) satisfies
`0 < d ≤ bufferSize - 1`, the first argument of `fmodf` is not negative, every
index read is in `[0, bufferSize)` and the integer read position differs from
the write cursor; and these are the delays at which the iteration reads: the
units after `sampleBody` and after `chorusVoice` hold the read position and
the value of `process` at these delays, taken at the unit's own phase. -/
theorem C25_declared_ranges_keep_reads_inside (lib : Library F R) (cs : ChainSettings F)
    (sr : Int) (p0 p : MastersDelayAudioProcessor F R) (buffer : Nat → Nat → F)
    (numSamples channel sample voice : Nat) (u : DelayLineEffect F) (st : BlockState F R)
    (v : DelayLineEffect F × DelayLineEffect F)
    (hsr : 200 ≤ sr) (hhi : 3 * sr ≤ 16777216)
    (hsin : ∀ z : F, -1 ≤ lib.sinf z ∧ lib.sinf z ≤ 1)
    (hr : DeclaredRanges cs) (hp0 : p0.sampleRate = ((sr : Int) : F)) (hp : PreparedAt sr p)
    (hst : st = iterationState lib cs numSamples { p := blockSetup lib cs p, buffer := buffer }
      channel sample)
    (hv : v = chorusVoices lib cs.numOfVoices.toInt cs.chorDepth channel voice
      (st.p.delay.process st.p.delay.currentDelayTime, { st.p.chorus with phaseOffset := 0 })) :
    PreparedAt sr (prepareToPlay lib p0 p0.sampleRate)
      ∧ (ReadInRange st.p.delay st.p.delay.currentDelayTime
        ∧ SameRead (st.p.delay.process st.p.delay.currentDelayTime)
            (sampleBody lib cs channel sample st).p.delay)
      ∧ (ReadInRange st.p.flanger
            (st.p.flanger.currentDelayTime
              + st.p.flanger.currentWidth * u.lfo lib.sinf lib.twoPi false)
        ∧ SameRead
            (if caseOfProcessing cs.flangerOn cs.vibratoOn cs.chorusOn = 1 then
              st.p.flanger.process
                (st.p.flanger.currentDelayTime
                  + st.p.flanger.currentWidth * st.p.flanger.lfo lib.sinf lib.twoPi false)
            else st.p.flanger)
            (sampleBody lib cs channel sample st).p.flanger)
      ∧ (ReadInRange st.p.vibrato
            (st.p.vibrato.currentDelayTime * u.lfo lib.sinf lib.twoPi true)
        ∧ SameRead
            (if caseOfProcessing cs.flangerOn cs.vibratoOn cs.chorusOn = 2 then
              st.p.vibrato.process
                (st.p.vibrato.currentDelayTime * st.p.vibrato.lfo lib.sinf lib.twoPi true)
            else st.p.vibrato)
            (sampleBody lib cs channel sample st).p.vibrato)
      ∧ (ReadInRange v.2
            (v.2.currentDelayTime + v.2.currentWidth * u.lfo lib.sinf lib.twoPi false)
        ∧ SameRead
            (v.2.process
              (v.2.currentDelayTime + v.2.currentWidth * v.2.lfo lib.sinf lib.twoPi false))
            (chorusVoice lib cs.numOfVoices.toInt cs.chorDepth channel voice v).2
        ∧ SameRead
            (if caseOfProcessing cs.flangerOn cs.vibratoOn cs.chorusOn = 3 then
              (chorusVoices lib cs.numOfVoices.toInt cs.chorDepth channel
                (cs.numOfVoices.toInt + 1).toNat
                (st.p.delay.process st.p.delay.currentDelayTime,
                  { st.p.chorus with phaseOffset := 0 })).2
            else st.p.chorus)
            (sampleBody lib cs channel sample st).p.chorus) := by
  obtain ⟨hrate, ⟨sd, wd⟩, ⟨sf, wf⟩, ⟨sv, wv⟩, ⟨sc, wc⟩⟩ := hp
  obtain ⟨⟨r1, r2⟩, ⟨r3, r4⟩, ⟨r5, r6⟩, ⟨r7, r8⟩, ⟨r9, r10⟩, ⟨r11, r12⟩⟩ := hr
  obtain ⟨k1, k2, k3, k4⟩ := @capacity_bounds F _ _ sr hsr
  have le1 : u.lfo lib.sinf lib.twoPi false
      = 1 / 2 + 1 / 4 * lib.sinf (lib.twoPi * (u.phase + u.phaseOffset)) := by simp [lfo]
  have le2 : u.lfo lib.sinf lib.twoPi true
      = 1 / 2 + 1 / 10 * lib.sinf (lib.twoPi * (u.phase + u.phaseOffset)) := by simp [lfo]
  obtain ⟨s1, s2⟩ := hsin (lib.twoPi * (u.phase + u.phaseOffset))
  have l1 : 1 / 4 ≤ u.lfo lib.sinf lib.twoPi false := by rw [le1]; linarith
  have l2 : u.lfo lib.sinf lib.twoPi false ≤ 3 / 4 := by rw [le1]; linarith
  have l3 : 2 / 5 ≤ u.lfo lib.sinf lib.twoPi true := by rw [le2]; linarith
  have l4 : u.lfo lib.sinf lib.twoPi true ≤ 3 / 5 := by rw [le2]; linarith
  have hs : (0 : F) < ((sr : Int) : F) := by
    have : (0 : Int) < sr := by omega
    exact_mod_cast this
  have ht : truncToInt p.sampleRate = sr := by rw [hrate, truncToInt_intCast]
  obtain ⟨bd1, bd2, _, _⟩ := prepareSmoothing_frame p.delay cs.delayTime 0
    (truncToInt p.sampleRate)
  obtain ⟨bf1, bf2, _, _⟩ := prepareSmoothing_frame p.flanger cs.flangDelay cs.flangWidth
    (truncToInt p.sampleRate)
  obtain ⟨bv1, bv2, _, _⟩ := prepareSmoothing_frame p.vibrato cs.vibWidth 0
    (truncToInt p.sampleRate)
  obtain ⟨bc1, bc2, _, _⟩ := prepareSmoothing_frame p.chorus cs.chorDelay cs.chorWidth
    (truncToInt p.sampleRate)
  obtain ⟨bd3, _⟩ := prepareSmoothing_values p.delay cs.delayTime 0 (truncToInt p.sampleRate)
  obtain ⟨bf3, bf4⟩ := prepareSmoothing_values p.flanger cs.flangDelay cs.flangWidth
    (truncToInt p.sampleRate)
  obtain ⟨bv3, _⟩ := prepareSmoothing_values p.vibrato cs.vibWidth 0 (truncToInt p.sampleRate)
  obtain ⟨bc3, bc4⟩ := prepareSmoothing_values p.chorus cs.chorDelay cs.chorWidth
    (truncToInt p.sampleRate)
  have bd1 : (blockSetup lib cs p).delay.bufferSize = p.delay.bufferSize := bd1
  have bd2 : (blockSetup lib cs p).delay.writePosition = p.delay.writePosition := bd2
  have bd3 : (blockSetup lib cs p).delay.currentDelayTime
      = cs.delayTime * ((truncToInt p.sampleRate : Int) : F) := bd3
  have bf1 : (blockSetup lib cs p).flanger.bufferSize = p.flanger.bufferSize := bf1
  have bf2 : (blockSetup lib cs p).flanger.writePosition = p.flanger.writePosition := bf2
  have bf3 : (blockSetup lib cs p).flanger.currentDelayTime
      = cs.flangDelay * ((truncToInt p.sampleRate : Int) : F) := bf3
  have bf4 : (blockSetup lib cs p).flanger.currentWidth
      = (if cs.flangWidth ≠ 0 then cs.flangWidth * ((truncToInt p.sampleRate : Int) : F)
        else p.flanger.currentWidth) := bf4
  have bv1 : (blockSetup lib cs p).vibrato.bufferSize = p.vibrato.bufferSize := bv1
  have bv2 : (blockSetup lib cs p).vibrato.writePosition = p.vibrato.writePosition := bv2
  have bv3 : (blockSetup lib cs p).vibrato.currentDelayTime
      = cs.vibWidth * ((truncToInt p.sampleRate : Int) : F) := bv3
  have bc1 : (blockSetup lib cs p).chorus.bufferSize = p.chorus.bufferSize := bc1
  have bc2 : (blockSetup lib cs p).chorus.writePosition = p.chorus.writePosition := bc2
  have bc3 : (blockSetup lib cs p).chorus.currentDelayTime
      = cs.chorDelay * ((truncToInt p.sampleRate : Int) : F) := bc3
  have bc4 : (blockSetup lib cs p).chorus.currentWidth
      = (if cs.chorWidth ≠ 0 then cs.chorWidth * ((truncToInt p.sampleRate : Int) : F)
        else p.chorus.currentWidth) := bc4
  have hfw : cs.flangWidth ≠ 0 := ne_of_gt (lt_of_lt_of_le (by norm_num) r5)
  have hcw : cs.chorWidth ≠ 0 := ne_of_gt (lt_of_lt_of_le (by norm_num) r11)
  rw [if_pos hfw] at bf4
  rw [if_pos hcw] at bc4
  rw [ht] at bd3 bf3 bf4 bv3 bc3 bc4
  obtain ⟨d1, d2, _, d4, d5⟩ := iterationState_unit_in_range lib cs numSamples
    (fun q => q.delay) 0 false (fun c t j => (sampleBody_advances lib cs c j t).1)
    (fun _ _ => rfl) { p := blockSetup lib cs p, buffer := buffer } channel sample
    ⟨by rw [bd2]; exact wd.1, by rw [bd2, bd1]; exact wd.2⟩
  obtain ⟨f1, f2, f3, f4, f5⟩ := iterationState_unit_in_range lib cs numSamples
    (fun q => q.flanger) cs.flangLfoFreq true
    (fun c t j => (sampleBody_advances lib cs c j t).2.1)
    (fun _ _ => rfl) { p := blockSetup lib cs p, buffer := buffer } channel sample
    ⟨by rw [bf2]; exact wf.1, by rw [bf2, bf1]; exact wf.2⟩
  obtain ⟨v1, v2, _, v4, v5⟩ := iterationState_unit_in_range lib cs numSamples
    (fun q => q.vibrato) cs.vibLfoFreq true
    (fun c t j => (sampleBody_advances lib cs c j t).2.2.1)
    (fun _ _ => rfl) { p := blockSetup lib cs p, buffer := buffer } channel sample
    ⟨by rw [bv2]; exact wv.1, by rw [bv2, bv1]; exact wv.2⟩
  obtain ⟨c1, c2, c3, c4, c5⟩ := iterationState_unit_in_range lib cs numSamples
    (fun q => q.chorus) cs.chorLfoFreq true
    (fun c t j => (sampleBody_advances lib cs c j t).2.2.2)
    (fun _ _ => rfl) { p := blockSetup lib cs p, buffer := buffer } channel sample
    ⟨by rw [bc2]; exact wc.1, by rw [bc2, bc1]; exact wc.2⟩
  simp only at d1 d2 d4 d5 f1 f2 f3 f4 f5 v1 v2 v4 v5 c1 c2 c3 c4 c5
  rw [← hst] at d1 d2 d4 d5 f1 f2 f3 f4 f5 v1 v2 v4 v5 c1 c2 c3 c4 c5
  rw [bd1, sd] at d1
  rw [bd3] at d2
  rw [bf1, sf] at f1
  rw [bf3] at f2
  rw [bf4] at f3
  rw [bv1, sv] at v1
  rw [bv3] at v2
  rw [bc1, sc] at c1
  rw [bc3] at c2
  rw [bc4] at c3
  obtain ⟨_, _, ⟨⟨e1, e2, e3, _⟩, e4, _⟩, _⟩ := chorusVoices_frame lib cs.numOfVoices.toInt
    cs.chorDepth channel voice
    (st.p.delay.process st.p.delay.currentDelayTime,
      ({ st.p.chorus with phaseOffset := 0 } : DelayLineEffect F))
  rw [← hv] at e1 e2 e3 e4
  simp only at e1 e2 e3 e4
  have q1 : SameRead (st.p.delay.process st.p.delay.currentDelayTime)
      (sampleBody lib cs channel sample st).p.delay := by
    simp only [sampleBody, advance]
    apply sameRead_calc
    unfold route
    cases cs.flangerOn <;> cases cs.vibratoOn <;> cases cs.chorusOn <;>
      simp [caseOfProcessing] <;>
      first
        | exact ⟨rfl, rfl, rfl⟩
        | (rw [case3_delay]; exact ⟨rfl, rfl, rfl⟩)
  have q2 : SameRead
      (if caseOfProcessing cs.flangerOn cs.vibratoOn cs.chorusOn = 1 then
        st.p.flanger.process
          (st.p.flanger.currentDelayTime
            + st.p.flanger.currentWidth * st.p.flanger.lfo lib.sinf lib.twoPi false)
      else st.p.flanger)
      (sampleBody lib cs channel sample st).p.flanger := by
    simp only [sampleBody, advance]
    apply sameRead_calc
    unfold route
    cases cs.flangerOn <;> cases cs.vibratoOn <;> cases cs.chorusOn <;>
      simp [caseOfProcessing] <;> exact ⟨rfl, rfl, rfl⟩
  have q3 : SameRead
      (if caseOfProcessing cs.flangerOn cs.vibratoOn cs.chorusOn = 2 then
        st.p.vibrato.process
          (st.p.vibrato.currentDelayTime * st.p.vibrato.lfo lib.sinf lib.twoPi true)
      else st.p.vibrato)
      (sampleBody lib cs channel sample st).p.vibrato := by
    simp only [sampleBody, advance]
    apply sameRead_calc
    unfold route
    cases cs.flangerOn <;> cases cs.vibratoOn <;> cases cs.chorusOn <;>
      simp [caseOfProcessing] <;> exact ⟨rfl, rfl, rfl⟩
  have q4 : SameRead
      (if caseOfProcessing cs.flangerOn cs.vibratoOn cs.chorusOn = 3 then
        (chorusVoices lib cs.numOfVoices.toInt cs.chorDepth channel
          (cs.numOfVoices.toInt + 1).toNat
          (st.p.delay.process st.p.delay.currentDelayTime,
            { st.p.chorus with phaseOffset := 0 })).2
      else st.p.chorus)
      (sampleBody lib cs channel sample st).p.chorus := by
    simp only [sampleBody, advance]
    apply sameRead_calc
    unfold route
    cases cs.flangerOn <;> cases cs.vibratoOn <;> cases cs.chorusOn <;>
      simp [caseOfProcessing] <;> exact ⟨rfl, rfl, rfl⟩
  have q5 : SameRead
      (v.2.process
        (v.2.currentDelayTime + v.2.currentWidth * v.2.lfo lib.sinf lib.twoPi false))
      (chorusVoice lib cs.numOfVoices.toInt cs.chorDepth channel voice v).2 := by
    refine ⟨?_, ?_, ?_⟩
    · simp only [chorusVoice]
      split_ifs <;> simp only [process_readPosition, lfo]
    · simp only [chorusVoice]
      split_ifs <;> simp only [process_localReadPosition, lfo]
    · simp only [chorusVoice]
      split_ifs <;> exact process_out_congr _ _ _ _ rfl rfl rfl rfl rfl
  have q0 : PreparedAt sr (prepareToPlay lib p0 p0.sampleRate) := by
    have hu : (3 : F) * ((sr : Int) : F) ≤ 16777216 := by exact_mod_cast hhi
    have ht0 : truncToInt p0.sampleRate = sr := by rw [hp0, truncToInt_intCast]
    obtain ⟨a1, a2⟩ := prepare_size p0.delay sr (p0.totalNumInputChannels : Int) 3
      (by positivity) (by linarith)
    obtain ⟨a3, a4⟩ := prepare_size p0.flanger sr (p0.totalNumInputChannels : Int)
      (2 / 100 + 2 / 100) (by positivity) (by linarith)
    obtain ⟨a5, a6⟩ := prepare_size p0.vibrato sr (p0.totalNumInputChannels : Int)
      (4 / 100) (by positivity) (by linarith)
    obtain ⟨a7, a8⟩ := prepare_size p0.chorus sr (p0.totalNumInputChannels : Int)
      (8 / 100) (by positivity) (by linarith)
    have t1 := truncToInt_nonneg ((3 : F) * ((sr : Int) : F)) (by positivity)
    have t2 := truncToInt_nonneg ((2 / 100 + 2 / 100 : F) * ((sr : Int) : F)) (by positivity)
    have t3 := truncToInt_nonneg ((4 / 100 : F) * ((sr : Int) : F)) (by positivity)
    have t4 := truncToInt_nonneg ((8 / 100 : F) * ((sr : Int) : F)) (by positivity)
    simp only [PreparedAt, CursorInRange, prepareToPlay, ht0]
    refine ⟨hp0, ⟨a1, ?_, ?_⟩, ⟨a3, ?_, ?_⟩, ⟨a5, ?_, ?_⟩, ⟨a7, ?_, ?_⟩⟩
    · rw [a2]
    · rw [a2, a1]; omega
    · show 0 ≤ (p0.flanger.prepare sr (p0.totalNumInputChannels : Int)
        (2 / 100 + 2 / 100)).writePosition
      rw [a4]
    · show (p0.flanger.prepare sr (p0.totalNumInputChannels : Int)
        (2 / 100 + 2 / 100)).writePosition
          < (p0.flanger.prepare sr (p0.totalNumInputChannels : Int)
              (2 / 100 + 2 / 100)).bufferSize
      rw [a4, a3]; omega
    · show 0 ≤ (p0.vibrato.prepare sr (p0.totalNumInputChannels : Int) (4 / 100)).writePosition
      rw [a6]
    · show (p0.vibrato.prepare sr (p0.totalNumInputChannels : Int) (4 / 100)).writePosition
          < (p0.vibrato.prepare sr (p0.totalNumInputChannels : Int) (4 / 100)).bufferSize
      rw [a6, a5]; omega
    · show 0 ≤ (p0.chorus.prepare sr (p0.totalNumInputChannels : Int) (8 / 100)).writePosition
      rw [a8]
    · show (p0.chorus.prepare sr (p0.totalNumInputChannels : Int) (8 / 100)).writePosition
          < (p0.chorus.prepare sr (p0.totalNumInputChannels : Int) (8 / 100)).bufferSize
      rw [a8, a7]; omega
  refine ⟨q0, ⟨?_, q1⟩, ⟨?_, q2⟩, ⟨?_, q3⟩, ?_, q5, q4⟩
  · apply readInRange_of _ _ _ _ d4 d5
    · rw [d2]
      exact mul_pos (lt_of_lt_of_le (by norm_num) r1) hs
    · rw [d2, d1, k1]
      exact mul_le_mul_of_nonneg_right r2 hs.le
  · obtain ⟨g1, g2⟩ := delay_bounds cs.flangDelay cs.flangWidth (u.lfo lib.sinf lib.twoPi false)
      ((sr : Int) : F) (2 / 100) (2 / 100) (3 / 4) (lt_of_lt_of_le (by norm_num) r3) r4
      (le_trans (by norm_num) r5) r6 (le_trans (by norm_num) l1) l2 hs
    apply readInRange_of _ _ _ _ f4 f5
    · rw [f2, f3]
      exact g1
    · rw [f2, f3, f1]
      refine le_trans g2 (le_trans ?_ k2)
      apply le_of_eq
      ring
  · apply readInRange_of _ _ _ _ v4 v5
    · rw [v2]
      exact mul_pos (mul_pos (lt_of_lt_of_le (by norm_num) r7) hs)
        (lt_of_lt_of_le (by norm_num) l3)
    · rw [v2, v1]
      refine le_trans ?_ k3
      have h1 : cs.vibWidth * ((sr : Int) : F) ≤ 4 / 100 * ((sr : Int) : F) :=
        mul_le_mul_of_nonneg_right r8 hs.le
      have h2 : cs.vibWidth * ((sr : Int) : F) * u.lfo lib.sinf lib.twoPi true
          ≤ 4 / 100 * ((sr : Int) : F) * (3 / 5) :=
        mul_le_mul h1 l4 (le_trans (by norm_num) l3) (by positivity)
      refine le_trans h2 (le_of_eq ?_)
      ring
  · obtain ⟨g1, g2⟩ := delay_bounds cs.chorDelay cs.chorWidth (u.lfo lib.sinf lib.twoPi false)
      ((sr : Int) : F) (5 / 100) (3 / 100) (3 / 4) (lt_of_lt_of_le (by norm_num) r9) r10
      (le_trans (by norm_num) r11) r12 (le_trans (by norm_num) l1) l2 hs
    apply readInRange_of _ _ _ _ (by rw [e4]; exact c4) (by rw [e4, e1]; exact c5)
    · rw [e2, e3, c2, c3]
      exact g1
    · rw [e2, e3, e1, c2, c3, c1]
      refine le_trans g2 (le_trans ?_ k4)
      apply le_of_eq
      ring

/-- C25 at a concrete processor: `rangeDemo` prepared at 200 Hz, the settings
`rangeSettings`, the library whose `sinf` is constantly 0, the first iteration
of the sample loop and the first iteration of the voice loop. -/
theorem C25_declared_ranges_keep_reads_inside_witness :
    PreparedAt 200 (prepareToPlay flatLibrary rangeDemo rangeDemo.sampleRate)
      ∧ (ReadInRange
          (iterationState flatLibrary rangeSettings 1
            { p := blockSetup flatLibrary rangeSettings
                (prepareToPlay flatLibrary rangeDemo rangeDemo.sampleRate),
              buffer := flangerDemo.buffer } 0 0).p.delay
          (iterationState flatLibrary rangeSettings 1
            { p := blockSetup flatLibrary rangeSettings
                (prepareToPlay flatLibrary rangeDemo rangeDemo.sampleRate),
              buffer := flangerDemo.buffer } 0 0).p.delay.currentDelayTime
        ∧ SameRead
          ((iterationState flatLibrary rangeSettings 1
            { p := blockSetup flatLibrary rangeSettings
                (prepareToPlay flatLibrary rangeDemo rangeDemo.sampleRate),
              buffer := flangerDemo.buffer } 0 0).p.delay.process
            (iterationState flatLibrary rangeSettings 1
              { p := blockSetup flatLibrary rangeSettings
                  (prepareToPlay flatLibrary rangeDemo rangeDemo.sampleRate),
                buffer := flangerDemo.buffer } 0 0).p.delay.currentDelayTime)
          (sampleBody flatLibrary rangeSettings 0 0
            (iterationState flatLibrary rangeSettings 1
              { p := blockSetup flatLibrary rangeSettings
                  (prepareToPlay flatLibrary rangeDemo rangeDemo.sampleRate),
                buffer := flangerDemo.buffer } 0 0)).p.delay) :=
  ⟨(C25_declared_ranges_keep_reads_inside flatLibrary rangeSettings 200 rangeDemo
      (prepareToPlay flatLibrary rangeDemo rangeDemo.sampleRate) flangerDemo.buffer 1 0 0 0
      blankUnit _ _ (by decide) (by decide)
      (fun _ => ⟨by norm_num [flatLibrary], by norm_num [flatLibrary]⟩)
      (by norm_num [DeclaredRanges, rangeSettings, defaultSettings]) rfl
      (prepareToPlay_preparedAt flatLibrary rangeDemo 200 (by decide) (by decide) rfl)
      rfl rfl).1,
    (C25_declared_ranges_keep_reads_inside flatLibrary rangeSettings 200 rangeDemo
      (prepareToPlay flatLibrary rangeDemo rangeDemo.sampleRate) flangerDemo.buffer 1 0 0 0
      blankUnit _ _ (by decide) (by decide)
      (fun _ => ⟨by norm_num [flatLibrary], by norm_num [flatLibrary]⟩)
      (by norm_num [DeclaredRanges, rangeSettings, defaultSettings]) rfl
      (prepareToPlay_preparedAt flatLibrary rangeDemo 200 (by decide) (by decide) rfl)
      rfl rfl).2.1⟩

end RangeClaims

end MastersDelay
